import Mathlib

/-!
NSML core — shallow embedding and verification

This file embeds the core of the NSML reasoning engine (symbol resolution,
expression compilation, evaluation engine) in Lean 4 and proves or refutes the
frozen specification claims about it.

The TypeScript sources contain several revisions of each module; each Lean
definition names in its doc comment the revision (by file and function) it
translates.  JavaScript runtime values are modelled by the inductive `Value`
below; JavaScript numbers are modelled as exact rationals plus an explicit
`NaN` (IEEE-754 rounding never occurs in the integer-sized inputs the claims
are about, so exact rationals are a faithful model there; divergences are
noted where they could occur).  Mutable error/trace arrays are modelled by
explicit state passing.
-/

namespace NSML

/-- A JavaScript number: either `NaN` or an exact rational.  (`Infinity` does
not arise in any verified computation and is mapped to `nan` where JS would
produce it; this is noted at each such operation.) -/
inductive JNum where
  | nan : JNum
  | rat : ℚ → JNum
deriving DecidableEq, BEq

/-- JS addition on numbers (`NaN` propagates). -/
def JNum.add : JNum → JNum → JNum
  | .rat a, .rat b => .rat (a + b)
  | _, _ => .nan

/-- JS subtraction on numbers. -/
def JNum.sub : JNum → JNum → JNum
  | .rat a, .rat b => .rat (a - b)
  | _, _ => .nan

/-- JS multiplication on numbers. -/
def JNum.mul : JNum → JNum → JNum
  | .rat a, .rat b => .rat (a * b)
  | _, _ => .nan

/-- JS division on numbers.  Division by zero yields `Infinity`/`NaN` in JS;
both are mapped to `nan` here (no verified claim divides by zero). -/
def JNum.div : JNum → JNum → JNum
  | .rat a, .rat b => if b = 0 then .nan else .rat (a / b)
  | _, _ => .nan

/-- Truncation of a rational toward zero, as JS `%` requires. -/
def ratTrunc (q : ℚ) : ℤ :=
  if 0 ≤ q then ⌊q⌋ else -⌊-q⌋

/-- JS remainder `%` (sign of the dividend; `x % 0` is `NaN`). -/
def JNum.mod : JNum → JNum → JNum
  | .rat a, .rat b => if b = 0 then .nan else .rat (a - b * (ratTrunc (a / b) : ℚ))
  | _, _ => .nan

/-- JS `Math.pow`.  Only integer exponents are modelled exactly; a fractional
exponent (a real root in JS) and `0` raised to a negative power (`Infinity`
in JS) are mapped to `nan`.  No verified claim exercises those cases. -/
def JNum.pow : JNum → JNum → JNum
  | .rat a, .rat b =>
      if b.den = 1 then
        if a = 0 ∧ b.num < 0 then .nan else .rat (a ^ b.num)
      else .nan
  | _, _ => .nan

/-- JS `<` on numbers (`false` whenever `NaN` is involved). -/
def JNum.lt : JNum → JNum → Bool
  | .rat a, .rat b => a < b
  | _, _ => false

/-- JS `<=` on numbers (`false` whenever `NaN` is involved). -/
def JNum.le : JNum → JNum → Bool
  | .rat a, .rat b => a ≤ b
  | _, _ => false

/-- The graph value shape of `types.ts` (`Graph`): a `Set` of node names and
a `Map` from source node to a `Map` from relation label to destination node.
JS `Set`/`Map` iterate in insertion order, so both are modelled as lists /
association lists. -/
structure Graph where
  nodes : List String
  edges : List (String × List (String × String))
deriving DecidableEq, BEq

/-- A JavaScript runtime value, restricted to the shapes the engine builds:
primitives, arrays, plain objects, `Set`s, graphs, and the tagged error
object produced by the `error(...)` builtin.  `Set` elements are kept as an
insertion-ordered list.  (`===` on two distinct non-primitive objects is
reference equality in JS; no verified claim compares non-primitive values, so
the structural `DecidableEq` below is only used on primitives.) -/
inductive Value where
  | vNull : Value
  | vUndef : Value
  | vBool : Bool → Value
  | vNum : JNum → Value
  | vStr : String → Value
  | vList : List Value → Value
  | vSet : List Value → Value
  | vObj : List (String × Value) → Value
  | vGraph : Graph → Value
  | vErrTag : Value → Value

mutual

/-- Structural boolean equality on values (the executable core of `===`). -/
def Value.beq : Value → Value → Bool
  | .vNull, .vNull => true
  | .vUndef, .vUndef => true
  | .vBool a, .vBool b => a == b
  | .vNum a, .vNum b => a == b
  | .vStr a, .vStr b => a == b
  | .vList a, .vList b => Value.beqList a b
  | .vSet a, .vSet b => Value.beqList a b
  | .vObj a, .vObj b => Value.beqFields a b
  | .vGraph a, .vGraph b => a == b
  | .vErrTag a, .vErrTag b => Value.beq a b
  | _, _ => false

/-- Elementwise `Value.beq` on lists. -/
def Value.beqList : List Value → List Value → Bool
  | [], [] => true
  | a :: as, b :: bs => Value.beq a b && Value.beqList as bs
  | _, _ => false

/-- Elementwise `Value.beq` on field lists. -/
def Value.beqFields : List (String × Value) → List (String × Value) → Bool
  | [], [] => true
  | (k, a) :: as, (l, b) :: bs => k == l && Value.beq a b && Value.beqFields as bs
  | _, _ => false

end

instance : BEq Value := ⟨Value.beq⟩

/-- JS truthiness: `false`, `0`, `NaN`, `""`, `null`, `undefined` are falsy;
every object (array, set, graph, plain object) is truthy. -/
def truthy : Value → Bool
  | .vNull => false
  | .vUndef => false
  | .vBool b => b
  | .vNum .nan => false
  | .vNum (.rat q) => q ≠ 0
  | .vStr s => s ≠ ""
  | _ => true

/-- JS `String.prototype.trim()`: strip whitespace at both ends (equals
`String.trim`, restated over the character list so that concrete instances
reduce inside the kernel). -/
def strTrim (s : String) : String :=
  String.mk (((s.toList.dropWhile Char.isWhitespace).reverse.dropWhile
    Char.isWhitespace).reverse)

/-- List-level prefix test (equals `List.isPrefixOf` over `=`). -/
def leadsWith : List Char → List Char → Bool
  | [], _ => true
  | _ :: _, [] => false
  | p :: ps, c :: cs => p = c && leadsWith ps cs

/-- Splitting loop of `strSplitOn`: `fu` bounds the scan (each step consumes
at least one character). -/
def splitGo (sep : List Char) : ℕ → List Char → List Char → List (List Char)
  | _, [], acc => [acc.reverse]
  | 0, c :: cs, acc => [acc.reverse ++ c :: cs]
  | fu + 1, c :: cs, acc =>
      if leadsWith sep (c :: cs) then
        acc.reverse :: splitGo sep fu ((c :: cs).drop sep.length) []
      else splitGo sep fu cs (c :: acc)

/-- JS `String.prototype.split(sep)` for a non-empty separator (equals
`String.splitOn`, restated so that concrete instances reduce inside the
kernel); an empty separator returns the string whole. -/
def strSplitOn (s sep : String) : List String :=
  if sep = "" then [s]
  else (splitGo sep.toList (s.toList.length + 1) s.toList []).map String.mk

/-- JS `String.prototype.startsWith` (kernel-reducible restatement). -/
def strStartsWith (s pre : String) : Bool := leadsWith pre.toList s.toList

/-- JS `String.prototype.endsWith` (kernel-reducible restatement). -/
def strEndsWith (s suf : String) : Bool :=
  leadsWith suf.toList.reverse s.toList.reverse

/-- JS `String.prototype.toLowerCase` on ASCII data (kernel-reducible
restatement of `String.toLower`). -/
def strToLower (s : String) : String := String.mk (s.toList.map Char.toLower)

/-- Decide whether a character is an ASCII decimal digit. -/
def isDigitCh (c : Char) : Bool := '0' ≤ c ∧ c ≤ '9'

/-- Numeric value of a digit character. -/
def digitVal (c : Char) : ℕ := c.toNat - '0'.toNat

/-- Parse a run of decimal digits into (value, count). -/
def digitsVal : List Char → ℕ × ℕ
  | [] => (0, 0)
  | c :: cs =>
      let (v, n) := digitsVal cs
      (digitVal c * 10 ^ n + v, n + 1)

/-- Parse a full decimal literal `digits[.digits]` (no sign); `none` when the
shape is not exactly that.  This is the common core of the JS string→number
conversions below. -/
def parseDecCore (cs : List Char) : Option ℚ :=
  let intPart := cs.takeWhile isDigitCh
  let rest := cs.dropWhile isDigitCh
  if intPart.isEmpty then none
  else
    match rest with
    | [] => some ((digitsVal intPart).1 : ℚ)
    | '.' :: fracs =>
        let fracPart := fracs.takeWhile isDigitCh
        let rest2 := fracs.dropWhile isDigitCh
        if rest2.isEmpty then
          let (fv, fn) := digitsVal fracPart
          some (((digitsVal intPart).1 : ℚ) + (fv : ℚ) / (10 ^ fn : ℚ))
        else none
    | _ => none

/-- JS `Number(string)` (ToNumber): trim whitespace, empty → `0`, optional
sign, then a decimal literal; anything else → `NaN`.  Hexadecimal, exponent
and `Infinity` forms are not modelled (no claim exercises them). -/
def jsStringToNumber (s : String) : JNum :=
  let t := strTrim s
  if t = "" then .rat 0
  else
    match t.toList with
    | '-' :: cs => match parseDecCore cs with
      | some q => .rat (-q)
      | none => .nan
    | '+' :: cs => match parseDecCore cs with
      | some q => .rat q
      | none => .nan
    | cs => match parseDecCore cs with
      | some q => .rat q
      | none => .nan

/-- JS `parseFloat(string)`: like `Number` but parses the longest numeric
prefix and ignores trailing text; `NaN` when no digits start the trimmed
string.  Modelled for sign plus `digits[.digits]` prefixes (no exponent). -/
def jsParseFloat (s : String) : JNum :=
  let t := strTrim s
  let core : List Char → Option ℚ := fun cs =>
    let intPart := cs.takeWhile isDigitCh
    if intPart.isEmpty then none
    else
      let rest := cs.dropWhile isDigitCh
      match rest with
      | '.' :: fracs =>
          let fracPart := fracs.takeWhile isDigitCh
          let (fv, fn) := digitsVal fracPart
          some (((digitsVal intPart).1 : ℚ) + (fv : ℚ) / (10 ^ fn : ℚ))
      | _ => some ((digitsVal intPart).1 : ℚ)
  match t.toList with
  | '-' :: cs => match core cs with
    | some q => .rat (-q)
    | none => .nan
  | '+' :: cs => match core cs with
    | some q => .rat q
    | none => .nan
  | cs => match core cs with
    | some q => .rat q
    | none => .nan

/-- Decimal rendering of an integer (used by `jsNumToString`). -/
def intToString (i : ℤ) : String :=
  if i < 0 then "-" ++ toString i.natAbs else toString i.natAbs

/-- JS number→string: integers render in decimal; non-integer rationals are
rendered as `num/den` (a divergence from JS decimal rendering, confined to
trace strings that no claim inspects); `NaN` renders as `"NaN"`. -/
def jsNumToString : JNum → String
  | .nan => "NaN"
  | .rat q => if q.den = 1 then intToString q.num
              else intToString q.num ++ "/" ++ toString q.den

/-- JS string coercion `${v}` of a value, best effort.  Only used to build
trace strings and numeric coercions of compound values; no verified claim
depends on the exact rendering of compound values. -/
def jsToString : Value → String
  | .vNull => "null"
  | .vUndef => "undefined"
  | .vBool b => if b then "true" else "false"
  | .vNum n => jsNumToString n
  | .vStr s => s
  | .vList _ => "[object Array]"
  | .vSet _ => "[object Set]"
  | .vObj _ => "[object Object]"
  | .vGraph _ => "[object Object]"
  | .vErrTag _ => "[object Object]"

/-- The object-property key JS uses for `context[tree.value]`: strings index
directly, any other primitive is coerced to its string form.  In practice
only string values occur in identifier position. -/
def propKey : Value → String := jsToString

/-- JS `Number(value)` on an arbitrary value.  Arrays/objects coerce through
strings in JS (`Number([]) = 0`, `Number([x]) = Number(x)`, otherwise `NaN`);
they are conservatively mapped to `NaN` here, which no verified claim
exercises. -/
def jsToNumber : Value → JNum
  | .vNull => .rat 0
  | .vUndef => .nan
  | .vBool b => .rat (if b then 1 else 0)
  | .vNum n => n
  | .vStr s => jsStringToNumber s
  | _ => .nan

/-- `Number(left)` when `left` may be `undefined` (an absent operand of a
binary node): `Number(undefined) = NaN`. -/
def jsToNumberOpt : Option Value → JNum
  | some v => jsToNumber v
  | none => .nan

/-- JS strict equality `===` restricted to the primitive cases; two compound
values compare by structure here where JS compares references (never
exercised by a verified claim, noted at the definition of `Value`). -/
def strictEq (a b : Value) : Bool := Value.beq a b

/-- JS SameValueZero equality, used by `Set.prototype.has` and
`Array.prototype.includes`: like `===` but `NaN` equals `NaN`. -/
def svzEq (a b : Value) : Bool :=
  match a, b with
  | .vNum .nan, .vNum .nan => true
  | _, _ => strictEq a b

/-- `Map.prototype.set` on an association list: replace the value under an
existing key, else append a fresh entry (JS `Map` keeps insertion order). -/
def setKV {α : Type} : List (String × α) → String → α → List (String × α)
  | [], k, v => [(k, v)]
  | (k', v') :: rest, k, v =>
      if k' = k then (k', v) :: rest else (k', v') :: setKV rest k v

/-- `graph.edges.get(curr)?.values() || []`: the neighbor targets of `v`, in
insertion order of the relation map. -/
def nbrs (g : Graph) (v : String) : List String :=
  match g.edges.lookup v with
  | some rels => rels.map Prod.snd
  | none => []

/-- Every destination node mentioned in the adjacency structure; only nodes
from this list (plus the start node) can ever be enqueued by the BFS. -/
def allTargets (g : Graph) : List String :=
  g.edges.flatMap (fun e => e.2.map Prod.snd)

/-- How many potential BFS enqueue candidates are not yet visited (a fuel
measure for `bfsLoop`). -/
def targsLeft (g : Graph) (visited : List String) : ℕ :=
  ((allTargets g).dedup.filter (fun x => x ∉ visited)).length

/-- The inner `for (const neigh of neighbors)` loop of the BFS in the `path`
builtin: push each unvisited neighbor, mark it visited, and record its parent
pointer.  Returns the updated `(queue, visited, parent)`. -/
def pushNbrs (curr : String) :
    List String → List String → List String → List (String × Option String) →
    List String × List String × List (String × Option String)
  | [], queue, visited, parent => (queue, visited, parent)
  | n :: ns, queue, visited, parent =>
      if n ∈ visited then pushNbrs curr ns queue visited parent
      else pushNbrs curr ns (queue ++ [n]) (visited ++ [n]) (setKV parent n (some curr))

/-- One search outcome of the BFS loop: the target was dequeued (`found`,
with the final parent map for path reconstruction) or the queue ran out. -/
inductive BfsResult where
  | found : List (String × Option String) → BfsResult
  | notFound : BfsResult
deriving DecidableEq

/-- The `while (queue.length > 0)` loop of the `path` builtin (the BFS block
is textually identical in `evalTree` of both `evaluator.ts` revisions and in
`evalExpr` of the compiler): pop the queue head, stop when it is the target,
otherwise visit its unvisited neighbors.  `fuel` bounds the iteration count;
`pathBFS` supplies a provably sufficient amount (`bfsLoop_total`), so the
`none` (out-of-fuel) result never occurs there. -/
def bfsLoop (g : Graph) (toN : String) :
    ℕ → List String → List String → List (String × Option String) → Option BfsResult
  | _, [], _, _ => some .notFound
  | 0, _ :: _, _, _ => none
  | fuel + 1, curr :: rest, visited, parent =>
      if curr = toN then some (.found parent)
      else
        let s := pushNbrs curr (nbrs g curr) rest visited parent
        bfsLoop g toN fuel s.1 s.2.1 s.2.2

/-- The path-reconstruction loop after a successful search: starting from the
target, prepend the current node and follow its parent pointer until the root
(whose recorded parent is `null`).  `fuel` bounds the walk; `pathBFS`
supplies enough for any parent map `bfsLoop` can produce.  A missing parent
entry (JS `parent.get(curr)!` yielding `undefined`, which would make the JS
loop diverge) is mapped to `none`; it never occurs for maps built by
`bfsLoop`. -/
def rebuild (parent : List (String × Option String)) :
    ℕ → Option String → List String → Option (List String)
  | _, none, acc => some acc
  | 0, some _, _ => none
  | fuel + 1, some c, acc =>
      match parent.lookup c with
      | some p => rebuild parent fuel p (c :: acc)
      | none => none

/-- Fuel that provably suffices for the whole BFS: one dequeue of the start
node plus one for every distinct edge target. -/
def bfsFuel (g : Graph) : ℕ := 1 + (allTargets g).dedup.length

/-- The `path(graph, from, to)` builtin of the evaluation engine: an
unweighted breadth-first search from `fromN`, returning the reconstructed
node sequence, or `none` (JS `null`) when `toN` is unreachable. -/
def pathBFS (g : Graph) (fromN toN : String) : Option (List String) :=
  match bfsLoop g toN (bfsFuel g) [fromN] [fromN] [(fromN, none)] with
  | some (.found parent) => rebuild parent (parent.length + 1) (some toN) []
  | some .notFound => none
  | none => none

/-- `l` is a walk of `g`: every consecutive pair of nodes is joined by an
edge (under some relation label). -/
def IsWalk (g : Graph) (l : List String) : Prop :=
  List.Chain' (fun u v => v ∈ nbrs g u) l

instance (g : Graph) (l : List String) : Decidable (IsWalk g l) := by
  unfold IsWalk; infer_instance

/-- `l` is a path of `g` from `a` to `b`: a nonempty walk starting at `a`
and ending at `b`. -/
def PathFrom (g : Graph) (a b : String) (l : List String) : Prop :=
  l.head? = some a ∧ l.getLast? = some b ∧ IsWalk g l

instance (g : Graph) (a b : String) (l : List String) : Decidable (PathFrom g a b l) := by
  unfold PathFrom; infer_instance

/-- The nodes that one `pushNbrs` pass newly visits: the first occurrences,
in order, of the unvisited entries of `ns`. -/
def newOf (visited : List String) : List String → List String
  | [] => []
  | n :: ns =>
      if n ∈ visited then newOf visited ns
      else n :: newOf (visited ++ [n]) ns

/-- The loop invariant of the BFS in the `path` builtin.  `d` is the (ghost)
level of each visited node: its distance from the start node `a`. -/
structure BfsInv (g : Graph) (a : String) (queue visited : List String)
    (parent : List (String × Option String)) (d : String → ℕ) : Prop where
  nodupV : visited.Nodup
  qSub : ∀ v ∈ queue, v ∈ visited
  rootV : a ∈ visited
  keys : parent.map Prod.fst = visited
  da : d a = 0
  parentOk : ∀ v ∈ visited, v ≠ a →
    ∃ u, parent.lookup v = some (some u) ∧ u ∈ visited ∧ v ∈ nbrs g u ∧ d v = d u + 1
  rebuildOk : ∀ v ∈ visited, ∀ acc : List String, ∀ fuel : ℕ, d v + 1 ≤ fuel →
    ∃ l, rebuild parent fuel (some v) acc = some (l ++ acc) ∧
      PathFrom g a v l ∧ l.length = d v + 1
  minimal : ∀ v ∈ visited, ∀ l, PathFrom g a v l → d v + 1 ≤ l.length
  closure : ∀ u ∈ visited, u ∉ queue → ∀ w ∈ nbrs g u, w ∈ visited
  sortedQ : List.Chain' (· ≤ ·) (queue.map d)
  spread : ∀ u ∈ queue, ∀ v ∈ queue, d v ≤ d u + 1

/-- Concrete graph used by witnesses: `A → B → D` and `C → D`
(`D` has no outgoing edges, so `A` is unreachable from `D`). -/
def wGraph : Graph :=
  ⟨["A", "B", "C", "D"], [("A", [("to", "B")]), ("B", [("to", "D")]), ("C", [("to", "D")])]⟩

/-! ### Expression trees, errors and evaluator state -/

/-- The `Operator` union of `types.ts`.  `in` is a Lean keyword, so the
membership operator is named `inOp`; `path` (declared in the union but never
produced by any parser, hence handled by the `default` switch branch) is
`pathOp`. -/
inductive Operator where
  | and | or | not | imp | iff | eq | ne
  | add | sub | mul | div | mod | pow
  | ge | le | gt | lt
  | inOp | union | intersect | diff | pathOp
deriving DecidableEq

/-- The `ExprNode` record of `types.ts` is a record of optional fields; the
parsers only ever produce three shapes, which become the constructors here:
a literal-or-identifier (`value` set — note the parser stores an identifier
as a string `value`, indistinguishable from a string literal), a function
call (`func`/`args` set), and an operator application (`op` set, `left`
absent for a unary node).  `line` is only set by the `part_002` revision of
the expression parser. -/
inductive ExprNode where
  | lit : Value → Option ℕ → ExprNode
  | call : String → List ExprNode → Option ℕ → ExprNode
  | opn : Operator → Option ExprNode → Option ExprNode → Option ℕ → ExprNode

/-- The `EvalError` record of `types.ts`.  The `type` field is one of the
strings `"syntax"`, `"semantic"`, `"runtime"` exactly as in the source. -/
structure EvalError where
  type : String
  message : String
  suggestedFix : Option String
  line : Option ℕ
deriving DecidableEq

/-- Build an error without a suggested fix. -/
def mkErr (ty msg : String) (line : Option ℕ) : EvalError := ⟨ty, msg, none, line⟩

/-- Build an error with a suggested fix. -/
def mkErrFix (ty msg fix : String) (line : Option ℕ) : EvalError := ⟨ty, msg, some fix, line⟩

/-- A value context: the plain JS object mapping names to values
(`Record<string, any>`), modelled as an insertion-ordered association list
with unique keys. -/
def Ctx := List (String × Value)

/-- `context[k]` (`none` models JS `undefined` for an absent key; note a key
may also be explicitly bound to `Value.vUndef`). -/
def ctxGet (ctx : Ctx) (k : String) : Option Value := List.lookup k ctx

/-- `context[k] = v` / spread-override: replace or append the binding. -/
def ctxSet (ctx : Ctx) (k : String) (v : Value) : Ctx := setKV ctx k v

/-- The mutable state of one `evaluate` run: the `results` record, the
shared `errors` array, the main `trace` array, and the per-target
`simulateTraces` buffers of the latest evaluator revision.  All JS `push`
mutations become functional appends. -/
structure EvalSt where
  results : List (String × Value)
  errors : List EvalError
  trace : List String
  simTraces : List (String × List String)

/-- The empty evaluator state. -/
def initSt : EvalSt := ⟨[], [], [], []⟩

/-- Append an error to the shared `errors` array. -/
def pushErr (e : EvalError) (st : EvalSt) : EvalSt :=
  { st with errors := st.errors ++ [e] }

/-- The buffer a `targetTrace` argument aliases: the main trace (`none`) or
a per-target simulate buffer (`some target`). -/
def getBuf (sel : Option String) (st : EvalSt) : List String :=
  match sel with
  | none => st.trace
  | some t => ((st.simTraces).lookup t).getD []

/-- Write back the buffer selected by `sel`. -/
def setBuf (sel : Option String) (buf : List String) (st : EvalSt) : EvalSt :=
  match sel with
  | none => { st with trace := buf }
  | some t => { st with simTraces := setKV st.simTraces t buf }

/-- `targetTrace.push(s)`. -/
def pushTrace (sel : Option String) (s : String) (st : EvalSt) : EvalSt :=
  setBuf sel (getBuf sel st ++ [s]) st

/-- An absent operand of a binary node is JS `undefined`. -/
def toVal : Option Value → Value
  | none => .vUndef
  | some v => v

/-- First occurrences under SameValueZero — the effect of `new Set(iterable)`
on the element list. -/
def svzDedup : List Value → List Value
  | [] => []
  | v :: rest => v :: svzDedup (rest.filter (fun x => !(svzEq x v)))
termination_by l => l.length
decreasing_by
  simp only [List.length_cons]
  exact Nat.lt_succ_of_le (List.length_filter_le _ _)

/-- The operator `switch` of `evalTree` (textually identical in both
revisions of `evaluator.ts`, lines 199–252 and 887–940): both operands are
evaluated eagerly before the switch, `left` is absent (`undefined`) for a
unary node, and no branch reports an error — the set operators silently
yield `null` on non-set operands and the unused `path` member of `Operator`
falls through to `default: return null`. -/
def evalTreeBinop (op : Operator) (left right : Option Value) : Value :=
  match op with
  | .add => .vNum (JNum.add (jsToNumberOpt left) (jsToNumberOpt right))
  | .sub => .vNum (JNum.sub (jsToNumberOpt left) (jsToNumberOpt right))
  | .mul => .vNum (JNum.mul (jsToNumberOpt left) (jsToNumberOpt right))
  | .div => .vNum (JNum.div (jsToNumberOpt left) (jsToNumberOpt right))
  | .mod => .vNum (JNum.mod (jsToNumberOpt left) (jsToNumberOpt right))
  | .pow => .vNum (JNum.pow (jsToNumberOpt left) (jsToNumberOpt right))
  | .ge => .vBool (JNum.le (jsToNumberOpt right) (jsToNumberOpt left))
  | .le => .vBool (JNum.le (jsToNumberOpt left) (jsToNumberOpt right))
  | .gt => .vBool (JNum.lt (jsToNumberOpt right) (jsToNumberOpt left))
  | .lt => .vBool (JNum.lt (jsToNumberOpt left) (jsToNumberOpt right))
  | .eq => .vBool (strictEq (toVal left) (toVal right))
  | .ne => .vBool (!(strictEq (toVal left) (toVal right)))
  | .not => .vBool (!(truthy (toVal right)))
  | .and => if truthy (toVal left) then toVal right else toVal left
  | .or => if truthy (toVal left) then toVal left else toVal right
  | .imp => if truthy (toVal left) then toVal right else .vBool true
  | .iff =>
      -- (left && right) || (!left && !right)
      let l := toVal left
      let r := toVal right
      let conj := if truthy l then r else l
      let nconj : Value := if truthy l then .vBool false else .vBool (!(truthy r))
      if truthy conj then conj else nconj
  | .inOp =>
      match toVal right with
      | .vSet elems => .vBool (elems.any (fun e => svzEq (toVal left) e))
      | .vList elems => .vBool (elems.any (fun e => svzEq (toVal left) e))
      | _ => .vBool false
  | .union =>
      match toVal left, toVal right with
      | .vSet a, .vSet b => .vSet (svzDedup (a ++ b))
      | _, _ => .vNull
  | .intersect =>
      match toVal left, toVal right with
      | .vSet a, .vSet b => .vSet (a.filter (fun x => b.any (fun e => svzEq x e)))
      | _, _ => .vNull
  | .diff =>
      match toVal left, toVal right with
      | .vSet a, .vSet b => .vSet (a.filter (fun x => !(b.any (fun e => svzEq x e))))
      | _, _ => .vNull
  | .pathOp => .vNull

/-- Source-token spelling of each operator (used in trace and error
strings). -/
def opStr : Operator → String
  | .and => "&&"
  | .or => "||"
  | .not => "!"
  | .imp => "=>"
  | .iff => "<=>"
  | .eq => "=="
  | .ne => "!="
  | .add => "+"
  | .sub => "-"
  | .mul => "*"
  | .div => "/"
  | .mod => "%"
  | .pow => "^"
  | .ge => ">="
  | .le => "<="
  | .gt => ">"
  | .lt => "<"
  | .inOp => "in"
  | .union => "union"
  | .intersect => "intersect"
  | .diff => "diff"
  | .pathOp => "path"

/-- JS unary negation `-Number(x)`. -/
def JNum.neg : JNum → JNum
  | .nan => .nan
  | .rat q => .rat (-q)

/-- The two mutable arrays (`errors`, `trace`) threaded through `evalExpr`
of the compiler. -/
structure ExprSt where
  errors : List EvalError
  trace : List String

/-- `errors.push(e)` inside `evalExpr`. -/
def ExprSt.pushE (st : ExprSt) (e : EvalError) : ExprSt :=
  { st with errors := st.errors ++ [e] }

/-- `trace.push(s)` inside `evalExpr`. -/
def ExprSt.pushT (st : ExprSt) (s : String) : ExprSt :=
  { st with trace := st.trace ++ [s] }

/-- Best-effort `JSON.stringify` of an argument array (feeds trace strings
only; the exact rendering is irrelevant to every claim). -/
def jsonArgs (args : List Value) : String :=
  "[" ++ String.intercalate "," (args.map jsToString) ++ "]"

/-- The non-short-circuited part of the operator `switch` of the compiler's
`evalExpr` (`part_002`, lines 788–868): unary nodes arrive with `leftVal`
absent (handled in `+`/`-` — note the source returns the *negated* right
operand for a left-less `+` as well), the membership/set operators push
runtime errors on ill-typed operands, and any operator not listed falls to
the `default` branch (`Unsupported operator`).  The short-circuited logical
operators are dispatched before this switch is reached, so their cases here
are only reachable through the `default`-like dead path and are given the
`default` behavior. -/
def evalExprSwitch (op : Operator) (leftVal rightVal : Option Value) (line : ℕ)
    (st : ExprSt) : Value × ExprSt :=
  match op with
  | .add =>
      match leftVal with
      | none => (.vNum (JNum.neg (jsToNumberOpt rightVal)), st)
      | some l => (.vNum (JNum.add (jsToNumber l) (jsToNumberOpt rightVal)), st)
  | .sub =>
      match leftVal with
      | none => (.vNum (JNum.neg (jsToNumberOpt rightVal)), st)
      | some l => (.vNum (JNum.sub (jsToNumber l) (jsToNumberOpt rightVal)), st)
  | .mul => (.vNum (JNum.mul (jsToNumberOpt leftVal) (jsToNumberOpt rightVal)), st)
  | .div => (.vNum (JNum.div (jsToNumberOpt leftVal) (jsToNumberOpt rightVal)), st)
  | .mod => (.vNum (JNum.mod (jsToNumberOpt leftVal) (jsToNumberOpt rightVal)), st)
  | .pow => (.vNum (JNum.pow (jsToNumberOpt leftVal) (jsToNumberOpt rightVal)), st)
  | .ge => (.vBool (JNum.le (jsToNumberOpt rightVal) (jsToNumberOpt leftVal)), st)
  | .le => (.vBool (JNum.le (jsToNumberOpt leftVal) (jsToNumberOpt rightVal)), st)
  | .gt => (.vBool (JNum.lt (jsToNumberOpt rightVal) (jsToNumberOpt leftVal)), st)
  | .lt => (.vBool (JNum.lt (jsToNumberOpt leftVal) (jsToNumberOpt rightVal)), st)
  | .eq => (.vBool (strictEq (toVal leftVal) (toVal rightVal)), st)
  | .ne => (.vBool (!(strictEq (toVal leftVal) (toVal rightVal))), st)
  | .not => (.vBool (!(truthy (toVal rightVal))), st)
  | .inOp =>
      match toVal rightVal with
      | .vSet elems => (.vBool (elems.any (fun e => svzEq (toVal leftVal) e)), st)
      | .vList elems => (.vBool (elems.any (fun e => svzEq (toVal leftVal) e)), st)
      | _ =>
          (.vBool false, st.pushE (mkErrFix "runtime"
            "Right operand of \"in\" must be a set or array"
            "Use a set or list for membership check" (some line)))
  | .union =>
      match toVal leftVal, toVal rightVal with
      | .vSet a, .vSet b => (.vSet (svzDedup (a ++ b)), st)
      | _, _ =>
          (.vNull, st.pushE (mkErrFix "runtime"
            "Operands of \"union\" must be sets"
            "Ensure both operands are sets" (some line)))
  | .intersect =>
      match toVal leftVal, toVal rightVal with
      | .vSet a, .vSet b =>
          (.vSet (a.filter (fun x => b.any (fun e => svzEq x e))), st)
      | _, _ =>
          (.vNull, st.pushE (mkErrFix "runtime"
            "Operands of \"intersect\" must be sets"
            "Ensure both operands are sets" (some line)))
  | .diff =>
      match toVal leftVal, toVal rightVal with
      | .vSet a, .vSet b =>
          (.vSet (a.filter (fun x => !(b.any (fun e => svzEq x e)))), st)
      | _, _ =>
          (.vNull, st.pushE (mkErrFix "runtime"
            "Operands of \"diff\" must be sets"
            "Ensure both operands are sets" (some line)))
  | _ =>
      (.vNull, st.pushE (mkErrFix "runtime"
        ("Unsupported operator \x27" ++ opStr op ++ "\x27")
        "Check supported operators in NSML spec" (some line)))

mutual

/-- `evalExpr` of the compiler (`part_002`, lines 642–869): the evaluator
used by compiled rule closures.  Its identifier lookup is
`context[tree.value] || tree.value` (JS `||`, so any *falsy* bound value
falls back to the node text), its logical operators `&&`/`||`/`=>`/`<=>`
short-circuit explicitly before the generic switch, and its builtins are
`error` and `path` only — every other call name is an `Unknown function`
runtime error.  The source signature is
`(tree, context, errors, line, trace, tracing)`; the two mutable arrays are
bundled as `ExprSt`. -/
def evalExpr (tree : ExprNode) (context : Ctx) (line : ℕ) (tracing : Bool)
    (st : ExprSt) : Value × ExprSt :=
  match tree with
  | .lit v _ =>
      let value := match ctxGet context (propKey v) with
        | some w => if truthy w then w else v
        | none => v
      let st := if tracing then st.pushT ("Resolved value: " ++ jsToString value) else st
      (value, st)
  | .call f args _ =>
      let st := if tracing then
        st.pushT ("Calling function " ++ f ++ " at line " ++ toString line) else st
      let (argv, st1) := evalExprArgs args context line tracing st
      let st1 := if tracing then
        st1.pushT ("Calling function " ++ f ++ " with args: " ++ jsonArgs argv) else st1
      if f = "error" then
        (.vErrTag (argv.headD .vUndef), st1)
      else if f = "path" then
        if argv.length ≠ 3 then
          (.vNull, st1.pushE (mkErrFix "runtime"
            "path function requires 3 arguments (graph, start, end)"
            "Provide graph, start node, and end node" (some line)))
        else
          match argv with
          | [.vGraph gr, .vStr fromS, .vStr toS] =>
              (match pathBFS gr fromS toS with
               | some p => .vList (p.map Value.vStr)
               | none => .vNull, st1)
          | _ =>
              (.vNull, st1.pushE (mkErrFix "runtime"
                "Invalid arguments for path function"
                "Ensure first argument is a graph and others are strings" (some line)))
      else
        (.vNull, st1.pushE (mkErrFix "runtime"
          ("Unknown function \x27" ++ f ++ "\x27")
          "Check supported functions in NSML spec" (some line)))
  | .opn op left right _ =>
      let st := if tracing then
        st.pushT ("Applying operator " ++ opStr op ++ " at line " ++ toString line) else st
      match op with
      | .and =>
          let (l, st1) := evalExprOpt left context line tracing st
          if !(truthy (toVal l)) then (toVal l, st1)
          else
            let (r, st2) := evalExprOpt right context line tracing st1
            (toVal r, st2)
      | .or =>
          let (l, st1) := evalExprOpt left context line tracing st
          if truthy (toVal l) then (toVal l, st1)
          else
            let (r, st2) := evalExprOpt right context line tracing st1
            (toVal r, st2)
      | .imp =>
          let (l, st1) := evalExprOpt left context line tracing st
          if !(truthy (toVal l)) then (.vBool true, st1)
          else
            let (r, st2) := evalExprOpt right context line tracing st1
            (toVal r, st2)
      | .iff =>
          let (l, st1) := evalExprOpt left context line tracing st
          let (r, st2) := evalExprOpt right context line tracing st1
          (.vBool (truthy (toVal l) == truthy (toVal r)), st2)
      | _ =>
          let (l, st1) := evalExprOpt left context line tracing st
          let (r, st2) := evalExprOpt right context line tracing st1
          evalExprSwitch op l r line st2

/-- `tree.left ? evalExpr(tree.left, …) : undefined`. -/
def evalExprOpt (t : Option ExprNode) (context : Ctx) (line : ℕ) (tracing : Bool)
    (st : ExprSt) : Option Value × ExprSt :=
  match t with
  | none => (none, st)
  | some e =>
      let (v, st') := evalExpr e context line tracing st
      (some v, st')

/-- `tree.args?.map(a => evalExpr(a, …)) || []` (left-to-right effects). -/
def evalExprArgs (args : List ExprNode) (context : Ctx) (line : ℕ) (tracing : Bool)
    (st : ExprSt) : List Value × ExprSt :=
  match args with
  | [] => ([], st)
  | a :: rest =>
      let (v, st') := evalExpr a context line tracing st
      let (vs, st'') := evalExprArgs rest context line tracing st'
      (v :: vs, st'')

end

/-! ### Symbol table and the evaluator for ad hoc queries -/

/-- The `SymbolEntry` record of `types.ts`; `kind` and `type` are the string
literals of the source unions. -/
structure SymbolEntry where
  kind : String
  type : String
  value : Value
  mutable : Bool

/-- The `SymbolTable` (`Map<string, SymbolEntry>`), as an insertion-ordered
association list with unique keys. -/
def SymbolTable := List (String × SymbolEntry)

/-- First character of a reference identifier: `[a-zA-Z_]`. -/
def isRefIdentCh (c : Char) : Bool := (('a' ≤ c ∧ c ≤ 'z') ∨ ('A' ≤ c ∧ c ≤ 'Z')) || c = '_'

/-- Later characters of a reference identifier: `[\w.]`. -/
def isWordDotCh (c : Char) : Bool :=
  isRefIdentCh c || isDigitCh c || c = '.'

/-- Full match of `[a-zA-Z_][\w.]*`. -/
def isRefIdent (s : String) : Bool :=
  match s.toList with
  | [] => false
  | c :: rest => isRefIdentCh c && rest.all isWordDotCh

/-- Modelled from the spec: the literal-or-reference `parseValue` of the
current resolver.  `evaluator.ts` imports a five-argument `parseValue` from
`./resolver`, but only an older two-argument revision of the resolver is
among the source files; this definition follows spec §4.1: quoted strings
are literals; a bare identifier matching `[a-zA-Z_][\w.]*` is resolved as a
reference to an already-defined symbol — `Unresolved reference` when
absent, `Reference type mismatch` when the referenced entry's declared type
disagrees with the expected type (`any` expected matches everything) — and
any other text parses as a literal of the expected type.  The generated
errors are returned for the caller to append to its error array (the fifth
source argument). -/
def parseValue (val : String) (type : String) (symbols : SymbolTable)
    (line : Option ℕ) : Value × List EvalError :=
  if (strStartsWith val "\"" && strEndsWith val "\"") ||
      (strStartsWith val "\x27" && strEndsWith val "\x27") then
    (.vStr ((val.drop 1).dropRight 1), [])
  else if isRefIdent val then
    match List.lookup val symbols with
    | none =>
        (.vStr val, [mkErr "semantic" ("Unresolved reference \x27" ++ val ++ "\x27") line])
    | some e =>
        if type ≠ "any" ∧ e.type ≠ type then
          (e.value, [mkErr "semantic" ("Reference type mismatch for \x27" ++ val ++ "\x27") line])
        else (e.value, [])
  else
    match type with
    | "number" => (.vNum (jsParseFloat val), [])
    | "boolean" => (.vBool (strToLower val = "true"), [])
    | _ => (.vStr val, [])

/-- A compiled rule callable as stored in the `rules` registry: invoked as
`func(...args, targetTrace, tracing)`, it receives the caller's trace buffer
and returns its value plus the updated buffer.  A closure pushes its runtime
errors onto the *compiler's* error array, which the pipeline has already
copied into the returned error list, so those pushes are unobservable in any
result and are not modelled. -/
def RuleFn := List Value → List String → Bool → Value × List String

/-- The registries `evalTree` closes over: the rule expression trees (for
`eval`/`chain`) and the compiled rule callables. -/
structure Env where
  exprTrees : List (String × ExprNode)
  rules : List (String × RuleFn)

/-- `${tree.line || 'unknown'}`. -/
def lineStr : Option ℕ → String
  | some n => if n = 0 then "unknown" else toString n
  | none => "unknown"

/-- `tree.line || 0`. -/
def lineOr0 : Option ℕ → ℕ
  | some n => n
  | none => 0

/-- `typeof v === 'string'`. -/
def isStrVal : Value → Bool
  | .vStr _ => true
  | _ => false

/-- The identifier/literal case of `evalTree`
(`context[tree.value] !== undefined ? context[tree.value] : tree.value`):
a *defined* binding — falsy ones included — is returned; an absent or
`undefined` binding falls back to the node value itself. -/
def evalIdent (v : Value) (context : Ctx) : Value :=
  match ctxGet context (propKey v) with
  | some w => if Value.beq w .vUndef then v else w
  | none => v

/-- The `path` builtin branch of the call dispatch of `evalTree` (arguments
already evaluated and of length 3): runs `pathBFS` on a graph argument,
with the two runtime errors for a non-graph first argument and non-string
endpoints. -/
def evalTreePath (argv : List Value) (line : Option ℕ) (st1 : EvalSt) :
    Value × EvalSt :=
  match argv with
  | [g, fromV, toV] =>
      match fromV, toV with
      | .vStr fromS, .vStr toS =>
          (match g with
           | .vGraph gr =>
               (match pathBFS gr fromS toS with
                | some p => .vList (p.map Value.vStr)
                | none => .vNull, st1)
           | _ =>
               (.vNull, pushErr (mkErrFix "runtime"
                 "Invalid graph argument for path"
                 "Ensure first argument is a valid graph symbol"
                 (some (lineOr0 line))) st1))
      | _, _ =>
          (.vNull, pushErr (mkErr "runtime"
            "Start and end must be strings for path"
            (some (lineOr0 line))) st1)
  | _ => (.vNull, st1)

/-- The compiled-rule-registry branch of the call dispatch of `evalTree`:
invoke the registered callable on the selected trace buffer, write the
buffer back, or report `Unknown function`. -/
def evalTreeRules (env : Env) (f : String) (argv : List Value)
    (sel : Option String) (tracing : Bool) (line : Option ℕ) (st1 : EvalSt) :
    Value × EvalSt :=
  match List.lookup f env.rules with
  | some fn =>
      let buf := getBuf sel st1
      let res := fn argv buf tracing
      let st2 := setBuf sel res.2 st1
      let st2 := if tracing then
        pushTrace sel ("Function " ++ f ++ " returned: " ++ jsToString res.1) st2 else st2
      (res.1, st2)
  | none =>
      (.vNull, pushErr (mkErrFix "runtime"
        ("Unknown function \x27" ++ f ++ "\x27")
        "Use supported functions like path or error" (some (lineOr0 line))) st1)

mutual

/-- `evalTree` of the latest `evaluator.ts` revision (lines 735–941): the
tree-walking evaluator for ad hoc query expressions.  Identifier lookup is
`evalIdent` (a defined falsy binding is returned; only an absent or
`undefined` binding falls back to the name).  Binary operators are
evaluated *eagerly*: both operands are computed before the pure switch
`evalTreeBinop`, so no logical operator short-circuits here.  Calls are
dispatched by `evalTreeCall`.  `fuel` bounds only the non-structural
`eval` jumps into registered rule trees (the source recursion is unbounded
there and diverges on cyclic rule definitions; every theorem quantifies
over `fuel`).  The defensive `!tree || typeof tree !== 'object'` entry
check cannot fire for well-formed `ExprNode` values and is omitted. -/
def evalTree (env : Env) (fuel : ℕ) (tree : ExprNode) (context : Ctx)
    (sel : Option String) (tracing : Bool) (st : EvalSt) : Value × EvalSt :=
  match tree with
  | .lit v _ =>
      let val := evalIdent v context
      let st := if tracing && !(isStrVal val) then
        pushTrace sel ("Resolved value: " ++ jsToString val) st else st
      (val, st)
  | .call f args line =>
      let st := if tracing then
        pushTrace sel ("Evaluating expression at line " ++ lineStr line) st else st
      let (argv, st1) := evalTreeArgs env fuel args context sel tracing st
      let st1 := if tracing then
        pushTrace sel ("Calling function " ++ f ++ " with args: " ++ jsonArgs argv) st1 else st1
      evalTreeCall env fuel f argv context sel tracing line st1
  | .opn op left right line =>
      let st := if tracing then
        pushTrace sel ("Evaluating expression at line " ++ lineStr line) st else st
      let (l, st1) := evalTreeOpt env fuel left context sel tracing st
      let (r, st2) := evalTreeOpt env fuel right context sel tracing st1
      let st2 := if tracing then
        pushTrace sel ("Applying operator " ++ opStr op ++ " to " ++
          jsToString (toVal l) ++ " and " ++ jsToString (toVal r)) st2 else st2
      (evalTreeBinop op l r, st2)
termination_by (fuel, sizeOf tree, 1)

/-- The function-call dispatch of `evalTree` (arguments already evaluated):
the `error`, `path` and `eval` builtins, then the compiled-rule registry,
else an `Unknown function` runtime error. -/
def evalTreeCall (env : Env) (fuel : ℕ) (f : String) (argv : List Value)
    (context : Ctx) (sel : Option String) (tracing : Bool) (line : Option ℕ)
    (st1 : EvalSt) : Value × EvalSt :=
  if f = "error" then
    (.vErrTag (argv.headD .vUndef), st1)
  else if f = "path" then
    if argv.length ≠ 3 then
      (.vNull, pushErr (mkErrFix "runtime"
        "path function requires 3 arguments (graph, start, end)"
        "Provide graph, start node, and end node" (some (lineOr0 line))) st1)
    else
      evalTreePath argv line st1
  else if f = "eval" then
    if argv.length ≠ 1 then
      (.vNull, pushErr (mkErr "runtime" "eval function requires 1 argument"
        (some (lineOr0 line))) st1)
    else
      match argv.headD .vUndef with
      | .vStr s =>
          (match List.lookup s env.exprTrees with
           | some ruleTree =>
               let st2 := if tracing then
                 pushTrace sel ("Applying rule " ++ s) st1 else st1
               (match fuel with
                | 0 => (.vNull, st2)
                | fu + 1 => evalTree env fu ruleTree context sel tracing st2)
           | none =>
               (.vNull, pushErr (mkErr "runtime"
                 ("Unknown rule \x27" ++ s ++ "\x27") (some (lineOr0 line))) st1))
      | arg => (arg, st1)
  else
    evalTreeRules env f argv sel tracing line st1
termination_by (fuel, 0, 0)

/-- `tree.left ? evalTree(tree.left, …) : undefined`. -/
def evalTreeOpt (env : Env) (fuel : ℕ) (t : Option ExprNode) (context : Ctx)
    (sel : Option String) (tracing : Bool) (st : EvalSt) : Option Value × EvalSt :=
  match t with
  | none => (none, st)
  | some e =>
      let (v, st') := evalTree env fuel e context sel tracing st
      (some v, st')
termination_by (fuel, sizeOf t, 0)

/-- `tree.args?.map(a => evalTree(a, …)) || []` (left-to-right effects). -/
def evalTreeArgs (env : Env) (fuel : ℕ) (args : List ExprNode) (context : Ctx)
    (sel : Option String) (tracing : Bool) (st : EvalSt) : List Value × EvalSt :=
  match args with
  | [] => ([], st)
  | a :: rest =>
      let (v, st') := evalTree env fuel a context sel tracing st
      let (vs, st'') := evalTreeArgs env fuel rest context sel tracing st'
      (v :: vs, st'')
termination_by (fuel, sizeOf args, 0)

end

/-! ### The expression compiler of `part_002` (tokenizer and parser) -/

/-- Tags naming the right-operand parser of each binary precedence level
(used to share the per-level accumulation loop inside the mutual block). -/
inductive SubLevel where
  | unaryLevel
  | powerLevel
  | multiplicativeLevel
  | additiveLevel
  | comparisonLevel

/-- `expr.replace(/(\d)([a-zA-Z_])/g, '$1*$2')`: implicit multiplication.
A match consumes both characters and its second character (a letter) can
never begin another match, so the global replace equals this adjacent-pair
scan. -/
def insertImplicitMul : List Char → List Char
  | [] => []
  | [c] => [c]
  | a :: b :: rest =>
      if isDigitCh a ∧ isRefIdentCh b then a :: '*' :: insertImplicitMul (b :: rest)
      else a :: insertImplicitMul (b :: rest)

/-- `expr.indexOf(q, pos + 1)` support: split `cs` at the first occurrence
of `q`, returning the part before and the part after it. -/
def breakOnChar (q : Char) : List Char → Option (List Char × List Char)
  | [] => none
  | c :: cs =>
      if c = q then some ([], cs)
      else match breakOnChar q cs with
        | some (ins, aft) => some (c :: ins, aft)
        | none => none

/-- The maximal-munch expression tokenizer of `part_002` (lines 567–623):
quoted strings (kept with their quotes), digit runs, dotted identifiers,
the three-character `<=>`, two-character operators, then single-character
tokens; whitespace is skipped and any other character throws
`Unsupported operator or token '<c>'`.  `fuel` bounds the scan (each
iteration consumes at least one character, so `tokenizeExpr` supplies
enough; the out-of-fuel marker is unreachable). -/
def tokenizeGo : ℕ → List Char → Except String (List String)
  | 0, [] => .ok []
  | 0, _ :: _ => .error "tokenizer out of fuel (unreachable)"
  | _ + 1, [] => .ok []
  | fu + 1, c :: cs =>
      if c.isWhitespace then tokenizeGo fu cs
      else if c = '"' ∨ c = '\x27' then
        match breakOnChar c cs with
        | none => .error "Unclosed string"
        | some (ins, aft) =>
            match tokenizeGo fu aft with
            | .ok ts => .ok ((String.mk (c :: ins ++ [c])) :: ts)
            | .error e => .error e
      else if isDigitCh c then
        let ds := (c :: cs).takeWhile isDigitCh
        let rest := (c :: cs).dropWhile isDigitCh
        match tokenizeGo fu rest with
        | .ok ts => .ok (String.mk ds :: ts)
        | .error e => .error e
      else if isRefIdentCh c then
        let ds := (c :: cs).takeWhile isWordDotCh
        let rest := (c :: cs).dropWhile isWordDotCh
        match tokenizeGo fu rest with
        | .ok ts => .ok (String.mk ds :: ts)
        | .error e => .error e
      else
        match c :: cs with
        | '<' :: '=' :: '>' :: rest =>
            match tokenizeGo fu rest with
            | .ok ts => .ok ("<=>" :: ts)
            | .error e => .error e
        | a :: b :: rest =>
            let two := String.mk [a, b]
            if two ∈ ["&&", "||", "!=", ">=", "<=", "==", "=>"] then
              match tokenizeGo fu rest with
              | .ok ts => .ok (two :: ts)
              | .error e => .error e
            else if a ∈ ['!', '+', '-', '*', '/', '%', '^', '>', '<', '(', ')', ','] then
              match tokenizeGo fu (b :: rest) with
              | .ok ts => .ok (String.mk [a] :: ts)
              | .error e => .error e
            else .error ("Unsupported operator or token \x27" ++ String.mk [a] ++ "\x27")
        | [a] =>
            if a ∈ ['!', '+', '-', '*', '/', '%', '^', '>', '<', '(', ')', ','] then
              .ok [String.mk [a]]
            else .error ("Unsupported operator or token \x27" ++ String.mk [a] ++ "\x27")
        | [] => .ok []

/-- `tokenizeExpr` of `part_002`. -/
def tokenizeExpr (expr : String) : Except String (List String) :=
  tokenizeGo (expr.length + 1) expr.toList

/-- `/^\d+$/`. -/
def isNumber (token : String) : Bool :=
  !token.isEmpty && token.toList.all isDigitCh

/-- Both-ends quote test of `isString`. -/
def isStringTok (token : String) : Bool :=
  (strStartsWith token "\"" && strEndsWith token "\"") ||
    (strStartsWith token "\x27" && strEndsWith token "\x27")

/-- `/^[a-zA-Z_][\w.]*$/` (`isIdentifier` of `part_002`). -/
def isIdentifier (token : String) : Bool := isRefIdent token

/-- Token→operator mapping used by the precedence levels. -/
def tokenOp : String → Operator
  | "&&" => .and
  | "||" => .or
  | "=>" => .imp
  | "<=>" => .iff
  | "==" => .eq
  | "!=" => .ne
  | ">" => .gt
  | ">=" => .ge
  | "<" => .lt
  | "<=" => .le
  | "in" => .inOp
  | "+" => .add
  | "-" => .sub
  | "union" => .union
  | "intersect" => .intersect
  | "diff" => .diff
  | "*" => .mul
  | "/" => .div
  | "%" => .mod
  | "^" => .pow
  | "!" => .not
  | _ => .pathOp

mutual

/-- `parsePrimary` of `part_002` (lines 432–483): number, quoted string,
`true`/`false`, identifier or namespace-qualified call, or parenthesized
sub-expression.  State is the remaining token list; `fu` bounds recursion
depth (one unit per parser-function entry; `parseExpression` supplies a
depth that cannot be exhausted on any input it tokenizes). -/
def parsePrimary (line : Option ℕ) (ns : String) (params : List String) :
    ℕ → List String → Option ExprNode × List String
  | 0, ts => (none, ts)
  | fu + 1, ts =>
      match ts with
      | [] => (none, [])
      | token :: rest =>
          if isNumber token then
            (some (.lit (.vNum (jsStringToNumber token)) line), rest)
          else if isStringTok token then
            (some (.lit (.vStr ((token.drop 1).dropRight 1)) line), rest)
          else if token = "true" then (some (.lit (.vBool true) line), rest)
          else if token = "false" then (some (.lit (.vBool false) line), rest)
          else if isIdentifier token then
            match rest with
            | "(" :: rest2 =>
                let (argsOpt, ts2) := parseArgsLoop line ns params fu rest2 []
                match argsOpt with
                | none => (none, ts2)
                | some args =>
                    let fname := if token ∉ ["error", "path", "eval"] ∧ ns ≠ "" then
                      ns ++ "." ++ token else token
                    (some (.call fname args line), ts2)
            | _ =>
                let name := if token ∉ params ∧ ns ≠ "" then ns ++ "." ++ token else token
                (some (.lit (.vStr name) line), rest)
          else if token = "(" then
            let (e, ts2) := parseExpressionPart line ns params fu rest
            match ts2 with
            | ")" :: ts3 => (e, ts3)
            | _ :: ts3 => (none, ts3)
            | [] => (none, [])
          else (none, rest)

/-- The argument loop of a call in `parsePrimary`:
`while (peek() !== ')' && peek() !== undefined) { … }` followed by the
closing-parenthesis check (`none` models the `return null` on a missing
`)`). -/
def parseArgsLoop (line : Option ℕ) (ns : String) (params : List String) :
    ℕ → List String → List ExprNode → Option (List ExprNode) × List String
  | 0, ts, _ => (none, ts)
  | fu + 1, ts, acc =>
      match ts with
      | [] => (none, [])
      | ")" :: rest => (some acc, rest)
      | _ =>
          let (arg, ts1) := parseExpressionPart line ns params fu ts
          let acc' := match arg with
            | some a => acc ++ [a]
            | none => acc
          let ts2 := match ts1 with
            | "," :: r => r
            | _ => ts1
          parseArgsLoop line ns params fu ts2 acc'

/-- `parseUnary` of `part_002`: prefix `!` and `-` recurse through unary. -/
def parseUnary (line : Option ℕ) (ns : String) (params : List String) :
    ℕ → List String → Option ExprNode × List String
  | 0, ts => (none, ts)
  | fu + 1, ts =>
      match ts with
      | token :: rest =>
          if token = "!" ∨ token = "-" then
            let (right, ts1) := parseUnary line ns params fu rest
            match right with
            | none => (none, ts1)
            | some r => (some (.opn (tokenOp token) none (some r) line), ts1)
          else parsePrimary line ns params fu ts
      | [] => parsePrimary line ns params fu []

/-- `parsePower` of `part_002` (lines 495–505): a `while (peek() === '^')`
loop whose right operand recurses through *unary*, accumulating
`left = { op, left, right }` — the loop makes `^` left-associative, exactly
like every other binary level. -/
def parsePower (line : Option ℕ) (ns : String) (params : List String) :
    ℕ → List String → Option ExprNode × List String
  | 0, ts => (none, ts)
  | fu + 1, ts =>
      let (left, ts1) := parseUnary line ns params fu ts
      match left with
      | none => (none, ts1)
      | some l => parseBinLoop line ns params ["^"] SubLevel.unaryLevel fu l ts1

/-- `parseMultiplicative` of `part_002`. -/
def parseMultiplicative (line : Option ℕ) (ns : String) (params : List String) :
    ℕ → List String → Option ExprNode × List String
  | 0, ts => (none, ts)
  | fu + 1, ts =>
      let (left, ts1) := parsePower line ns params fu ts
      match left with
      | none => (none, ts1)
      | some l => parseBinLoop line ns params ["*", "/", "%"] SubLevel.powerLevel fu l ts1

/-- `parseAdditive` of `part_002` (also the set operators). -/
def parseAdditive (line : Option ℕ) (ns : String) (params : List String) :
    ℕ → List String → Option ExprNode × List String
  | 0, ts => (none, ts)
  | fu + 1, ts =>
      let (left, ts1) := parseMultiplicative line ns params fu ts
      match left with
      | none => (none, ts1)
      | some l =>
          parseBinLoop line ns params ["+", "-", "union", "intersect", "diff"]
            SubLevel.multiplicativeLevel fu l ts1

/-- `parseComparison` of `part_002`. -/
def parseComparison (line : Option ℕ) (ns : String) (params : List String) :
    ℕ → List String → Option ExprNode × List String
  | 0, ts => (none, ts)
  | fu + 1, ts =>
      let (left, ts1) := parseAdditive line ns params fu ts
      match left with
      | none => (none, ts1)
      | some l =>
          parseBinLoop line ns params ["==", "!=", ">", ">=", "<", "<=", "in"]
            SubLevel.additiveLevel fu l ts1

/-- `parseLogical` of `part_002`. -/
def parseLogical (line : Option ℕ) (ns : String) (params : List String) :
    ℕ → List String → Option ExprNode × List String
  | 0, ts => (none, ts)
  | fu + 1, ts =>
      let (left, ts1) := parseComparison line ns params fu ts
      match left with
      | none => (none, ts1)
      | some l =>
          parseBinLoop line ns params ["&&", "||", "=>", "<=>"]
            SubLevel.comparisonLevel fu l ts1

/-- The shared `while (ops.includes(peek())) { … }` accumulation loop of
each binary precedence level: consume the operator, parse the next-higher
level as right operand, and fold `left = { op, left, right }`
(left-associatively). -/
def parseBinLoop (line : Option ℕ) (ns : String) (params : List String)
    (ops : List String) (sub : SubLevel) :
    ℕ → ExprNode → List String → Option ExprNode × List String
  | 0, _, ts => (none, ts)
  | fu + 1, left, ts =>
      match ts with
      | token :: rest =>
          if token ∈ ops then
            let (right, ts1) := runSub sub line ns params fu rest
            match right with
            | none => (none, ts1)
            | some r =>
                parseBinLoop line ns params ops sub fu
                  (.opn (tokenOp token) (some left) (some r) line) ts1
          else (some left, ts)
      | [] => (some left, [])

/-- Dispatch a `SubLevel` tag to its parser (the right-operand parser of a
binary level). -/
def runSub (sub : SubLevel) (line : Option ℕ) (ns : String) (params : List String) :
    ℕ → List String → Option ExprNode × List String
  | 0, ts => (none, ts)
  | fu + 1, ts =>
      match sub with
      | .unaryLevel => parseUnary line ns params fu ts
      | .powerLevel => parsePower line ns params fu ts
      | .multiplicativeLevel => parseMultiplicative line ns params fu ts
      | .additiveLevel => parseAdditive line ns params fu ts
      | .comparisonLevel => parseComparison line ns params fu ts

/-- `parseExpressionPart` of `part_002` (the entry to `parseLogical`). -/
def parseExpressionPart (line : Option ℕ) (ns : String) (params : List String) :
    ℕ → List String → Option ExprNode × List String
  | 0, ts => (none, ts)
  | fu + 1, ts => parseLogical line ns params fu ts

end

/-- `parseExpression` of `part_002` (lines 413–565): implicit-multiplication
rewrite, tokenize (errors propagate as thrown exceptions), parse, and
reject (`null`) when tokens remain unconsumed. -/
def parseExpression (expr : String) (line : Option ℕ) (ns : String)
    (params : List String) : Except String (Option ExprNode) :=
  let expr2 := String.mk (insertImplicitMul expr.toList)
  match tokenizeExpr expr2 with
  | .error e => .error e
  | .ok tokens =>
      let (tree, rest) :=
        parseExpressionPart line ns params (50 * (tokens.length + 1)) tokens
      if rest.isEmpty then .ok tree else .ok none

/-! ### Document nodes and the query-processing layer -/

/-- The `AstNode` record of `types.ts`: tag name (`type`), attribute map,
children, optional text content, and source line. -/
inductive AstNode where
  | mk : String → List (String × String) → List AstNode → Option String → ℕ → AstNode

/-- Tag name. -/
def AstNode.type : AstNode → String
  | .mk t _ _ _ _ => t

/-- Attribute map. -/
def AstNode.attributes : AstNode → List (String × String)
  | .mk _ a _ _ _ => a

/-- Child nodes. -/
def AstNode.children : AstNode → List AstNode
  | .mk _ _ c _ _ => c

/-- Text content. -/
def AstNode.text : AstNode → Option String
  | .mk _ _ _ t _ => t

/-- Source line. -/
def AstNode.line : AstNode → ℕ
  | .mk _ _ _ _ l => l

/-- JS `a || b` on an optional string (an empty string is falsy). -/
def jsOrStr (a : Option String) (b : String) : String :=
  match a with
  | some s => if s = "" then b else s
  | none => b

mutual

/-- `deepClone` of `evaluator.ts` (identical in both revisions, lines 14–24
and 490–500), seen at the level of structural values: primitives are
returned as-is, `Set`/`Map` containers are copied shallowly
(`new Set(obj)` / `new Map(obj)`), arrays and plain objects are copied
recursively (a `Graph` value is a plain object holding a `Set` and a `Map`,
both copied shallowly, hence structurally unchanged).  Reference freshness
is invisible at this level — see the `Heap` namespace for the
allocation-level model; structurally the clone equals its argument
(`deepCloneV_eq`). -/
def deepCloneV : Value → Value
  | .vNull => .vNull
  | .vUndef => .vUndef
  | .vBool b => .vBool b
  | .vNum n => .vNum n
  | .vStr s => .vStr s
  | .vSet l => .vSet l
  | .vList l => .vList (deepCloneVList l)
  | .vObj fields => .vObj (deepCloneVFields fields)
  | .vGraph g => .vGraph g
  | .vErrTag m => .vErrTag (deepCloneV m)

/-- Elementwise clone of an array. -/
def deepCloneVList : List Value → List Value
  | [] => []
  | v :: rest => deepCloneV v :: deepCloneVList rest

/-- Fieldwise clone of a plain object. -/
def deepCloneVFields : List (String × Value) → List (String × Value)
  | [] => []
  | (k, v) :: rest => (k, deepCloneV v) :: deepCloneVFields rest

end

/-- `deepClone(context)` on the context object: clone every binding. -/
def deepCloneCtx (ctx : Ctx) : Ctx :=
  (ctx : List (String × Value)).map (fun kv => (kv.1, deepCloneV kv.2))

/-- The comparator `(a, b) => typeof a === 'number' && typeof b === 'number'
? a - b : 0` used to sort set-valued query results.  A comparator returning
`0` on non-number pairs leaves their relative order to the (stable) JS sort;
modelled as a stable insertion sort that orders only number–number pairs
(`NaN` keeps the incoming order). -/
def sortLe (a b : Value) : Bool :=
  match a, b with
  | .vNum (.rat x), .vNum (.rat y) => x ≤ y
  | _, _ => true

/-- `Array.from(set).sort(…)` for recording a set-valued result. -/
def jsSortValues (l : List Value) : List Value :=
  List.insertionSort (fun a b => sortLe a b = true) l

/-- Modelled from the spec: the branch-override parser receives `parts[1]`
of `ass.split('=')`, which is JS `undefined` when an override lacks `=`;
the spec-modelled `parseValue` (see above, absent from the source files)
maps that to `undefined` with no error. -/
def parseValueOpt (val : Option String) (type : String) (symbols : SymbolTable)
    (line : Option ℕ) : Value × List EvalError :=
  match val with
  | none => (.vUndef, [])
  | some v => parseValue v type symbols line

/-- Control flow of one `processQuery` call: `halt` models an early
`return` (skipping the remaining sections and the child recursion), `cont`
carries the running `currentValue`. -/
inductive QFlow where
  | halt : EvalSt → QFlow
  | cont : Option Value → EvalSt → QFlow

/-- The set-to-sorted-array rewrite applied to a query result before it is
recorded (`value instanceof Set ? [...value].sort(…) : value`). -/
def recordedValue : Value → Value
  | .vSet elems => .vList (jsSortValues elems)
  | other => other

/-- One `name=value` override of a branch's `if` attribute: split on `=`,
look up the declared type of the base symbol (default `any`), parse the
override through the resolver's `parseValue`, bind it in the cloned
context and append any parse errors. -/
def branchStep (symbols : SymbolTable) (line : ℕ) (acc : Ctx × EvalSt)
    (ass : String) : Ctx × EvalSt :=
  let parts := (strSplitOn ass "=").map strTrim
  let key := parts.headD ""
  let valOpt := parts[1]?
  let existingType := match List.lookup key symbols with
    | some e => jsOrStr (some e.type) "any"
    | none => "any"
  let (pv, perrs) := parseValueOpt valOpt existingType symbols (some line)
  (ctxSet acc.1 key pv, { acc.2 with errors := acc.2.errors ++ perrs })

/-- The rule-chain loop of `processQuery`
(`for (const step of chain) { … }`, lines 969–987): thread the value
through each named rule tree with the conventional `item` binding,
`return`ing early on an unknown step. -/
def runChain (env : Env) (fuel : ℕ) (name : String) (nodeLine : ℕ)
    (context : Ctx) (sel : Option String) (tracing : Bool) :
    List String → Value → EvalSt → QFlow
  | [], v, st => .cont (some v) st
  | step :: rest, v, st =>
      match List.lookup step env.exprTrees with
      | some ruleTree =>
          let st := if tracing then
            pushTrace sel ("Applying " ++ step ++ " to " ++ jsToString v) st else st
          let (v', st') := evalTree env fuel ruleTree (ctxSet context "item" v)
            sel tracing st
          runChain env fuel name nodeLine context sel tracing rest v' st'
      | none =>
          .halt (pushErr (mkErr "runtime"
            ("Unknown step \x27" ++ step ++ "\x27 in chain for \x27" ++ name ++ "\x27")
            (some nodeLine)) st)

/-- Extract the rational values of a NaN-free number list. -/
def ratsOf : List JNum → List ℚ
  | [] => []
  | .rat q :: rest => q :: ratsOf rest
  | .nan :: rest => ratsOf rest

/-- The `aggregate` section of `processQuery` (lines 1022–1069): coerce the
collection's elements to numbers, drop `NaN`s, and reduce with the named
function.  An empty valid-number list and an unknown function `return`
early; an invalid collection only pushes an error and falls through. -/
def aggregateSection (ty name : String) (attrs : List (String × String))
    (line : ℕ) (context : Ctx) (st : EvalSt) : QFlow :=
  if ty = "aggregate" then
    let func := (attrs.lookup "func").getD "undefined"
    let over := ctxGet context ((attrs.lookup "over").getD "undefined")
    let items : Option (List Value) := match over with
      | some (.vList l) => some l
      | some (.vSet l) => some l
      | _ => none
    match items with
    | some l =>
        let vals := ratsOf ((l.map jsToNumber).filter (fun n => n ≠ JNum.nan))
        if vals.length = 0 then
          .halt (pushErr (mkErr "runtime"
            ("No valid numbers in aggregate \x27" ++ name ++ "\x27") (some line)) st)
        else
          let agg : Option ℚ := match func, vals with
            | "count", _ => some (vals.length : ℚ)
            | "sum", _ => some (vals.foldl (· + ·) 0)
            | "min", q :: qs => some (qs.foldl min q)
            | "max", q :: qs => some (qs.foldl max q)
            | "avg", _ => some (vals.foldl (· + ·) 0 / (vals.length : ℚ))
            | _, _ => none
          match agg with
          | some q => .cont none { st with results := setKV st.results name (.vNum (.rat q)) }
          | none =>
              .halt (pushErr (mkErr "semantic"
                ("Unknown aggregate func \x27" ++ func ++ "\x27") (some line)) st)
    | none =>
        .cont none (pushErr (mkErr "runtime"
          ("Invalid collection for aggregate \x27" ++ name ++ "\x27") (some line)) st)
  else .cont none st

/-- The per-element condition loop of `exists`/`forall`: evaluate the
condition with `item` bound (`{ ...context, item }`) and count truthy
results. -/
def countMatches (env : Env) (fuel : ℕ) (tree : ExprNode) (context : Ctx)
    (sel : Option String) (tracing : Bool) :
    List Value → EvalSt → ℕ × EvalSt
  | [], st => (0, st)
  | item :: rest, st =>
      let (v, st') := evalTree env fuel tree (ctxSet context "item" item) sel tracing st
      let (m, st'') := countMatches env fuel tree context sel tracing rest st'
      (if truthy v then m + 1 else m, st'')

/-- The `exists`/`forall` section of `processQuery` (lines 1071–1128):
check the condition attribute, parse it (a tokenizer throw becomes a syntax
error, a parser `null` a runtime error), require a set or array collection,
count matching elements, and record `matches > 0` (`exists`) or
`matches === items.length` (`forall`) — wrapped as `{ result, count }`
when the `count="true"` flag is set. -/
def quantSection (env : Env) (fuel : ℕ) (ty name : String)
    (attrs : List (String × String)) (line : ℕ) (context : Ctx)
    (sel : Option String) (tracing : Bool) (st : EvalSt) : QFlow :=
  if ty = "exists" ∨ ty = "forall" then
    let collection := ctxGet context ((attrs.lookup "in").getD "undefined")
    let conditionExpr := jsOrStr (attrs.lookup "condition") ""
    let countMode := attrs.lookup "count" = some "true"
    if conditionExpr = "" then
      .halt (pushErr (mkErr "semantic" ("Missing condition for " ++ ty) (some line)) st)
    else
      match parseExpression conditionExpr (some line) "" [] with
      | .error e =>
          .halt (pushErr (mkErrFix "syntax" e
            "Check for supported operators or syntax errors in the expression"
            (some line)) st)
      | .ok none =>
          .halt (pushErr (mkErr "runtime" ("Invalid condition in " ++ ty) (some line)) st)
      | .ok (some tree) =>
          let items : Option (List Value) := match collection with
            | some (.vList l) => some l
            | some (.vSet l) => some l
            | _ => none
          match items with
          | none =>
              .halt (pushErr (mkErr "runtime" ("Invalid collection for " ++ ty)
                (some line)) st)
          | some l =>
              let mst := countMatches env fuel tree context sel tracing l st
              let resultBool := if ty = "exists" then decide (mst.1 > 0)
                else decide (mst.1 = l.length)
              let recorded : Value := if countMode then
                  .vObj [("result", .vBool resultBool), ("count", .vNum (.rat mst.1))]
                else .vBool resultBool
              .cont none { mst.2 with results := setKV (mst.2).results name recorded }
  else .cont none st

mutual

/-- `processQuery` of the latest `evaluator.ts` revision (lines 944–1132):
dispatch branches, run a rule chain or the text expression, record the
result (set values sorted into arrays, `undefined` not recorded), then the
`aggregate` and `exists`/`forall` sections, and finally recurse into the
children — early `return`s (`QFlow.halt`) skip everything after them. -/
def processQuery (env : Env) (symbols : SymbolTable) (fuel : ℕ) (node : AstNode)
    (context : Ctx) (sel : Option String) (tracing : Bool) (st : EvalSt) : EvalSt :=
  match node with
  | .mk ty attrs children text line =>
    if ty = "counterfactual" ∨ ty = "branch" then
      processBranch env symbols fuel (.mk ty attrs children text line) context st
    else
      let name := jsOrStr (attrs.lookup "name") "anonymous"
      let expr := (text).getD ""
      let flow : QFlow :=
        if jsOrStr (attrs.lookup "chain") "" ≠ "" then
          let chain := (strSplitOn (jsOrStr (attrs.lookup "chain") "") " => ").map strTrim
          let target := ctxGet context ((attrs.lookup "target").getD "undefined")
          match target with
          | none =>
              .halt (pushErr (mkErr "semantic"
                ("Missing target for chained query \x27" ++ name ++ "\x27")
                (some line)) st)
          | some tv =>
              if Value.beq tv .vUndef then
                .halt (pushErr (mkErr "semantic"
                  ("Missing target for chained query \x27" ++ name ++ "\x27")
                  (some line)) st)
              else runChain env fuel name line context sel tracing chain tv st
        else if expr ≠ "" then
          match parseExpression expr (some line) "" [] with
          | .error e =>
              .halt (pushErr (mkErrFix "syntax" e
                "Check for supported operators or syntax errors in the expression"
                (some line)) st)
          | .ok none =>
              .halt (pushErr (mkErrFix "runtime"
                ("Invalid expression in query \x27" ++ name ++ "\x27")
                "Check syntax of expression" (some line)) st)
          | .ok (some tree) =>
              let (v, st') := evalTree env fuel tree context sel tracing st
              .cont (some v) st'
        else .cont none st
      match flow with
      | .halt st1 => st1
      | .cont cv st1 =>
          let st2 := match cv with
            | none => st1
            | some v =>
                if Value.beq v .vUndef then st1
                else
                  { st1 with results := setKV st1.results name (recordedValue v) }
          match aggregateSection ty name attrs line context st2 with
          | .halt st3 => st3
          | .cont _ st3 =>
              match quantSection env fuel ty name attrs line context sel tracing st3 with
              | .halt st4 => st4
              | .cont _ st4 =>
                  processQueryList env symbols fuel children context sel tracing st4
termination_by (sizeOf node, 1)

/-- `processBranch` of the latest `evaluator.ts` revision (lines
1217–1234): when the `if` attribute is truthy, deep-clone the ambient
context, apply each `name=value` override (typed by the base symbol
table's declared type, defaulting to `any`, through the resolver's
`parseValue`), and process the child queries against the cloned, overridden
context — with default trace arguments (`targetTrace = trace`,
`tracing = false`).  The shared `context` is never modified. -/
def processBranch (env : Env) (symbols : SymbolTable) (fuel : ℕ) (node : AstNode)
    (context : Ctx) (st : EvalSt) : EvalSt :=
  match node with
  | .mk _ attrs children _ line =>
    let ifStr := jsOrStr (attrs.lookup "if") ""
    if ifStr ≠ "" then
      let start : Ctx × EvalSt := (deepCloneCtx context, st)
      let folded := (strSplitOn ifStr ",").foldl (branchStep symbols line) start
      processQueryList env symbols fuel children folded.1 none false folded.2
    else st
termination_by (sizeOf node, 0)

/-- `node.children.forEach(child => processQuery(child, …))`. -/
def processQueryList (env : Env) (symbols : SymbolTable) (fuel : ℕ)
    (nodes : List AstNode) (context : Ctx) (sel : Option String) (tracing : Bool)
    (st : EvalSt) : EvalSt :=
  match nodes with
  | [] => st
  | c :: cs =>
      processQueryList env symbols fuel cs context sel tracing
        (processQuery env symbols fuel c context sel tracing st)
termination_by (sizeOf nodes, 2)

end

/-- An environment whose compiled-rule callables compute their value
independently of the incoming trace-buffer contents. -/
def ValueStable (env : Env) : Prop :=
  ∀ p ∈ env.rules, ∀ args : List Value, ∀ buf buf2 : List String, ∀ tracing : Bool,
    (p.2 args buf tracing).1 = (p.2 args buf2 tracing).1

/-- The per-element condition predicate of `exists`/`forall`: the condition
tree is truthy with `item` bound to the element (state-independent under
`ValueStable`, so stated at `initSt`). -/
def condHolds (env : Env) (fuel : ℕ) (tree : ExprNode) (context : Ctx)
    (sel : Option String) (tracing : Bool) (item : Value) : Bool :=
  truthy (evalTree env fuel tree (ctxSet context "item" item) sel tracing initSt).1

/-- Concrete inputs exercising `C6_exists_forall_sections`. -/
def wEnvC6 : Env := ⟨[], []⟩

/-- Attributes of the witness `exists` node (`count` flag set). -/
def wAttrsC6 : List (String × String) :=
  [("in", "xs"), ("condition", "item > 1"), ("count", "true")]

/-- Witness context: `xs` bound to the array `[1, 2]`. -/
def wCtxC6 : Ctx := [("xs", .vList [.vNum (.rat 1), .vNum (.rat 2)])]

/-- The witness collection. -/
def wListC6 : List Value := [.vNum (.rat 1), .vNum (.rat 2)]

/-- The parse tree of `item > 1`. -/
def wTreeC6 : ExprNode :=
  .opn .gt (some (.lit (.vStr "item") (some 1)))
    (some (.lit (.vNum (.rat 1)) (some 1))) (some 1)

/-- Witness symbol table: `x` declared as a number, base value `42`. -/
def wSymsC2 : SymbolTable := [("x", ⟨"var", "number", .vNum (.rat 42), true⟩)]

/-- Witness base context: `x` bound to `42`. -/
def wCtxC2 : Ctx := [("x", .vNum (.rat 42))]

/-! ### The synchronous pipeline of `part_001`: lexer, parser, resolver,
compiler v1 and evaluator v1 (the earliest revision family), ending in
`parseNSMLV1`.  Names carry a `V1` suffix where a later revision of the same
function is already embedded above. -/

/-- A lexer token of `types.ts` (`type` is the string union tag). -/
structure Token where
  type : String
  value : String
  line : ℕ
  column : ℕ
deriving DecidableEq

/-- `/[\w:]/` — tag-name characters. -/
def isWordColonCh (c : Char) : Bool := c.isAlphanum || c = '_' || c = ':'

/-- `input.indexOf(sep)` support: split at the first occurrence of the
character sequence `sep`, returning the parts before and after it. -/
def findSeq (sep : List Char) : List Char → Option (List Char × List Char)
  | [] => none
  | c :: cs =>
      if leadsWith sep (c :: cs) then some ([], (c :: cs).drop sep.length)
      else match findSeq sep cs with
        | some (pre, post) => some (c :: pre, post)
        | none => none

/-- The attribute loop of the lexer\x27s opening-tag case (`part_002`
lines 168–220): scan `key = "value"` pairs until `/`, `>` or the end,
throwing on a missing or unclosed quote.  Single-quoted values are
reassembled with double quotes, exactly as the source template does.
`fu` bounds the scan (each iteration consumes at least one character). -/
def lexAttrs : ℕ → List Char → ℕ → ℕ → Except String (List Char × ℕ × List Token)
  | 0, cs, _, col => .ok (cs, col, [])
  | _ + 1, [], _, col => .ok ([], col, [])
  | fu + 1, c :: cs, line, col =>
      if c = '/' ∨ c = '>' then .ok (c :: cs, col, [])
      else if c.isWhitespace then lexAttrs fu cs line (col + 1)
      else
        let key := (c :: cs).takeWhile (fun x => !(x = '=') && !x.isWhitespace)
        let r1 := (c :: cs).dropWhile (fun x => !(x = '=') && !x.isWhitespace)
        let col1 := col + key.length
        let skip := r1.takeWhile (fun x => x.isWhitespace || x = '=')
        let r2 := r1.dropWhile (fun x => x.isWhitespace || x = '=')
        let col2 := col1 + skip.length
        match r2 with
        | [] => .error ("Expected quote at line " ++ toString line ++ ", column " ++
            toString col2)
        | q :: r3 =>
            if q = '"' ∨ q = '\x27' then
              let value := r3.takeWhile (fun x => !(x = q))
              let r4 := r3.dropWhile (fun x => !(x = q))
              let col3 := col2 + 1 + value.length
              match r4 with
              | [] => .error ("Unclosed quote at line " ++ toString line)
              | _ :: r5 =>
                  match lexAttrs fu r5 line (col3 + 1) with
                  | .error e => .error e
                  | .ok (rem, colF, toks) =>
                      .ok (rem, colF,
                        ⟨"attribute", String.mk key ++ "=\"" ++ String.mk value ++ "\"",
                          line, col3 + 1 - value.length - key.length - 3⟩ :: toks)
            else .error ("Expected quote at line " ++ toString line ++ ", column " ++
              toString col2)

/-- The text-content scan of the lexer (`part_002` lines 266–287): collect
characters up to a `<` that begins a tag (word/colon character or `/`
next); a literal `<` is kept in the text. -/
def lexTextGo : List Char → List Char × List Char
  | [] => ([], [])
  | '<' :: cs =>
      if (match cs.head? with
          | some x => isWordColonCh x || x = '/'
          | none => false) then
        ([], '<' :: cs)
      else
        let (v, r) := lexTextGo cs
        ('<' :: v, r)
  | c :: cs =>
      let (v, r) := lexTextGo cs
      (c :: v, r)

/-- The character-based `lex` loop of `part_002` (lines 117–303):
whitespace (newlines bump `line`), comments, opening tags with attributes
and self-close markers, closing tags, and text runs; all `throw`s become
`Except.error`.  `fu` bounds the loop (each iteration consumes at least one
character, so `lexV1` supplies enough; the out-of-fuel marker is
unreachable). -/
def lexGo : ℕ → List Char → ℕ → ℕ → Except String (List Token)
  | _, [], line, col => .ok [⟨"eof", "", line, col⟩]
  | 0, _ :: _, _, _ => .error "lexer out of fuel (unreachable)"
  | fu + 1, c :: cs, line, col =>
      if c.isWhitespace then
        if c = '\n' then lexGo fu cs (line + 1) 1 else lexGo fu cs line (col + 1)
      else if leadsWith ("<!--".toList) (c :: cs) then
        match findSeq ("-->".toList) ((c :: cs).drop 4) with
        | none => .error ("Unclosed comment at line " ++ toString line)
        | some (content, after) =>
            match lexGo fu after line col with
            | .ok ts => .ok (⟨"comment", String.mk content, line, col⟩ :: ts)
            | .error e => .error e
      else if c = '<' ∧ cs.head? ≠ some '/' then
        let tagName := cs.takeWhile isWordColonCh
        let rest2 := cs.dropWhile isWordColonCh
        let col2 := col + 1 + tagName.length
        match lexAttrs fu rest2 line col2 with
        | .error e => .error e
        | .ok (rest3, col3, attrToks) =>
            let (rest4, col4, selfToks) :=
              match rest3 with
              | '/' :: r => (r, col3 + 1,
                  [(⟨"selfClose", "/", line, col3⟩ : Token)])
              | other => (other, col3, [])
            match rest4 with
            | '>' :: r5 =>
                match lexGo fu r5 line (col4 + 1) with
                | .ok ts =>
                    .ok (⟨"openTag", String.mk tagName, line, col2 - tagName.length⟩ ::
                      (attrToks ++ selfToks ++ ts))
                | .error e => .error e
            | _ => .error ("Unclosed tag at line " ++ toString line)
      else if leadsWith ("</".toList) (c :: cs) then
        let rest1 := (c :: cs).drop 2
        let tagName := rest1.takeWhile isWordColonCh
        let rest2 := rest1.dropWhile isWordColonCh
        let col2 := col + 2 + tagName.length
        match rest2 with
        | '>' :: r3 =>
            match lexGo fu r3 line (col2 + 1) with
            | .ok ts =>
                .ok (⟨"closeTag", String.mk tagName, line, col2 + 1 - tagName.length⟩ :: ts)
            | .error e => .error e
        | _ => .error ("Invalid closing tag at line " ++ toString line)
      else
        let (value, rest) := lexTextGo (c :: cs)
        if value.isEmpty then
          .error ("Unexpected character \x27" ++ String.mk [c] ++ "\x27 at line " ++
            toString line ++ ", column " ++ toString col)
        else
          match lexGo fu rest line (col + value.length) with
          | .ok ts => .ok (⟨"text", String.mk value, line, col⟩ :: ts)
          | .error e => .error e

/-- `lex` of the latest lexer revision (`part_002` §2), as imported by the
pipeline entry points. -/
def lexV1 (input : String) : Except String (List Token) :=
  lexGo (input.length + 1) input.toList 1 1

/-- JS `str.replace(/pat/g, rep)` for a fixed non-empty pattern: split on
the pattern and rejoin with the replacement. -/
def strReplaceAll (s pat rep : String) : String :=
  String.intercalate rep (strSplitOn s pat)

/-- `unescape` of the parser (`part_000` lines 8–16): the five XML entity
replacements, applied in source order. -/
def unescape (str : String) : String :=
  strReplaceAll (strReplaceAll (strReplaceAll (strReplaceAll (strReplaceAll
    str "&lt;" "<") "&gt;" ">") "&amp;" "&") "&quot;" "\"") "&apos;" "\x27"

/-- The attribute-consuming loop of `parseElement` (`part_000` lines
64–82): split each attribute token at its first `=`, trim, strip one layer
of quotes, unescape, and store (later duplicates overwrite). -/
def parseAttrsLoopV1 : ℕ → List Token → ℕ → List (String × String) →
    List EvalError → List (String × String) × List Token × List EvalError
  | 0, ts, _, attrs, errs => (attrs, ts, errs)
  | _ + 1, [], _, attrs, errs => (attrs, [], errs)
  | fu + 1, tok :: rest, nodeLine, attrs, errs =>
      if tok.type = "attribute" then
        match breakOnChar '=' tok.value.toList with
        | none =>
            parseAttrsLoopV1 fu rest nodeLine attrs
              (errs ++ [⟨"syntax", "Invalid attribute format", none, some nodeLine⟩])
        | some (pre, post) =>
            let key := strTrim (String.mk pre)
            let val0 := strTrim (String.mk post)
            let val1 := if strStartsWith val0 "\"" || strStartsWith val0 "\x27" then
                (val0.drop 1).dropRight 1
              else val0
            parseAttrsLoopV1 fu rest nodeLine (setKV attrs key (unescape val1)) errs
      else (attrs, tok :: rest, errs)

/-- `while (this.peek() && this.peek()?.type !== 'closeTag') this.pos++`:
the child-failure recovery skip. -/
def skipToClose : List Token → List Token
  | [] => []
  | tok :: rest => if tok.type = "closeTag" then tok :: rest else skipToClose rest

mutual

/-- `parseElement` of `part_000` (lines 48–132): consume the opening tag,
its attributes, then either a self-close or the text/children loop with
the closing-tag bookkeeping.  `none` models the `return null` on a
non-`openTag` head (the position is *not* advanced there).  `fu` bounds the
recursion (each recursive call or loop iteration consumes at least one
token; `parseV1` supplies enough, the zero case is unreachable). -/
def parseElemV1 : ℕ → List Token → List EvalError →
    Option AstNode × List Token × List EvalError
  | 0, ts, errs => (none, ts, errs)
  | _ + 1, [], errs =>
      (none, [], errs ++ [⟨"syntax", "Expected opening tag", none, none⟩])
  | fu + 1, tok :: rest, errs =>
      if tok.type = "openTag" then
        let (attrs, ts1, errs1) := parseAttrsLoopV1 (fu + 1) rest tok.line [] errs
        match ts1 with
        | t1 :: ts2 =>
            if t1.type = "selfClose" then
              (some (.mk tok.value attrs [] none tok.line), ts2, errs1)
            else
              parseBodyV1 fu tok.value attrs tok.line none [] (t1 :: ts2) errs1
                errs1.length
        | [] => parseBodyV1 fu tok.value attrs tok.line none [] [] errs1 errs1.length
      else
        (none, tok :: rest,
          errs ++ [⟨"syntax", "Expected opening tag", none, some tok.line⟩])

/-- The text/children loop and closing-tag handling of `parseElement`
(`part_000` lines 88–131), carrying the node fields and the error count at
loop entry (`startErrors`). -/
def parseBodyV1 : ℕ → String → List (String × String) → ℕ → Option String →
    List AstNode → List Token → List EvalError → ℕ →
    Option AstNode × List Token × List EvalError
  | 0, ty, attrs, line, text, children, ts, errs, _ =>
      (some (.mk ty attrs children text line), ts, errs)
  | _ + 1, ty, attrs, line, text, children, [], errs, startE =>
      if errs.length = startE then
        (some (.mk ty attrs children text line), [],
          errs ++ [⟨"syntax", "Expected closing tag for " ++ ty, none, some line⟩])
      else (some (.mk ty attrs children text line), [], errs)
  | fu + 1, ty, attrs, line, text, children, tok :: rest, errs, startE =>
      if tok.type = "closeTag" then
        if tok.value = ty then
          (some (.mk ty attrs children text line), rest, errs)
        else if errs.length = startE then
          (some (.mk ty attrs children text line), rest,
            errs ++ [⟨"syntax", "Expected closing tag for " ++ ty, none,
              some (if tok.line = 0 then line else tok.line)⟩])
        else
          (some (.mk ty attrs children text line), rest, errs)
      else if tok.type = "text" then
        parseBodyV1 fu ty attrs line
          (some (unescape ((text.getD "") ++ strTrim tok.value))) children rest errs
          startE
      else if tok.type = "openTag" then
        let (child, ts1, errs1) := parseElemV1 fu (tok :: rest) errs
        match child with
        | some c => parseBodyV1 fu ty attrs line text (children ++ [c]) ts1 errs1 startE
        | none => parseBodyV1 fu ty attrs line text children (skipToClose ts1) errs1 startE
      else
        parseBodyV1 fu ty attrs line text children rest
          (errs ++ [⟨"syntax", "Unexpected token", none, some tok.line⟩]) startE

end

/-- `parse` of `part_000` (lines 26–47, 155–158): filter comments and EOF,
require the `<nsml>` root, parse one element, flag extra content, and null
the AST whenever any error was recorded. -/
def parseV1 (tokens : List Token) : Option AstNode × List EvalError :=
  let ts := tokens.filter (fun t => t.type ≠ "comment" && t.type ≠ "eof")
  match ts.head? with
  | some tok =>
      if tok.type = "openTag" ∧ tok.value = "nsml" then
        let (root, ts1, errs0) := parseElemV1 (2 * ts.length + 4) ts []
        let errs := match ts1.head? with
          | some extra =>
              errs0 ++ [⟨"syntax", "Extra content after root", none, some extra.line⟩]
          | none => errs0
        if errs.length > 0 then (none, errs) else (root, errs)
      else (none, [⟨"syntax", "Root must be <nsml>", none, some tok.line⟩])
  | none => (none, [⟨"syntax", "Root must be <nsml>", none, none⟩])

/-- `allowedSymbolTypes` of `types.ts`. -/
def allowedSymbolTypes : List String :=
  ["number", "string", "boolean", "list", "set", "graph", "object", "any"]

/-- JS `typeof` on the modelled values (`typeof NaN` is `"number"`; every
object — array, set, map, graph, error tag, `null` — is `"object"`). -/
def jsTypeof : Value → String
  | .vNum _ => "number"
  | .vStr _ => "string"
  | .vBool _ => "boolean"
  | .vUndef => "undefined"
  | _ => "object"

/-- The two-argument `parseValue` of `resolver.ts` (lines 123–130): a pure
literal parser — `undefined`, numbers via `parseFloat`, booleans via
lower-case comparison, everything else a string. -/
def parseValueV1 (val : String) (ty : String) : Value :=
  if val = "undefined" then .vUndef
  else match ty with
    | "number" => .vNum (jsParseFloat val)
    | "boolean" => .vBool (strToLower val = "true")
    | _ => .vStr val

/-- Ordered first-occurrence insertion (`Set.add` on a JS `Set` of
strings). -/
def addNodeOnce (nodes : List String) (n : String) : List String :=
  if n ∈ nodes then nodes else nodes ++ [n]

/-- One `edges` assignment of the resolver\x27s graph case (lines 83–87):
`edges.get(from).set(rel, to)` after ensuring the `from` map exists.  A
missing `->` part gives JS `undefined`; since the embedded graph is
string-keyed and no claim exercises that corner, it is modelled by the
string `"undefined"`. -/
def addEdgeV1 (edges : List (String × List (String × String))) (e : String) :
    List (String × List (String × String)) :=
  let parts := (strSplitOn e "->").map strTrim
  let fromN := parts.headD ""
  let rel := (parts[1]?).getD "undefined"
  let toN := (parts[2]?).getD "undefined"
  match List.lookup fromN edges with
  | some m => setKV edges fromN (setKV m rel toN)
  | none => edges ++ [(fromN, [(rel, toN)])]

/-- One `props` assignment of the resolver\x27s entity case (lines
92–107). -/
def addPropV1 (props : List (String × Value)) (errsName : String) (line : ℕ)
    (p : String) : List (String × Value) × List EvalError :=
  let p := strTrim p
  if p = "" then (props, [])
  else
    let splitParts := strSplitOn p "="
    let key := strTrim (splitParts.headD "")
    match splitParts[1]? with
    | none =>
        (props, [⟨"semantic", "Invalid prop \x27" ++ p ++ "\x27 for \x27" ++
          errsName ++ "\x27", none, some line⟩])
    | some valRaw =>
        let val := strTrim valRaw
        if key = "" then
          (props, [⟨"semantic", "Invalid prop \x27" ++ p ++ "\x27 for \x27" ++
            errsName ++ "\x27", none, some line⟩])
        else
          let stripped := if strStartsWith val "\"" || strStartsWith val "\x27" then
              (val.drop 1).dropRight 1
            else val
          (setKV props key (parseValueV1 stripped "any"), [])

/-- `resolveSymbol` of `resolver.ts` (lines 32–121): the missing-name and
duplicate-name early returns, type validation against
`allowedSymbolTypes`, entry construction per declaration kind
(`var`/`const`/`set`/`graph`/`entity`), the primitive type check, and the
final `symbols.set`. -/
def resolveSymbolV1 (node : AstNode) (symbols : SymbolTable)
    (errors : List EvalError) : SymbolTable × List EvalError :=
  match node with
  | .mk ty attrs _ text line =>
    let name := jsOrStr (attrs.lookup "name") ""
    if name = "" then
      (symbols, errors ++ [⟨"semantic", "Missing name attribute", none, some line⟩])
    else if (List.lookup name symbols).isSome then
      (symbols, errors ++ [⟨"semantic", "Duplicate symbol \x27" ++ name ++ "\x27",
        none, some line⟩])
    else
      let attrType := jsOrStr (attrs.lookup "type") ""
      if attrType ≠ "" ∧ attrType ∉ allowedSymbolTypes then
        (symbols, errors ++ [⟨"semantic", "Invalid type \x27" ++ attrType ++
          "\x27 for \x27" ++ name ++ "\x27", none, some line⟩])
      else
        let resolvedType := if attrType = "" then "any" else attrType
        let entry? : Option SymbolEntry :=
          if ty = "var" then
            some ⟨"var", resolvedType,
              parseValueV1 (jsOrStr (attrs.lookup "init") (jsOrStr text "undefined"))
                resolvedType, true⟩
          else if ty = "const" then
            some ⟨"const", resolvedType,
              parseValueV1 (jsOrStr (attrs.lookup "value") (jsOrStr text "undefined"))
                resolvedType, false⟩
          else if ty = "set" then
            some ⟨"set", "set",
              .vSet (svzDedup (((match attrs.lookup "elements" with
                | some s => strSplitOn s ","
                | none => [])).map (fun v => parseValueV1 (strTrim v) "any"))), true⟩
          else if ty = "graph" then
            let nodes := ((match attrs.lookup "nodes" with
              | some s => strSplitOn s ","
              | none => [])).foldl (fun acc n => addNodeOnce acc (strTrim n)) []
            let edges := ((match attrs.lookup "edges" with
              | some s => strSplitOn s ","
              | none => [])).foldl addEdgeV1 []
            some ⟨"graph", "graph", .vGraph ⟨nodes, edges⟩, true⟩
          else if ty = "entity" then
            none
          else none
        if ty = "entity" then
          let (props, perrs) := ((match attrs.lookup "props" with
            | some s => strSplitOn s ","
            | none => [])).foldl
              (fun acc p =>
                let (ps, es) := addPropV1 acc.1 name line p
                (ps, acc.2 ++ es)) ([], [])
          let entry : SymbolEntry := ⟨"entity", "object", .vObj props, true⟩
          (setKV symbols name entry, errors ++ perrs)
        else
          match entry? with
          | none =>
              (symbols, errors ++ [⟨"semantic", "Unknown symbol type \x27" ++ ty ++
                "\x27", none, some line⟩])
          | some entry =>
              let typeErrs := if entry.type ≠ "any" ∧
                  entry.type ∈ ["number", "string", "boolean"] ∧
                  jsTypeof entry.value ≠ entry.type then
                  [⟨"semantic", "Type mismatch for \x27" ++ name ++ "\x27", none,
                    some line⟩]
                else ([] : List EvalError)
              (setKV symbols name entry, errors ++ typeErrs)

mutual

/-- `resolveSymbols` of `resolver.ts` (lines 19–30): resolve the children
of every `symbols` node, then recurse into all children. -/
def resolveSymbolsV1 (node : AstNode) (st : SymbolTable × List EvalError) :
    SymbolTable × List EvalError :=
  match node with
  | .mk ty _ children _ _ =>
      let st1 := if ty = "symbols" then
          children.foldl (fun acc c => resolveSymbolV1 c acc.1 acc.2) st
        else st
      resolveSymbolsListV1 children st1

/-- `for (const child of node.children) resolveSymbols(child)`. -/
def resolveSymbolsListV1 (nodes : List AstNode) (st : SymbolTable × List EvalError) :
    SymbolTable × List EvalError :=
  match nodes with
  | [] => st
  | c :: cs => resolveSymbolsListV1 cs (resolveSymbolsV1 c st)

end

/-- `resolve` of `resolver.ts` (lines 10–134): the null-AST single error,
otherwise the full symbol traversal. -/
def resolveV1 (ast : Option AstNode) : SymbolTable × List EvalError :=
  match ast with
  | none => ([], [⟨"semantic", "Invalid or null AST from parser", none, none⟩])
  | some a => resolveSymbolsV1 a ([], [])

/-- Membership in the single-character class `[!+*/%^(),-<>]` of the v1
expression tokenizer — note `,-<` is a character *range* (codes 44–60),
so `.`, `:`, `;` and the digits are also members. -/
def isSingleOpChV1 (c : Char) : Bool :=
  c ∈ ['!', '+', '*', '/', '%', '^', '(', ')', '>'] ||
    (44 ≤ c.toNat && c.toNat ≤ 60)

/-- `tokenizeExpr` of `compiler.ts` (lines 171–174): the global regex
`("[^"]*"|\x27[^\x27]*\x27|\\d+|[a-zA-Z_]\\w*|>=|<=|==|!=|=>|<=>|&&|\\||[!+*/%^(),-<>])`
scanned left to right, trying the alternatives *in order* at each position
and silently skipping characters that match none (so `<=>` always lexes as
`<=` then `>`, since `<=` is listed first).  `fu` bounds the scan. -/
def tokenizeExprV1 : ℕ → List Char → List String
  | 0, _ => []
  | _ + 1, [] => []
  | fu + 1, c :: cs =>
      if c = '"' ∨ c = '\x27' then
        match breakOnChar c cs with
        | some (ins, aft) => String.mk (c :: ins ++ [c]) :: tokenizeExprV1 fu aft
        | none => tokenizeExprV1 fu cs
      else if isDigitCh c then
        String.mk ((c :: cs).takeWhile isDigitCh) ::
          tokenizeExprV1 fu ((c :: cs).dropWhile isDigitCh)
      else if c.isAlpha ∨ c = '_' then
        String.mk ((c :: cs).takeWhile (fun x => x.isAlphanum || x = '_')) ::
          tokenizeExprV1 fu ((c :: cs).dropWhile (fun x => x.isAlphanum || x = '_'))
      else if leadsWith ['>', '='] (c :: cs) ∨ leadsWith ['<', '='] (c :: cs) ∨
          leadsWith ['=', '='] (c :: cs) ∨ leadsWith ['!', '='] (c :: cs) ∨
          leadsWith ['=', '>'] (c :: cs) ∨ leadsWith ['&', '&'] (c :: cs) then
        String.mk ((c :: cs).take 2) :: tokenizeExprV1 fu ((c :: cs).drop 2)
      else if c = '|' then
        "|" :: tokenizeExprV1 fu cs
      else if isSingleOpChV1 c then
        String.mk [c] :: tokenizeExprV1 fu cs
      else tokenizeExprV1 fu cs

/-- `/\\d+/.test(token)` — *unanchored*: true when the token contains any
digit. -/
def isNumberV1 (token : String) : Bool := token.toList.any isDigitCh

/-- `/[a-zA-Z_]\\w*/.test(token)` — unanchored: true when the token
contains any letter or underscore. -/
def isIdentifierV1 (token : String) : Bool :=
  token.toList.any (fun c => c.isAlpha || c = '_')

mutual

/-- `parsePrimary` of the v1 expression parser (`compiler.ts` lines
75–101): numbers and identifiers stay raw token *strings* in the node
(`{ value: token }`), strings are unquoted, calls collect comma-separated
arguments, parentheses group.  `fu` bounds the recursion. -/
def parsePrimaryV1 : ℕ → List String → Option ExprNode × List String
  | 0, ts => (none, ts)
  | _ + 1, [] => (none, [])
  | fu + 1, token :: rest =>
      if isNumberV1 token then (some (.lit (.vStr token) none), rest)
      else if isStringTok token then
        (some (.lit (.vStr ((token.drop 1).dropRight 1)) none), rest)
      else if isIdentifierV1 token then
        match rest with
        | "(" :: rest2 => parseArgsLoopV1 fu token rest2 []
        | _ => (some (.lit (.vStr token) none), rest)
      else if token = "(" then
        let (e, ts2) := parseExpressionPartV1 fu rest
        match ts2 with
        | ")" :: ts3 => (e, ts3)
        | _ :: ts3 => (none, ts3)
        | [] => (none, [])
      else (none, rest)

/-- The argument loop of a v1 call (`while (peek() !== \x27)\x27 …)`),
with the `if (!arg) return null` propagation and the final `)` check. -/
def parseArgsLoopV1 : ℕ → String → List String → List ExprNode →
    Option ExprNode × List String
  | 0, _, ts, _ => (none, ts)
  | _ + 1, _, [], _ =>
      -- the final consume with the stream exhausted: null
      (none, [])
  | fu + 1, fname, t :: ts, acc =>
      if t = ")" then (some (.call fname acc none), ts)
      else
        let (arg, ts1) := parseExpressionPartV1 fu (t :: ts)
        match arg with
        | none => (none, ts1)
        | some a =>
            match ts1 with
            | "," :: ts2 => parseArgsLoopV1 fu fname ts2 (acc ++ [a])
            | _ => parseArgsLoopV1 fu fname ts1 (acc ++ [a])

/-- `parseUnary` of the v1 parser (lines 103–112). -/
def parseUnaryV1 : ℕ → List String → Option ExprNode × List String
  | 0, ts => (none, ts)
  | fu + 1, ts =>
      match ts with
      | token :: rest =>
          if token = "!" ∨ token = "-" then
            let (right, ts1) := parseUnaryV1 fu rest
            match right with
            | none => (none, ts1)
            | some r => (some (.opn (tokenOp token) none (some r) none), ts1)
          else parsePrimaryV1 fu ts
      | [] => parsePrimaryV1 fu []

/-- The shared left-folding loop of the v1 binary levels. -/
def parseBinLoopV1 (ops : List String) (sub : SubLevel) :
    ℕ → ExprNode → List String → Option ExprNode × List String
  | 0, _, ts => (none, ts)
  | fu + 1, left, ts =>
      match ts with
      | token :: rest =>
          if token ∈ ops then
            let (right, ts1) := runSubV1 sub fu rest
            match right with
            | none => (none, ts1)
            | some r =>
                parseBinLoopV1 ops sub fu (.opn (tokenOp token) (some left) (some r) none)
                  ts1
          else (some left, ts)
      | [] => (some left, [])

/-- Dispatch of the right-operand parser of a v1 binary level (there is no
power level in v1). -/
def runSubV1 (sub : SubLevel) : ℕ → List String → Option ExprNode × List String
  | 0, ts => (none, ts)
  | fu + 1, ts =>
      match sub with
      | .unaryLevel => parseUnaryV1 fu ts
      | .powerLevel => parseUnaryV1 fu ts
      | .multiplicativeLevel => parseMulDivV1 fu ts
      | .additiveLevel => parseAddSubV1 fu ts
      | .comparisonLevel => parseComparisonV1 fu ts

/-- `parseMulDiv` of the v1 parser (lines 114–124). -/
def parseMulDivV1 : ℕ → List String → Option ExprNode × List String
  | 0, ts => (none, ts)
  | fu + 1, ts =>
      let (left, ts1) := parseUnaryV1 fu ts
      match left with
      | none => (none, ts1)
      | some l => parseBinLoopV1 ["*", "/", "%"] SubLevel.unaryLevel fu l ts1

/-- `parseAddSub` of the v1 parser (lines 126–136). -/
def parseAddSubV1 : ℕ → List String → Option ExprNode × List String
  | 0, ts => (none, ts)
  | fu + 1, ts =>
      let (left, ts1) := parseMulDivV1 fu ts
      match left with
      | none => (none, ts1)
      | some l => parseBinLoopV1 ["+", "-"] SubLevel.multiplicativeLevel fu l ts1

/-- `parseComparison` of the v1 parser (lines 138–148). -/
def parseComparisonV1 : ℕ → List String → Option ExprNode × List String
  | 0, ts => (none, ts)
  | fu + 1, ts =>
      let (left, ts1) := parseAddSubV1 fu ts
      match left with
      | none => (none, ts1)
      | some l =>
          parseBinLoopV1 ["==", "!=", ">", "<", ">=", "<=", "in"]
            SubLevel.additiveLevel fu l ts1

/-- `parseLogical` of the v1 parser (lines 150–160) — no `<=>` here. -/
def parseLogicalV1 : ℕ → List String → Option ExprNode × List String
  | 0, ts => (none, ts)
  | fu + 1, ts =>
      let (left, ts1) := parseComparisonV1 fu ts
      match left with
      | none => (none, ts1)
      | some l => parseBinLoopV1 ["&&", "||", "=>"] SubLevel.comparisonLevel fu l ts1

/-- `parseExpressionPart` of the v1 parser. -/
def parseExpressionPartV1 : ℕ → List String → Option ExprNode × List String
  | 0, ts => (none, ts)
  | fu + 1, ts => parseLogicalV1 fu ts

end

/-- `parseExpression` of `compiler.ts` (lines 63–169): tokenize, parse,
and reject (`null`) when tokens remain unconsumed.  The v1 tokenizer never
throws. -/
def parseExpressionV1 (expr : String) : Option ExprNode :=
  let tokens := tokenizeExprV1 (expr.length + 1) expr.toList
  let (tree, rest) := parseExpressionPartV1 (50 * (tokens.length + 1)) tokens
  if rest.isEmpty then tree else none

/-- A v1 compiled rule callable: `func(...args)`, pure (the v1 `evalExpr`
pushes no errors and no traces). -/
def RuleFnV1 := List Value → Value

/-- The eager operator switch of the v1 `evalExpr` (`compiler.ts` lines
215–230): arithmetic, comparisons, strict (in)equality and `!`; *everything
else* — including the set operators, `in` and `<=>` — falls to the
`default: return null`. -/
def evalExprSwitchV1 (op : Operator) (left right : Option Value) : Value :=
  match op with
  | .add => .vNum (JNum.add (jsToNumberOpt left) (jsToNumberOpt right))
  | .sub => .vNum (JNum.sub (jsToNumberOpt left) (jsToNumberOpt right))
  | .mul => .vNum (JNum.mul (jsToNumberOpt left) (jsToNumberOpt right))
  | .div => .vNum (JNum.div (jsToNumberOpt left) (jsToNumberOpt right))
  | .mod => .vNum (JNum.mod (jsToNumberOpt left) (jsToNumberOpt right))
  | .pow => .vNum (JNum.pow (jsToNumberOpt left) (jsToNumberOpt right))
  | .ge => .vBool (JNum.le (jsToNumberOpt right) (jsToNumberOpt left))
  | .le => .vBool (JNum.le (jsToNumberOpt left) (jsToNumberOpt right))
  | .gt => .vBool (JNum.lt (jsToNumberOpt right) (jsToNumberOpt left))
  | .lt => .vBool (JNum.lt (jsToNumberOpt left) (jsToNumberOpt right))
  | .eq => .vBool (strictEq (toVal left) (toVal right))
  | .ne => .vBool (!(strictEq (toVal left) (toVal right)))
  | .not => .vBool (!(truthy (toVal right)))
  | _ => .vNull

mutual

/-- `evalExpr` of `compiler.ts` (lines 188–231): the evaluator inside v1
compiled rule closures.  Identifier lookup is `context[tree.value] ||
tree.value` (falsy fallback), the only builtin is `error` (every other call
returns `null`), `&&`/`||`/`=>` short-circuit, and the remaining operators
go through the eager `evalExprSwitchV1`.  Pure — no error or trace
output. -/
def evalExprV1 (tree : ExprNode) (context : Ctx) : Value :=
  match tree with
  | .lit v _ =>
      (match ctxGet context (propKey v) with
       | some w => if truthy w then w else v
       | none => v)
  | .call f args _ =>
      let argv := evalExprArgsV1 args context
      if f = "error" then .vErrTag (argv.headD .vUndef) else .vNull
  | .opn op left right _ =>
      match op with
      | .and =>
          let l := toVal (evalExprOptV1 left context)
          if !(truthy l) then l else toVal (evalExprOptV1 right context)
      | .or =>
          let l := toVal (evalExprOptV1 left context)
          if truthy l then l else toVal (evalExprOptV1 right context)
      | .imp =>
          let l := toVal (evalExprOptV1 left context)
          if !(truthy l) then .vBool true else toVal (evalExprOptV1 right context)
      | _ =>
          evalExprSwitchV1 op (evalExprOptV1 left context) (evalExprOptV1 right context)

/-- `tree.left ? evalExpr(tree.left, …) : undefined` (v1). -/
def evalExprOptV1 (t : Option ExprNode) (context : Ctx) : Option Value :=
  match t with
  | none => none
  | some e => some (evalExprV1 e context)

/-- `tree.args?.map(a => evalExpr(a, …)) || []` (v1). -/
def evalExprArgsV1 (args : List ExprNode) (context : Ctx) : List Value :=
  match args with
  | [] => []
  | a :: rest => evalExprV1 a context :: evalExprArgsV1 rest context

end

/-- The closure built for one v1 rule (`compiler.ts` lines 47–54): bind the
declared parameters to the call arguments over the symbol values and run
the v1 `evalExpr` on the rule body. -/
def mkRuleFnV1 (tree : ExprNode) (params : List String) (symbols : SymbolTable) :
    RuleFnV1 :=
  fun args =>
    let symbolValues : Ctx := symbols.map (fun kv => (kv.1, kv.2.value))
    let ctx := (params.enum.foldl
      (fun acc pi => ctxSet acc pi.2 ((args[pi.1]?).getD .vUndef)) symbolValues)
    evalExprV1 tree ctx

/-- `compileRule` of `compiler.ts` (lines 32–57): name (anonymous counter
incremented only when the `name` attribute is falsy), body text, parse
(`null` → syntax error and no registration), parameter list, and the two
registry writes. -/
def compileRuleV1 (symbols : SymbolTable) (node : AstNode)
    (st : List (String × RuleFnV1) × List (String × ExprNode) × List EvalError × ℕ) :
    List (String × RuleFnV1) × List (String × ExprNode) × List EvalError × ℕ :=
  match node with
  | .mk _ attrs _ text line =>
    let (rules, exprTrees, errors, anonCount) := st
    let (name, anonCount1) := match jsOrStr (attrs.lookup "name") "" with
      | "" => ("anonymous" ++ toString anonCount, anonCount + 1)
      | s => (s, anonCount)
    let exprStr := jsOrStr text (jsOrStr (attrs.lookup "body") "")
    match parseExpressionV1 exprStr with
    | none =>
        (rules, exprTrees,
          errors ++ [⟨"syntax", "Invalid expression in \x27" ++ name ++ "\x27",
            some "Verify operators and parentheses in expression", some line⟩],
          anonCount1)
    | some tree =>
        let params := ((strSplitOn (jsOrStr (attrs.lookup "params") "") ",").map
          (fun p => strTrim ((strSplitOn p ":").headD ""))).filter (fun p => p ≠ "")
        (setKV rules name (mkRuleFnV1 tree params symbols),
          setKV exprTrees name tree, errors, anonCount1)

mutual

/-- `compileNode` of `compiler.ts` (lines 21–30): compile the children of
every `rules` node, then recurse into all children. -/
def compileNodeV1 (symbols : SymbolTable) (node : AstNode)
    (st : List (String × RuleFnV1) × List (String × ExprNode) × List EvalError × ℕ) :
    List (String × RuleFnV1) × List (String × ExprNode) × List EvalError × ℕ :=
  match node with
  | .mk ty _ children _ _ =>
      let st1 := if ty = "rules" then
          children.foldl (fun acc c => compileRuleV1 symbols c acc) st
        else st
      compileNodeListV1 symbols children st1

/-- `for (const child of node.children) compileNode(child)`. -/
def compileNodeListV1 (symbols : SymbolTable) (nodes : List AstNode)
    (st : List (String × RuleFnV1) × List (String × ExprNode) × List EvalError × ℕ) :
    List (String × RuleFnV1) × List (String × ExprNode) × List EvalError × ℕ :=
  match nodes with
  | [] => st
  | c :: cs => compileNodeListV1 symbols cs (compileNodeV1 symbols c st)

end

/-- `compileRules` of `compiler.ts` (lines 9–61): the null-AST single
error, otherwise the rule-compiling traversal. -/
def compileRulesV1 (ast : Option AstNode) (symbols : SymbolTable) :
    List (String × RuleFnV1) × List (String × ExprNode) × List EvalError :=
  match ast with
  | none =>
      ([], [], [⟨"semantic", "Invalid AST", some "Check NSML input for syntax errors",
        none⟩])
  | some a =>
      let (rules, exprTrees, errors, _) := compileNodeV1 symbols a ([], [], [], 0)
      (rules, exprTrees, errors)

/-- The mutable state of one v1 `evaluate` run. -/
structure EvalStV1 where
  results : List (String × Value)
  errors : List EvalError
  trace : List String

/-- A well-formed algebraic chess move `[a-h][1-8]-[a-h][1-8]`. -/
def isAlgebraicMove (m : String) : Bool :=
  match m.toList with
  | [a, b, c, d, e] =>
      ('a' ≤ a && a ≤ 'h') && ('1' ≤ b && b ≤ '8') && (c = '-') &&
        ('a' ≤ d && d ≤ 'h') && ('1' ≤ e && e ≤ '8')
  | _ => false

/-- The `chess` handler of `domains.ts` (v1, lines 9–24): split `board` and
`moves`, optionally validate the moves, and return `{ board, moves }`. -/
def chessHandlerV1 (node : AstNode) : Value × Option EvalError :=
  let board := match (node.attributes).lookup "board" with
    | some s => strSplitOn s ","
    | none => []
  let moves := match (node.attributes).lookup "moves" with
    | some s => strSplitOn s ","
    | none => []
  let validate := (node.attributes).lookup "validate" = some "true"
  if validate ∧ ¬ (moves.all isAlgebraicMove) then
    (.vBool false, some ⟨"runtime", "Invalid chess move", none, some node.line⟩)
  else
    (.vObj [("board", .vList (board.map Value.vStr)),
      ("moves", .vList (moves.map Value.vStr))], none)

/-- `domainRegistry` of `domains.ts`: only the `chess` handler is
registered. -/
def domainRegistryKeys : List String := ["chess"]

mutual

/-- The structural core of the v1 `evalTree` (`evaluator.ts` lines
91–253): identifier fallback through `evalIdent`, the `error`/`path`/
`eval` builtins (v1 argument-check order: arity, then string endpoints,
then graph validity), the rule registry, and the eager binary switch
`evalTreeBinop` (identical in v1 and v2).  The recursion into a registered
rule tree (`eval`) goes through `jump`, supplied by the fuelled wrapper
`evalTreeV1`. -/
def evalTreeV1F (exprTrees : List (String × ExprNode))
    (rules : List (String × RuleFnV1))
    (jump : ExprNode → Ctx → List EvalError → Value × List EvalError) :
    ExprNode → Ctx → List EvalError → Value × List EvalError
  | .lit v _, context, errs => (evalIdent v context, errs)
  | .call f args line, context, errs =>
      let (argv, errs1) := evalTreeV1FArgs exprTrees rules jump args context errs
      if f = "error" then (.vErrTag (argv.headD .vUndef), errs1)
      else if f = "path" then
        if argv.length ≠ 3 then
          (.vNull, errs1 ++ [⟨"runtime",
            "path function requires 3 arguments (graph, start, end)",
            some "Provide graph, start node, and end node", some (lineOr0 line)⟩])
        else
          match argv with
          | [g, fromV, toV] =>
              match fromV, toV with
              | .vStr fromS, .vStr toS =>
                  (match g with
                   | .vGraph gr =>
                       (match pathBFS gr fromS toS with
                        | some p => .vList (p.map Value.vStr)
                        | none => .vNull, errs1)
                   | _ =>
                       (.vNull, errs1 ++ [⟨"runtime",
                         "Invalid graph argument for path",
                         some "Ensure first argument is a valid graph symbol",
                         some (lineOr0 line)⟩]))
              | _, _ =>
                  (.vNull, errs1 ++ [⟨"runtime",
                    "Start and end must be strings for path", none,
                    some (lineOr0 line)⟩])
          | _ => (.vNull, errs1)
      else if f = "eval" then
        match argv.headD .vUndef with
        | .vStr s =>
            (match List.lookup s exprTrees with
             | some ruleTree => jump ruleTree context errs1
             | none =>
                 (.vNull, errs1 ++ [⟨"runtime", "Unknown rule \x27" ++ s ++ "\x27",
                   none, some (lineOr0 line)⟩]))
        | arg => (arg, errs1)
      else
        match List.lookup f rules with
        | some fn => (fn argv, errs1)
        | none =>
            (.vNull, errs1 ++ [⟨"runtime", "Unknown function \x27" ++ f ++ "\x27",
              some "Define the function in <rules>", some (lineOr0 line)⟩])
  | .opn op left right _, context, errs =>
      let (l, errs1) := evalTreeV1FOpt exprTrees rules jump left context errs
      let (r, errs2) := evalTreeV1FOpt exprTrees rules jump right context errs1
      (evalTreeBinop op l r, errs2)

/-- `tree.left ? evalTree(tree.left, …) : undefined` (v1). -/
def evalTreeV1FOpt (exprTrees : List (String × ExprNode))
    (rules : List (String × RuleFnV1))
    (jump : ExprNode → Ctx → List EvalError → Value × List EvalError) :
    Option ExprNode → Ctx → List EvalError → Option Value × List EvalError
  | none, _, errs => (none, errs)
  | some e, context, errs =>
      let (v, errs1) := evalTreeV1F exprTrees rules jump e context errs
      (some v, errs1)

/-- `tree.args?.map(a => evalTree(a, …)) || []` (v1). -/
def evalTreeV1FArgs (exprTrees : List (String × ExprNode))
    (rules : List (String × RuleFnV1))
    (jump : ExprNode → Ctx → List EvalError → Value × List EvalError) :
    List ExprNode → Ctx → List EvalError → List Value × List EvalError
  | [], _, errs => ([], errs)
  | a :: rest, context, errs =>
      let (v, errs1) := evalTreeV1F exprTrees rules jump a context errs
      let (vs, errs2) := evalTreeV1FArgs exprTrees rules jump rest context errs1
      (v :: vs, errs2)

end

/-- The v1 `evalTree` with `fuel` bounding only the `eval` jumps into
registered rule trees (the source recursion is unbounded there and
diverges on cyclic rule definitions; every theorem quantifies over
`fuel`). -/
def evalTreeV1 (exprTrees : List (String × ExprNode))
    (rules : List (String × RuleFnV1)) :
    ℕ → ExprNode → Ctx → List EvalError → Value × List EvalError
  | 0 => evalTreeV1F exprTrees rules (fun _ _ errs => (.vNull, errs))
  | fu + 1 => evalTreeV1F exprTrees rules (evalTreeV1 exprTrees rules fu)

/-- `results[name] = …` of the v1 evaluator. -/
def EvalStV1.setRes (st : EvalStV1) (name : String) (v : Value) : EvalStV1 :=
  { st with results := setKV st.results name v }

/-- `errors.push(e)` of the v1 evaluator. -/
def EvalStV1.pushErr (st : EvalStV1) (e : EvalError) : EvalStV1 :=
  { st with errors := st.errors ++ [e] }

/-- `trace.push(s)` of the v1 evaluator. -/
def EvalStV1.pushTr (st : EvalStV1) (s : String) : EvalStV1 :=
  { st with trace := st.trace ++ [s] }

/-- Run the v1 `evalTree` against the shared error array of the evaluator
state. -/
def evalTreeV1St (exprTrees : List (String × ExprNode))
    (rules : List (String × RuleFnV1)) (fuel : ℕ) (tree : ExprNode) (context : Ctx)
    (st : EvalStV1) : Value × EvalStV1 :=
  let (v, errs) := evalTreeV1 exprTrees rules fuel tree context st.errors
  (v, { st with errors := errs })

/-- `handleImport` of the v1 evaluator (lines 53–66): trace on a present
`src`, a semantic error otherwise. -/
def handleImportV1 (node : AstNode) (st : EvalStV1) : EvalStV1 :=
  let src := jsOrStr ((node.attributes).lookup "src") ""
  if src ≠ "" then
    st.pushTr ("Importing " ++ src ++ " (full loading not implemented yet)")
  else
    st.pushErr ⟨"semantic", "Missing src for import",
      some "Add src=\"path/to/file.nsml\"", some node.line⟩

/-- `handleDomain` of the v1 evaluator (lines 69–88), with the v1 `chess`
handler as the only registry entry. -/
def handleDomainV1 (node : AstNode) (st : EvalStV1) : EvalStV1 :=
  if node.type ∈ domainRegistryKeys then
    let st := st.pushTr ("Evaluating domain tag " ++ node.type)
    let (result, err?) := chessHandlerV1 node
    match err? with
    | some e => st.pushErr e
    | none =>
        st.setRes (jsOrStr ((node.attributes).lookup "name")
          ("domain_" ++ node.type)) result
  else
    st.pushErr ⟨"semantic", "Unknown domain tag \x27" ++ node.type ++ "\x27",
      some "Register custom handler or use core tags", some node.line⟩

/-- The aggregate section of the v1 `processQuery` (lines 276–324).  The
boolean is `true` exactly on the early `return`s (empty valid-number list,
unknown function); an invalid collection only pushes an error and falls
through, and a computed aggregate records the result and falls through. -/
def aggregateSectionV1 (name : String) (attrs : List (String × String)) (line : ℕ)
    (context : Ctx) (st : EvalStV1) : EvalStV1 × Bool :=
  let func := (attrs.lookup "func").getD "undefined"
  let over := ctxGet context ((attrs.lookup "over").getD "undefined")
  let items : Option (List Value) := match over with
    | some (.vList l) => some l
    | some (.vSet l) => some l
    | _ => none
  match items with
  | some l =>
      let vals := ratsOf ((l.map jsToNumber).filter (fun n => n ≠ JNum.nan))
      if vals.length = 0 then
        (st.pushErr ⟨"runtime",
          "No valid numbers in aggregate \x27" ++ name ++ "\x27", none, some line⟩,
          true)
      else
        let agg : Option ℚ := match func, vals with
          | "count", _ => some (vals.length : ℚ)
          | "sum", _ => some (vals.foldl (· + ·) 0)
          | "min", q :: qs => some (qs.foldl min q)
          | "max", q :: qs => some (qs.foldl max q)
          | "avg", _ => some (vals.foldl (· + ·) 0 / (vals.length : ℚ))
          | _, _ => none
        match agg with
        | some q => (st.setRes name (.vNum (.rat q)), false)
        | none =>
            (st.pushErr ⟨"semantic",
              "Unknown aggregate func \x27" ++ func ++ "\x27", none, some line⟩, true)
  | none =>
      (st.pushErr ⟨"runtime",
        "Invalid collection for aggregate \x27" ++ name ++ "\x27", none, some line⟩,
        false)

/-- The per-element condition loop of the v1 `exists`/`forall` (lines
354–359): evaluate the condition with `item` bound and count truthy
results, threading the shared error array. -/
def countMatchesV1 (exprTrees : List (String × ExprNode))
    (rules : List (String × RuleFnV1)) (fuel : ℕ) (tree : ExprNode) (context : Ctx) :
    List Value → EvalStV1 → ℕ × EvalStV1
  | [], st => (0, st)
  | item :: rest, st =>
      let (v, st1) := evalTreeV1St exprTrees rules fuel tree
        (ctxSet context "item" item) st
      let (m, st2) := countMatchesV1 exprTrees rules fuel tree context rest st1
      (if truthy v then m + 1 else m, st2)

/-- The `exists`/`forall` section of the v1 `processQuery` (lines 325–370).
The boolean is `true` exactly on the early `return`s (missing condition,
unparsable condition, invalid collection). -/
def quantSectionV1 (exprTrees : List (String × ExprNode))
    (rules : List (String × RuleFnV1)) (fuel : ℕ) (ty name : String)
    (attrs : List (String × String)) (line : ℕ) (context : Ctx) (st : EvalStV1) :
    EvalStV1 × Bool :=
  let collection := ctxGet context ((attrs.lookup "in").getD "undefined")
  let conditionExpr := jsOrStr (attrs.lookup "condition") ""
  let countMode := attrs.lookup "count" = some "true"
  if conditionExpr = "" then
    (st.pushErr ⟨"semantic", "Missing condition for " ++ ty, none, some line⟩, true)
  else
    match parseExpressionV1 conditionExpr with
    | none =>
        (st.pushErr ⟨"runtime", "Invalid condition in " ++ ty, none, some line⟩, true)
    | some tree =>
        let items : Option (List Value) := match collection with
          | some (.vList l) => some l
          | some (.vSet l) => some l
          | _ => none
        match items with
        | none =>
            (st.pushErr ⟨"runtime", "Invalid collection for " ++ ty, none, some line⟩,
              true)
        | some l =>
            let mst := countMatchesV1 exprTrees rules fuel tree context l st
            let resultBool := if ty = "exists" then decide (mst.1 > 0)
              else decide (mst.1 = l.length)
            let recorded : Value := if countMode then
                .vObj [("result", .vBool resultBool), ("count", .vNum (.rat mst.1))]
              else .vBool resultBool
            ((mst.2).setRes name recorded, false)

mutual

/-- `processQuery` of the v1 evaluator (lines 256–372): branches divert to
the (inlined) `processBranch` and *return*; otherwise the text expression
is evaluated and recorded, the `aggregate` and `exists`/`forall` sections
run (their early `return`s skip the children), and the children are
processed recursively.  `processBranch` (lines 433–444): on a truthy `if`
attribute, deep-clone the context (structurally the identity,
`deepCloneCtx`), apply each `name=value` override through the
five-argument resolver `parseValue`, and process the children against the
overridden clone. -/
def processQueryV1 (exprTrees : List (String × ExprNode))
    (rules : List (String × RuleFnV1)) (symbols : SymbolTable) (fuel : ℕ)
    (node : AstNode) (context : Ctx) (st : EvalStV1) : EvalStV1 :=
  match node with
  | .mk ty attrs children text line =>
    if ty = "counterfactual" ∨ ty = "branch" then
      -- processBranch, inlined for structural recursion on the node
      let ifStr := jsOrStr (attrs.lookup "if") ""
      if ifStr ≠ "" then
        let start : Ctx × EvalStV1 := (deepCloneCtx context, st)
        let step := fun (acc : Ctx × EvalStV1) (ass : String) =>
          let parts := (strSplitOn ass "=").map strTrim
          let key := parts.headD ""
          let valOpt := parts[1]?
          let existingType := match List.lookup key symbols with
            | some e => jsOrStr (some e.type) "any"
            | none => "any"
          let (pv, perrs) := parseValueOpt valOpt existingType symbols (some line)
          (ctxSet acc.1 key pv, { acc.2 with errors := acc.2.errors ++ perrs })
        let folded := (strSplitOn ifStr ",").foldl step start
        processQueryListV1 exprTrees rules symbols fuel children folded.1 folded.2
      else st
    else
      let name := jsOrStr (attrs.lookup "name") "anonymous"
      let expr := text.getD ""
      let st1 :=
        if expr ≠ "" then
          match parseExpressionV1 expr with
          | some tree =>
              let (v, st2) := evalTreeV1St exprTrees rules fuel tree context st
              st2.setRes name v
          | none =>
              st.pushErr ⟨"runtime", "Invalid expression in query \x27" ++ name ++
                "\x27", some "Check syntax of expression", some line⟩
        else st
      let (st2, halt2) := if ty = "aggregate" then
          aggregateSectionV1 name attrs line context st1
        else (st1, false)
      if halt2 then st2
      else
        let (st3, halt3) := if ty = "exists" ∨ ty = "forall" then
            quantSectionV1 exprTrees rules fuel ty name attrs line context st2
          else (st2, false)
        if halt3 then st3
        else processQueryListV1 exprTrees rules symbols fuel children context st3

/-- `node.children.forEach(child => processQuery(child, …))` (v1). -/
def processQueryListV1 (exprTrees : List (String × ExprNode))
    (rules : List (String × RuleFnV1)) (symbols : SymbolTable) (fuel : ℕ)
    (nodes : List AstNode) (context : Ctx) (st : EvalStV1) : EvalStV1 :=
  match nodes with
  | [] => st
  | c :: cs =>
      processQueryListV1 exprTrees rules symbols fuel cs context
        (processQueryV1 exprTrees rules symbols fuel c context st)

end

/-- `processAssertion` of the v1 evaluator (lines 375–395). -/
def processAssertionV1 (exprTrees : List (String × ExprNode))
    (rules : List (String × RuleFnV1)) (fuel : ℕ) (node : AstNode) (context : Ctx)
    (st : EvalStV1) : EvalStV1 :=
  let expr := (node.text).getD ""
  match parseExpressionV1 expr with
  | some tree =>
      let (v, st1) := evalTreeV1St exprTrees rules fuel tree context st
      if !(truthy v) then
        st1.pushErr ⟨"runtime", "Assertion failed: " ++ expr,
          some "Adjust values or conditions to satisfy assertion", some node.line⟩
      else st1
  | none =>
      st.pushErr ⟨"runtime", "Invalid assertion expression",
        some "Provide a valid logical expression", some node.line⟩

/-- `processConstraint` of the v1 evaluator (lines 398–418).  The source
stores the raw `evalResult.message` value in the error record; the embedded
`EvalError.message` is a string, so the message value is rendered with
`jsToString` (observably identical for string messages, the only kind the
`error(…)` builtin receives in practice). -/
def processConstraintV1 (exprTrees : List (String × ExprNode))
    (rules : List (String × RuleFnV1)) (fuel : ℕ) (node : AstNode) (context : Ctx)
    (st : EvalStV1) : EvalStV1 :=
  let expr := (node.text).getD ""
  match parseExpressionV1 expr with
  | some tree =>
      let (v, st1) := evalTreeV1St exprTrees rules fuel tree context st
      match v with
      | .vErrTag m =>
          st1.pushErr ⟨"runtime", jsToString m, none, some node.line⟩
      | _ => st1
  | none =>
      st.pushErr ⟨"runtime", "Invalid constraint expression",
        some "Provide a valid implication => action", some node.line⟩

mutual

/-- `processAllConstraints` of the v1 evaluator (lines 421–430). -/
def processAllConstraintsV1 (exprTrees : List (String × ExprNode))
    (rules : List (String × RuleFnV1)) (fuel : ℕ) (node : AstNode) (context : Ctx)
    (st : EvalStV1) : EvalStV1 :=
  match node with
  | .mk ty _ children _ _ =>
      let st1 := if ty = "rules" then
          children.foldl (fun acc c =>
            if c.type = "constraint" then
              processConstraintV1 exprTrees rules fuel c context acc
            else acc) st
        else st
      processAllConstraintsListV1 exprTrees rules fuel children context st1

/-- `node.children.forEach(child => processAllConstraints(child, …))`. -/
def processAllConstraintsListV1 (exprTrees : List (String × ExprNode))
    (rules : List (String × RuleFnV1)) (fuel : ℕ) (nodes : List AstNode)
    (context : Ctx) (st : EvalStV1) : EvalStV1 :=
  match nodes with
  | [] => st
  | c :: cs =>
      processAllConstraintsListV1 exprTrees rules fuel cs context
        (processAllConstraintsV1 exprTrees rules fuel c context st)

end

/-- `processSimulate` of the v1 evaluator (lines 447–450); an absent
`target` renders as the string `undefined`, as in the source template
literal. -/
def processSimulateV1 (node : AstNode) (st : EvalStV1) : EvalStV1 :=
  st.pushTr ("Evaluating " ++ ((node.attributes).lookup "target").getD "undefined" ++
    ": step1 eval...")

mutual

/-- `traverse` of the v1 evaluator (lines 453–464): imports, domain tags,
`queries`, `assertions`, top-level branches, `simulate`, then the
children. -/
def traverseV1 (exprTrees : List (String × ExprNode))
    (rules : List (String × RuleFnV1)) (symbols : SymbolTable) (fuel : ℕ)
    (node : AstNode) (context : Ctx) (st : EvalStV1) : EvalStV1 :=
  match node with
  | .mk ty attrs children text line =>
    let st := if ty = "import" then
        handleImportV1 (.mk ty attrs children text line) st
      else st
    let st := if ty ∈ domainRegistryKeys then
        handleDomainV1 (.mk ty attrs children text line) st
      else st
    let st := if ty = "queries" then
        processQueryListV1 exprTrees rules symbols fuel children context st
      else st
    let st := if ty = "assertions" then
        children.foldl (fun acc c =>
          processAssertionV1 exprTrees rules fuel c context acc) st
      else st
    let st := if ty = "counterfactual" ∨ ty = "branch" then
        processQueryV1 exprTrees rules symbols fuel (.mk ty attrs children text line)
          context st
      else st
    let st := if ty = "simulate" then
        processSimulateV1 (.mk ty attrs children text line) st
      else st
    traverseListV1 exprTrees rules symbols fuel children context st

/-- `node.children.forEach(child => traverse(child, …))`. -/
def traverseListV1 (exprTrees : List (String × ExprNode))
    (rules : List (String × RuleFnV1)) (symbols : SymbolTable) (fuel : ℕ)
    (nodes : List AstNode) (context : Ctx) (st : EvalStV1) : EvalStV1 :=
  match nodes with
  | [] => st
  | c :: cs =>
      traverseListV1 exprTrees rules symbols fuel cs context
        (traverseV1 exprTrees rules symbols fuel c context st)

end

/-- `evaluate` of `evaluator.ts` (lines 26–472, the v1 sync revision): the
null-AST single error, the symbol value context (deep-cloned — structurally
the identity), the internal `compileRules` call for the expression trees
(its errors and rules are discarded here), the constraints pass, and the
main traversal.  `fuel` bounds only rule-eval jumps (see `evalTreeV1`). -/
def evaluateV1 (fuel : ℕ) (ast : Option AstNode) (symbols : SymbolTable)
    (rules : List (String × RuleFnV1)) : EvalStV1 :=
  match ast with
  | none =>
      ⟨[], [⟨"runtime", "Invalid AST", some "Verify input and parsing", none⟩], []⟩
  | some a =>
      let valueContext := deepCloneCtx (symbols.map (fun kv => (kv.1, kv.2.value)))
      let exprTrees := (compileRulesV1 (some a) symbols).2.1
      let st0 : EvalStV1 := ⟨[], [], []⟩
      let st1 := processAllConstraintsV1 exprTrees rules fuel a valueContext st0
      traverseV1 exprTrees rules symbols fuel a valueContext st1

/-- The `processBranch` fragment of `traverse` handles `counterfactual`
nodes at traversal level; `processQuery` handles them among query
children.  `parseNSML` of `part_001` (lines 8–24): the full synchronous
pipeline with its three early returns — any parse, resolve, or compile
error short-circuits to an *empty* result set carrying only that stage\x27s
errors; a lexer throw propagates (`Except.error`).  `fuel` bounds only
rule-eval jumps inside `evaluate`. -/
def parseNSMLV1 (fuel : ℕ) (input : String) : Except String EvalStV1 :=
  match lexV1 input with
  | .error e => .error e
  | .ok tokens =>
      let (ast, parseErrors) := parseV1 tokens
      if parseErrors.length > 0 ∨ ast.isNone then
        .ok ⟨[], parseErrors, []⟩
      else
        let (symbols, resolveErrors) := resolveV1 ast
        if resolveErrors.length > 0 then
          .ok ⟨[], resolveErrors, []⟩
        else
          let (rules, _, compileErrors) := compileRulesV1 ast symbols
          if compileErrors.length > 0 then
            .ok ⟨[], compileErrors, []⟩
          else
            .ok (evaluateV1 fuel ast symbols rules)

/-- The C8 counterexample document: a well-formed doc whose `symbols`
section declares `x` twice (a lone semantic resolve error) and whose
`queries` section holds an independently evaluable query `q` reading
`x`. -/
def docDup : String := "<nsml><symbols><var name=\"x\" type=\"number\" init=\"1\"/><var name=\"x\" type=\"number\" init=\"2\"/></symbols><queries><query name=\"q\">x</query></queries></nsml>"

/-- The token stream of `docDup`. -/
def toksDup : List Token :=
  [⟨"openTag", "nsml", 1, 2⟩, ⟨"openTag", "symbols", 1, 8⟩, ⟨"openTag", "var", 1, 17⟩,
   ⟨"attribute", "name=\"x\"", 1, 21⟩, ⟨"attribute", "type=\"number\"", 1, 30⟩,
   ⟨"attribute", "init=\"1\"", 1, 44⟩, ⟨"selfClose", "/", 1, 52⟩,
   ⟨"openTag", "var", 1, 55⟩, ⟨"attribute", "name=\"x\"", 1, 59⟩,
   ⟨"attribute", "type=\"number\"", 1, 68⟩, ⟨"attribute", "init=\"2\"", 1, 82⟩,
   ⟨"selfClose", "/", 1, 90⟩, ⟨"closeTag", "symbols", 1, 95⟩,
   ⟨"openTag", "queries", 1, 103⟩, ⟨"openTag", "query", 1, 112⟩,
   ⟨"attribute", "name=\"q\"", 1, 118⟩, ⟨"text", "x", 1, 127⟩,
   ⟨"closeTag", "query", 1, 131⟩, ⟨"closeTag", "queries", 1, 139⟩,
   ⟨"closeTag", "nsml", 1, 149⟩, ⟨"eof", "", 1, 153⟩]

/-- The parsed AST of `docDup`. -/
def astDup : AstNode :=
  .mk "nsml" []
    [.mk "symbols" []
      [.mk "var" [("name", "x"), ("type", "number"), ("init", "1")] [] none 1,
       .mk "var" [("name", "x"), ("type", "number"), ("init", "2")] [] none 1] none 1,
     .mk "queries" [] [.mk "query" [("name", "q")] [] (some "x") 1] none 1] none 1

/-- The symbol table after resolving `docDup` (the first declaration
wins). -/
def symsDup : SymbolTable := [("x", ⟨"var", "number", .vNum (.rat 1), true⟩)]

/-- The single resolve error of `docDup`. -/
def dupErr : EvalError := ⟨"semantic", "Duplicate symbol \x27x\x27", none, some 1⟩

/-- Witness symbol table for C9. -/
def wSymsC9 : SymbolTable := [("y", ⟨"var", "number", .vNum (.rat 5), true⟩)]

/-! ### Allocation-level model of `deepClone` (for the reference-sharing
claim).  JS object identity is made visible by tagging every mutable
container (array, plain object, `Set`, `Map`) with a heap address; the
structural layer of `deepClone` is covered by `deepCloneV` above. -/

/-- A JS value with explicit heap addresses on its mutable containers. -/
inductive HValue where
  | hNull
  | hUndef
  | hBool (b : Bool)
  | hNum (n : JNum)
  | hStr (s : String)
  | hArr (addr : ℕ) (elems : List HValue)
  | hObj (addr : ℕ) (fields : List (String × HValue))
  | hSet (addr : ℕ) (elems : List HValue)
  | hMap (addr : ℕ) (pairs : List (HValue × HValue))

mutual

/-- `deepClone` of `evaluator.ts` (lines 14–24 and 490–500) at the
allocation level, with a fresh-address counter: primitives are returned
as-is; `new Set(obj)` / `new Map(obj)` allocate a *fresh container* whose
elements / key-value pairs are the *same references* (the same sub-terms,
addresses included); arrays and plain objects allocate fresh and clone
recursively. -/
def deepCloneH : ℕ → HValue → HValue × ℕ
  | n, .hNull => (.hNull, n)
  | n, .hUndef => (.hUndef, n)
  | n, .hBool b => (.hBool b, n)
  | n, .hNum m => (.hNum m, n)
  | n, .hStr s => (.hStr s, n)
  | n, .hSet _ elems => (.hSet n elems, n + 1)
  | n, .hMap _ pairs => (.hMap n pairs, n + 1)
  | n, .hArr _ elems =>
      let (es, n1) := deepCloneHList (n + 1) elems
      (.hArr n es, n1)
  | n, .hObj _ fields =>
      let (fs, n1) := deepCloneHFields (n + 1) fields
      (.hObj n fs, n1)

/-- `obj.map(deepClone)` with the address counter threaded left to
right. -/
def deepCloneHList : ℕ → List HValue → List HValue × ℕ
  | n, [] => ([], n)
  | n, v :: rest =>
      let (v1, n1) := deepCloneH n v
      let (vs, n2) := deepCloneHList n1 rest
      (v1 :: vs, n2)

/-- `for (const key in obj) copy[key] = deepClone(obj[key])`. -/
def deepCloneHFields : ℕ → List (String × HValue) → List (String × HValue) × ℕ
  | n, [] => ([], n)
  | n, (k, v) :: rest =>
      let (v1, n1) := deepCloneH n v
      let (vs, n2) := deepCloneHFields n1 rest
      ((k, v1) :: vs, n2)

end

mutual

/-- Forget all heap addresses (the structural view of an `HValue`). -/
def stripAddrs : HValue → HValue
  | .hNull => .hNull
  | .hUndef => .hUndef
  | .hBool b => .hBool b
  | .hNum m => .hNum m
  | .hStr s => .hStr s
  | .hArr _ elems => .hArr 0 (stripAddrsList elems)
  | .hObj _ fields => .hObj 0 (stripAddrsFields fields)
  | .hSet _ elems => .hSet 0 (stripAddrsList elems)
  | .hMap _ pairs => .hMap 0 (stripAddrsPairs pairs)

/-- Elementwise `stripAddrs`. -/
def stripAddrsList : List HValue → List HValue
  | [] => []
  | v :: rest => stripAddrs v :: stripAddrsList rest

/-- Fieldwise `stripAddrs`. -/
def stripAddrsFields : List (String × HValue) → List (String × HValue)
  | [] => []
  | (k, v) :: rest => (k, stripAddrs v) :: stripAddrsFields rest

/-- Pairwise `stripAddrs`. -/
def stripAddrsPairs : List (HValue × HValue) → List (HValue × HValue)
  | [] => []
  | (k, v) :: rest => (stripAddrs k, stripAddrs v) :: stripAddrsPairs rest

end

mutual

/-- Every container address occurring anywhere in a value. -/
def addrsAll : HValue → List ℕ
  | .hNull | .hUndef | .hBool _ | .hNum _ | .hStr _ => []
  | .hArr a elems => a :: addrsAllList elems
  | .hObj a fields => a :: addrsAllFields fields
  | .hSet a elems => a :: addrsAllList elems
  | .hMap a pairs => a :: addrsAllPairs pairs

/-- `addrsAll` over a list. -/
def addrsAllList : List HValue → List ℕ
  | [] => []
  | v :: rest => addrsAll v ++ addrsAllList rest

/-- `addrsAll` over fields. -/
def addrsAllFields : List (String × HValue) → List ℕ
  | [] => []
  | (_, v) :: rest => addrsAll v ++ addrsAllFields rest

/-- `addrsAll` over key-value pairs. -/
def addrsAllPairs : List (HValue × HValue) → List ℕ
  | [] => []
  | (k, v) :: rest => addrsAll k ++ addrsAll v ++ addrsAllPairs rest

end

mutual

/-- The container addresses reachable *without* entering a `Set` or `Map`:
every array and plain-object address on such paths, plus the `Set`/`Map`
container addresses themselves (their contents are shared, not owned). -/
def addrsOutside : HValue → List ℕ
  | .hNull | .hUndef | .hBool _ | .hNum _ | .hStr _ => []
  | .hArr a elems => a :: addrsOutsideList elems
  | .hObj a fields => a :: addrsOutsideFields fields
  | .hSet a _ => [a]
  | .hMap a _ => [a]

/-- `addrsOutside` over a list. -/
def addrsOutsideList : List HValue → List ℕ
  | [] => []
  | v :: rest => addrsOutside v ++ addrsOutsideList rest

/-- `addrsOutside` over fields. -/
def addrsOutsideFields : List (String × HValue) → List ℕ
  | [] => []
  | (_, v) :: rest => addrsOutside v ++ addrsOutsideFields rest

end

/-- Witness heap value for C10: an object holding an array and a `Set`
containing an object. -/
def wHeap : HValue :=
  .hObj 0 [("a", .hArr 1 [.hNum (.rat 1)]), ("s", .hSet 2 [.hObj 3 []])]

/-! ### Theorems: the BFS correctness development, the frame and
bookkeeping lemmas, and the per-claim theorems with their witnesses and
counterexamples -/

/-! ### Association-list and reconstruction lemmas for the BFS proof -/

theorem lookup_append_left {α : Type} {k : String} {l₁ l₂ : List (String × α)}
    (h : k ∈ l₁.map Prod.fst) : (l₁ ++ l₂).lookup k = l₁.lookup k := by
  induction l₁ with
  | nil => simp at h
  | cons e t ih =>
    obtain ⟨k', v⟩ := e
    by_cases hk : k = k'
    · subst hk; simp [List.lookup]
    · have : k ∈ t.map Prod.fst := by
        simpa [hk] using h
      simp only [List.cons_append, List.lookup]
      have hne : (k == k') = false := by simp [hk]
      rw [hne]
      simpa using ih this

theorem lookup_append_right {α : Type} {k : String} {l₁ l₂ : List (String × α)}
    (h : k ∉ l₁.map Prod.fst) : (l₁ ++ l₂).lookup k = l₂.lookup k := by
  induction l₁ with
  | nil => simp
  | cons e t ih =>
    obtain ⟨k', v⟩ := e
    have hk : k ≠ k' := by
      intro hkk; exact h (by simp [hkk])
    have ht : k ∉ t.map Prod.fst := fun hm => h (by simp [hm])
    simp only [List.cons_append, List.lookup]
    have hne : (k == k') = false := by simp [hk]
    rw [hne]
    exact ih ht

theorem lookup_mem_keys {α : Type} {k : String} {v : α} :
    ∀ {l : List (String × α)}, l.lookup k = some v → k ∈ l.map Prod.fst := by
  intro l
  induction l with
  | nil => intro h; simp [List.lookup] at h
  | cons e t ih =>
    obtain ⟨k', v'⟩ := e
    intro h
    by_cases hk : k = k'
    · simp [hk]
    · have hne : (k == k') = false := by simp [hk]
      simp only [List.lookup, hne] at h
      simpa using Or.inr (ih h)

theorem setKV_fresh {α : Type} {k : String} {v : α} :
    ∀ {l : List (String × α)}, k ∉ l.map Prod.fst → setKV l k v = l ++ [(k, v)] := by
  intro l
  induction l with
  | nil => intro _; rfl
  | cons e t ih =>
    obtain ⟨k', v'⟩ := e
    intro h
    have hk : k' ≠ k := by
      intro hkk; exact h (by simp [hkk])
    have ht : k ∉ t.map Prod.fst := fun hm => h (by simp [hm])
    simp [setKV, hk, ih ht]

theorem lookup_const_pairs {α : Type} {k : String} {x : α} :
    ∀ {ns : List String}, k ∈ ns → (ns.map (fun n => (n, x))).lookup k = some x := by
  intro ns
  induction ns with
  | nil => intro h; simp at h
  | cons n t ih =>
    intro h
    by_cases hk : k = n
    · simp [hk, List.lookup]
    · have : k ∈ t := by
        rcases List.mem_cons.mp h with h | h
        · exact absurd h hk
        · exact h
      have hne : (k == n) = false := by simp [hk]
      simpa [List.lookup, hne] using ih this

theorem rebuild_fuel_mono {parent : List (String × Option String)} :
    ∀ {fuel fuel' : ℕ} {c : Option String} {acc r : List String},
      rebuild parent fuel c acc = some r → fuel ≤ fuel' →
      rebuild parent fuel' c acc = some r := by
  intro fuel
  induction fuel with
  | zero =>
    intro fuel' c acc r h _
    match c with
    | none => simpa [rebuild] using h
    | some c0 => simp [rebuild] at h
  | succ f ih =>
    intro fuel' c acc r h hle
    match c with
    | none =>
      simpa [rebuild] using h
    | some c0 =>
      obtain ⟨f', rfl⟩ : ∃ f', fuel' = f' + 1 := by
        cases fuel' with
        | zero => omega
        | succ f' => exact ⟨f', rfl⟩
      simp only [rebuild] at h ⊢
      cases hc : parent.lookup c0 with
      | none => simp [hc] at h
      | some p =>
        simp only [hc] at h ⊢
        exact ih h (by omega)

theorem rebuild_append {parent ext : List (String × Option String)} :
    ∀ {fuel : ℕ} {c : Option String} {acc r : List String},
      rebuild parent fuel c acc = some r →
      rebuild (parent ++ ext) fuel c acc = some r := by
  intro fuel
  induction fuel with
  | zero =>
    intro c acc r h
    match c with
    | none => simpa [rebuild] using h
    | some c0 => simp [rebuild] at h
  | succ f ih =>
    intro c acc r h
    match c with
    | none => simpa [rebuild] using h
    | some c0 =>
      simp only [rebuild] at h ⊢
      cases hc : parent.lookup c0 with
      | none => simp [hc] at h
      | some p =>
        simp only [hc] at h
        rw [lookup_append_left (lookup_mem_keys hc)]
        simp only [hc]
        exact ih h

theorem nodup_length_le {l₁ l₂ : List String} (h₁ : l₁.Nodup)
    (hsub : ∀ x ∈ l₁, x ∈ l₂) : l₁.length ≤ l₂.length := by
  classical
  calc l₁.length = l₁.toFinset.card := (List.toFinset_card_of_nodup h₁).symm
    _ ≤ l₂.toFinset.card := by
        apply Finset.card_le_card
        intro x hx
        simp only [List.mem_toFinset] at hx ⊢
        exact hsub x hx
    _ ≤ l₂.length := l₂.toFinset_card_le

theorem newOf_subset {x : String} :
    ∀ {ns visited : List String}, x ∈ newOf visited ns → x ∈ ns ∧ x ∉ visited := by
  intro ns
  induction ns with
  | nil => intro visited h; simp [newOf] at h
  | cons n t ih =>
    intro visited h
    by_cases hn : n ∈ visited
    · simp only [newOf, if_pos hn] at h
      obtain ⟨h1, h2⟩ := ih h
      exact ⟨List.mem_cons_of_mem _ h1, h2⟩
    · simp only [newOf, if_neg hn] at h
      rcases List.mem_cons.mp h with rfl | h
      · exact ⟨List.mem_cons_self _ _, hn⟩
      · obtain ⟨h1, h2⟩ := ih h
        have hxv : x ∉ visited := fun hv => h2 (by simp [hv])
        exact ⟨List.mem_cons_of_mem _ h1, hxv⟩

theorem newOf_nodup : ∀ (ns visited : List String), (newOf visited ns).Nodup := by
  intro ns
  induction ns with
  | nil => intro visited; simp [newOf]
  | cons n t ih =>
    intro visited
    by_cases hn : n ∈ visited
    · simpa [newOf, hn] using ih visited
    · simp only [newOf, if_neg hn]
      refine List.nodup_cons.mpr ⟨?_, ih _⟩
      intro hmem
      exact (newOf_subset hmem).2 (by simp)

theorem newOf_complete {x : String} :
    ∀ {ns visited : List String}, x ∈ ns → x ∉ visited → x ∈ newOf visited ns := by
  intro ns
  induction ns with
  | nil => intro visited h _; simp at h
  | cons n t ih =>
    intro visited h hxv
    by_cases hn : n ∈ visited
    · have hx : x ∈ t := by
        rcases List.mem_cons.mp h with rfl | h
        · exact absurd hn hxv
        · exact h
      simpa [newOf, hn] using ih hx hxv
    · simp only [newOf, if_neg hn]
      rcases List.mem_cons.mp h with rfl | h
      · simp
      · by_cases hxn : x = n
        · simp [hxn]
        · have : x ∉ visited ++ [n] := by
            intro hm
            rcases List.mem_append.mp hm with hm | hm
            · exact hxv hm
            · exact hxn (by simpa using hm)
          exact List.mem_cons_of_mem _ (ih h this)

theorem pushNbrs_eq (curr : String) :
    ∀ (ns queue visited : List String) (parent : List (String × Option String)),
      parent.map Prod.fst = visited →
      pushNbrs curr ns queue visited parent =
        (queue ++ newOf visited ns, visited ++ newOf visited ns,
         parent ++ (newOf visited ns).map (fun n => (n, some curr))) := by
  intro ns
  induction ns with
  | nil => intro queue visited parent _; simp [pushNbrs, newOf]
  | cons n t ih =>
    intro queue visited parent hkeys
    by_cases hn : n ∈ visited
    · simpa [pushNbrs, newOf, hn] using ih queue visited parent hkeys
    · have hfresh : n ∉ parent.map Prod.fst := by rw [hkeys]; exact hn
      have hset : setKV parent n (some curr) = parent ++ [(n, some curr)] :=
        setKV_fresh hfresh
      have hkeys' : (parent ++ [(n, some curr)]).map Prod.fst = visited ++ [n] := by
        simp [hkeys]
      simp only [pushNbrs, if_neg hn, newOf, hset]
      rw [ih (queue ++ [n]) (visited ++ [n]) (parent ++ [(n, some curr)]) hkeys']
      simp

/-- Every maximal walk inside a set that is closed under the edge relation
stays inside the set. -/
theorem walk_stays {g : Graph} {visited : List String}
    (hcl : ∀ u ∈ visited, ∀ w ∈ nbrs g u, w ∈ visited) :
    ∀ l : List String, IsWalk g l →
      ∀ a, l.head? = some a → a ∈ visited →
      ∀ b, l.getLast? = some b → b ∈ visited := by
  intro l
  induction l with
  | nil => intro _ a ha _ b hb; simp at ha
  | cons x t ih =>
    intro hw a ha hav b hb
    cases t with
    | nil =>
      simp at ha hb
      subst ha; subst hb
      exact hav
    | cons y t' =>
      have hx : x = a := by simpa using ha
      subst hx
      have hedge : y ∈ nbrs g x := (List.chain'_cons.mp hw).1
      have hw' : IsWalk g (y :: t') := (List.chain'_cons.mp hw).2
      have hyv : y ∈ visited := hcl x hav y hedge
      exact ih hw' y rfl hyv b (by simpa using hb)

/-- In a list whose head satisfies `p` and whose last element does not, some
adjacent pair crosses the boundary. -/
theorem frontier_split {p : String → Prop} [DecidablePred p] :
    ∀ (l : List String) (x y : String), l.head? = some x → p x →
      l.getLast? = some y → ¬ p y →
      ∃ l₁ z w l₂, l = l₁ ++ z :: w :: l₂ ∧ p z ∧ ¬ p w := by
  intro l
  induction l with
  | nil => intro x y hx _ _ _; simp at hx
  | cons a t ih =>
    intro x y hx hpx hy hpy
    have hax : a = x := by simpa using hx
    subst hax
    cases t with
    | nil =>
      have : a = y := by simpa using hy
      subst this
      exact absurd hpx hpy
    | cons c t' =>
      by_cases hpc : p c
      · obtain ⟨l₁, z, w, l₂, heq, hz, hw⟩ :=
          ih c y rfl hpc (by simpa using hy) hpy
        exact ⟨a :: l₁, z, w, l₂, by simp [heq], hz, hw⟩
      · exact ⟨[], a, c, t', by simp, hpx, hpc⟩

theorem pathFrom_length_pos {g : Graph} {a b : String} {l : List String}
    (h : PathFrom g a b l) : 1 ≤ l.length := by
  obtain ⟨hh, _, _⟩ := h
  cases l with
  | nil => simp at hh
  | cons x t => simp

theorem pathFrom_snoc {g : Graph} {a curr w : String} {l : List String}
    (h : PathFrom g a curr l) (hw : w ∈ nbrs g curr) :
    PathFrom g a w (l ++ [w]) := by
  obtain ⟨hh, hlast, hwalk⟩ := h
  refine ⟨?_, ?_, ?_⟩
  · cases l with
    | nil => simp at hh
    | cons x t => simpa using hh
  · simp
  · unfold IsWalk at hwalk ⊢
    rw [List.chain'_append]
    refine ⟨hwalk, List.chain'_singleton _, ?_⟩
    intro x hx y hy
    simp at hy
    subst hy
    rw [hlast] at hx
    simp at hx
    subst hx
    exact hw

/-- Under the invariant, the level of a visited node is bounded by the number
of parent-map entries (the parent chain of `v` consists of `d v + 1` distinct
visited nodes). -/
theorem dist_bound {g : Graph} {a : String} {queue visited : List String}
    {parent : List (String × Option String)} {d : String → ℕ}
    (hInv : BfsInv g a queue visited parent d) :
    ∀ v ∈ visited, d v + 1 ≤ visited.length := by
  have chain : ∀ n : ℕ, ∀ v ∈ visited, d v = n →
      ∃ c : List String, c.Nodup ∧ (∀ x ∈ c, x ∈ visited ∧ d x ≤ n) ∧
        c.length = n + 1 := by
    intro n
    induction n with
    | zero =>
      intro v hv hd
      exact ⟨[v], by simp, by simp [hv, hd], by simp⟩
    | succ m ih =>
      intro v hv hd
      have hva : v ≠ a := by
        intro hva; rw [hva, hInv.da] at hd; omega
      obtain ⟨u, _, huv, _, hdv⟩ := hInv.parentOk v hv hva
      have hdu : d u = m := by omega
      obtain ⟨c, hcnd, hcmem, hclen⟩ := ih u huv hdu
      refine ⟨v :: c, ?_, ?_, by simp [hclen]⟩
      · refine List.nodup_cons.mpr ⟨?_, hcnd⟩
        intro hvc
        have := (hcmem v hvc).2
        omega
      · intro x hx
        rcases List.mem_cons.mp hx with rfl | hx
        · exact ⟨hv, by omega⟩
        · obtain ⟨h1, h2⟩ := hcmem x hx
          exact ⟨h1, by omega⟩
  intro v hv
  obtain ⟨c, hcnd, hcmem, hclen⟩ := chain (d v) v hv rfl
  have := nodup_length_le hcnd (fun x hx => (hcmem x hx).1)
  omega

/-- When the queue is empty, the invariant implies the unvisited target is
unreachable. -/
theorem bfs_unreachable {g : Graph} {a b : String} {visited : List String}
    {parent : List (String × Option String)} {d : String → ℕ}
    (hInv : BfsInv g a [] visited parent d) (hb : b ∉ visited) :
    ¬ ∃ l, PathFrom g a b l := by
  rintro ⟨l, hh, hlast, hwalk⟩
  have hcl : ∀ u ∈ visited, ∀ w ∈ nbrs g u, w ∈ visited := by
    intro u hu w hw
    exact hInv.closure u hu (by simp) w hw
  exact hb (walk_stays hcl l hwalk a hh hInv.rootV b hlast)

theorem chain'_le_of_const {c : ℕ} :
    ∀ l : List ℕ, (∀ x ∈ l, x = c) → List.Chain' (· ≤ ·) l := by
  intro l
  induction l with
  | nil => intro _; simp
  | cons x t ih =>
    intro h
    cases t with
    | nil => simp
    | cons y t' =>
      refine List.chain'_cons.mpr ⟨?_, ih ?_⟩
      · rw [h x (by simp), h y (by simp)]
      · intro z hz; exact h z (List.mem_cons_of_mem _ hz)

theorem mem_of_lookup {α : Type} {k : String} {v : α} :
    ∀ {l : List (String × α)}, l.lookup k = some v → (k, v) ∈ l := by
  intro l
  induction l with
  | nil => intro h; simp [List.lookup] at h
  | cons e t ih =>
    obtain ⟨k', v'⟩ := e
    intro h
    by_cases hk : k = k'
    · subst hk
      simp [List.lookup] at h
      simp [h]
    · have hne : (k == k') = false := by simp [hk]
      simp only [List.lookup, hne] at h
      exact List.mem_cons_of_mem _ (ih h)

theorem nbrs_subset_allTargets {g : Graph} {v x : String}
    (h : x ∈ nbrs g v) : x ∈ allTargets g := by
  unfold nbrs at h
  cases hl : g.edges.lookup v with
  | none => rw [hl] at h; simp at h
  | some rels =>
    rw [hl] at h
    unfold allTargets
    rw [List.mem_flatMap]
    exact ⟨(v, rels), mem_of_lookup hl, h⟩

theorem length_filter_split {α : Type} (q : α → Bool) :
    ∀ l : List α,
      l.length = (l.filter q).length + (l.filter (fun x => !(q x))).length := by
  intro l
  induction l with
  | nil => simp
  | cons x t ih =>
    cases hq : q x
    · simp only [List.filter_cons, hq, Bool.not_false, if_true, if_false,
        Bool.false_eq_true, List.length_cons]
      omega
    · simp only [List.filter_cons, hq, Bool.not_true, if_true, if_false,
        Bool.false_eq_true, List.length_cons]
      omega

theorem head?_append_left {α : Type} {l₁ l₂ : List α} (h : l₁ ≠ []) :
    (l₁ ++ l₂).head? = l₁.head? := by
  cases l₁ with
  | nil => exact absurd rfl h
  | cons x t => simp

theorem mem_of_getLast? {α : Type} : ∀ {l : List α} {a : α}, l.getLast? = some a → a ∈ l := by
  intro l
  induction l with
  | nil => intro a h; simp at h
  | cons x t ih =>
    intro a h
    cases t with
    | nil =>
      simp at h
      simp [h]
    | cons y t' =>
      rw [List.getLast?_cons_cons] at h
      exact List.mem_cons_of_mem _ (ih h)

/-- One iteration of the BFS loop (dequeue `curr`, visit its fresh
neighbors) preserves the invariant, with every newly visited node placed on
level `d curr + 1`. -/
theorem bfs_step {g : Graph} {a curr : String} {rest visited : List String}
    {parent : List (String × Option String)} {d : String → ℕ}
    (hInv : BfsInv g a (curr :: rest) visited parent d) :
    BfsInv g a (rest ++ newOf visited (nbrs g curr))
      (visited ++ newOf visited (nbrs g curr))
      (parent ++ (newOf visited (nbrs g curr)).map (fun n => (n, some curr)))
      (fun v => if v ∈ newOf visited (nbrs g curr) then d curr + 1 else d v) := by
  set N := newOf visited (nbrs g curr) with hN
  set d' : String → ℕ := fun v => if v ∈ N then d curr + 1 else d v with hd'
  have hcurrV : curr ∈ visited := hInv.qSub curr (by simp)
  have hNdisjV : ∀ x ∈ visited, x ∉ N := fun x hx hxN => (newOf_subset hxN).2 hx
  have hdold : ∀ x ∈ visited, d' x = d x := by
    intro x hx
    simp only [hd']
    rw [if_neg (hNdisjV x hx)]
  have hdnew : ∀ x ∈ N, d' x = d curr + 1 := by
    intro x hx
    simp only [hd']
    rw [if_pos hx]
  have hdcurr : d' curr = d curr := hdold curr hcurrV
  have hheadmin : ∀ z ∈ curr :: rest, d curr ≤ d z := by
    intro z hz
    rcases List.mem_cons.mp hz with rfl | hz
    · exact le_refl _
    · have hpw : List.Pairwise (· ≤ ·) (List.map d (curr :: rest)) :=
        List.chain'_iff_pairwise.mp hInv.sortedQ
      rw [List.map_cons] at hpw
      exact (List.pairwise_cons.mp hpw).1 (d z) (List.mem_map_of_mem d hz)
  have hrestV : ∀ v ∈ rest, v ∈ visited := fun v hv =>
    hInv.qSub v (List.mem_cons_of_mem _ hv)
  refine ⟨?_, ?_, ?_, ?_, ?_, ?_, ?_, ?_, ?_, ?_, ?_⟩
  -- nodupV
  · rw [List.nodup_append]
    exact ⟨hInv.nodupV, newOf_nodup _ _, fun x hx => hNdisjV x hx⟩
  -- qSub
  · intro v hv
    rcases List.mem_append.mp hv with hv | hv
    · exact List.mem_append_left _ (hrestV v hv)
    · exact List.mem_append_right _ hv
  -- rootV
  · exact List.mem_append_left _ hInv.rootV
  -- keys
  · rw [List.map_append, hInv.keys, List.map_map]
    have hid : (Prod.fst ∘ fun n => (n, some curr)) = (id : String → String) := rfl
    rw [hid, List.map_id]
  -- da
  · rw [hdold a hInv.rootV, hInv.da]
  -- parentOk
  · intro v hv hva
    rcases List.mem_append.mp hv with hv | hv
    · obtain ⟨u, hlk, huV, hunb, hdv⟩ := hInv.parentOk v hv hva
      refine ⟨u, ?_, List.mem_append_left _ huV, hunb, ?_⟩
      · rw [lookup_append_left (lookup_mem_keys hlk)]
        exact hlk
      · rw [hdold v hv, hdold u huV]
        exact hdv
    · have hvKeys : v ∉ parent.map Prod.fst := by
        rw [hInv.keys]
        exact (newOf_subset hv).2
      refine ⟨curr, ?_, List.mem_append_left _ hcurrV, (newOf_subset hv).1, ?_⟩
      · rw [lookup_append_right hvKeys]
        exact lookup_const_pairs hv
      · rw [hdnew v hv, hdcurr]
  -- rebuildOk
  · intro v hv acc fuel hfuel
    rcases List.mem_append.mp hv with hv | hv
    · rw [hdold v hv] at hfuel
      obtain ⟨l, hr, hp, hl⟩ := hInv.rebuildOk v hv acc fuel hfuel
      exact ⟨l, rebuild_append hr, hp, by rw [hdold v hv]; exact hl⟩
    · rw [hdnew v hv] at hfuel
      obtain ⟨fu, rfl⟩ : ∃ fu, fuel = fu + 1 := by
        cases fuel with
        | zero => omega
        | succ fu => exact ⟨fu, rfl⟩
      have hvKeys : v ∉ parent.map Prod.fst := by
        rw [hInv.keys]; exact (newOf_subset hv).2
      have hlkv : (parent ++ N.map (fun n => (n, some curr))).lookup v = some (some curr) := by
        rw [lookup_append_right hvKeys]
        exact lookup_const_pairs hv
      obtain ⟨lc, hrc, hpc, hlc⟩ :=
        hInv.rebuildOk curr hcurrV (v :: acc) fu (by omega)
      refine ⟨lc ++ [v], ?_, ?_, ?_⟩
      · simp only [rebuild, hlkv]
        rw [rebuild_append hrc]
        simp
      · exact pathFrom_snoc hpc (newOf_subset hv).1
      · rw [hdnew v hv]
        simp [hlc]
  -- minimal
  · intro v hv l hl
    rcases List.mem_append.mp hv with hv | hv
    · rw [hdold v hv]
      exact hInv.minimal v hv l hl
    · rw [hdnew v hv]
      obtain ⟨hh, hlast, hwalk⟩ := hl
      have hvV : v ∉ visited := (newOf_subset hv).2
      obtain ⟨l₁, z, w, l₂, heq, hzV, hwV⟩ :=
        frontier_split (p := fun s => s ∈ visited) l a v hh hInv.rootV hlast hvV
      have heq2 : l = (l₁ ++ [z]) ++ (w :: l₂) := by simp [heq]
      have hchain := hwalk
      unfold IsWalk at hchain
      rw [heq2, List.chain'_append] at hchain
      obtain ⟨hc1, _, hcb⟩ := hchain
      have hedge : w ∈ nbrs g z := by
        apply hcb z _ w (by simp)
        rw [List.getLast?_concat]
        simp
      have hpz : PathFrom g a z (l₁ ++ [z]) := by
        refine ⟨?_, by rw [List.getLast?_concat], hc1⟩
        rw [heq2] at hh
        rwa [head?_append_left (by simp)] at hh
      have hminz := hInv.minimal z hzV _ hpz
      have hzQ : z ∈ curr :: rest := by
        by_contra hzQ
        exact hwV (hInv.closure z hzV hzQ w hedge)
      have hdcz : d curr ≤ d z := hheadmin z hzQ
      have hlen : l.length = l₁.length + 2 + l₂.length := by
        rw [heq]; simp; omega
      have hlen1 : (l₁ ++ [z]).length = l₁.length + 1 := by simp
      omega
  -- closure
  · intro u hu huQ w hw
    rcases List.mem_append.mp hu with hu | hu
    · by_cases hcu : u = curr
      · subst hcu
        by_cases hwV : w ∈ visited
        · exact List.mem_append_left _ hwV
        · exact List.mem_append_right _ (newOf_complete hw hwV)
      · have huQ0 : u ∉ curr :: rest := by
          intro hm
          rcases List.mem_cons.mp hm with rfl | hm
          · exact hcu rfl
          · exact huQ (List.mem_append_left _ hm)
        exact List.mem_append_left _ (hInv.closure u hu huQ0 w hw)
    · exact absurd (List.mem_append_right rest hu) huQ
  -- sortedQ
  · rw [List.map_append]
    have hmr : List.map d' rest = List.map d rest :=
      List.map_congr_left (fun x hx => hdold x (hrestV x hx))
    rw [hmr]
    rw [List.chain'_append]
    refine ⟨?_, ?_, ?_⟩
    · have := hInv.sortedQ
      rw [List.map_cons] at this
      exact this.tail
    · apply chain'_le_of_const
      intro x hx
      obtain ⟨n, hn, rfl⟩ := List.mem_map.mp hx
      exact hdnew n hn
    · intro x hx y hy
      obtain ⟨z, hz, rfl⟩ := List.mem_map.mp (mem_of_getLast? hx)
      obtain ⟨n, hn, rfl⟩ := List.mem_map.mp (List.mem_of_mem_head? hy)
      rw [hdnew n hn]
      exact hInv.spread curr (by simp) z (List.mem_cons_of_mem _ hz)
  -- spread
  · intro u hu v hv
    rcases List.mem_append.mp hu with hu | hu <;>
      rcases List.mem_append.mp hv with hv | hv
    · rw [hdold u (hrestV u hu), hdold v (hrestV v hv)]
      exact hInv.spread u (List.mem_cons_of_mem _ hu) v (List.mem_cons_of_mem _ hv)
    · rw [hdold u (hrestV u hu), hdnew v hv]
      have := hheadmin u (List.mem_cons_of_mem _ hu)
      omega
    · rw [hdnew u hu, hdold v (hrestV v hv)]
      have := hInv.spread curr (by simp) v (List.mem_cons_of_mem _ hv)
      omega
    · rw [hdnew u hu, hdnew v hv]
      omega

/-- One BFS iteration strictly consumes the fuel measure: the newly visited
nodes leave the pool of potential future enqueues. -/
theorem fuel_step (g : Graph) (curr : String) (visited : List String) :
    targsLeft g (visited ++ newOf visited (nbrs g curr))
      + (newOf visited (nbrs g curr)).length ≤ targsLeft g visited := by
  have hsplit := length_filter_split
      (fun x => decide (x ∈ newOf visited (nbrs g curr)))
      ((allTargets g).dedup.filter (fun x => decide (x ∉ visited)))
  have hsub : ∀ x ∈ newOf visited (nbrs g curr),
      x ∈ ((allTargets g).dedup.filter (fun x => decide (x ∉ visited))).filter
            (fun x => decide (x ∈ newOf visited (nbrs g curr))) := by
    intro x hx
    rw [List.mem_filter, List.mem_filter]
    refine ⟨⟨?_, ?_⟩, ?_⟩
    · rw [List.mem_dedup]
      exact nbrs_subset_allTargets (newOf_subset hx).1
    · simp [(newOf_subset hx).2]
    · simp [hx]
  have hge := nodup_length_le (newOf_nodup _ _) hsub
  have heqf : ((allTargets g).dedup.filter (fun x => decide (x ∉ visited))).filter
        (fun x => !(decide (x ∈ newOf visited (nbrs g curr))))
      = (allTargets g).dedup.filter
          (fun x => decide (x ∉ visited ++ newOf visited (nbrs g curr))) := by
    rw [List.filter_filter]
    apply List.filter_congr
    intro x _
    by_cases h1 : x ∈ visited <;> by_cases h2 : x ∈ newOf visited (nbrs g curr) <;>
      simp [h1, h2]
  rw [heqf] at hsplit
  unfold targsLeft
  omega

/-- Full correctness of the BFS loop under the invariant: with sufficient
fuel it either finds a shortest path to `b` (reconstructible from the parent
map) or correctly reports `b` unreachable. -/
theorem bfsLoop_spec (g : Graph) (a b : String) :
    ∀ (fuel : ℕ) (queue visited : List String)
      (parent : List (String × Option String)) (d : String → ℕ),
      BfsInv g a queue visited parent d →
      (b ∉ visited ∨ b ∈ queue) →
      queue.length + targsLeft g visited ≤ fuel →
      (match bfsLoop g b fuel queue visited parent with
       | some (.found par) =>
           ∃ l, rebuild par (par.length + 1) (some b) [] = some l ∧
             PathFrom g a b l ∧ ∀ l', PathFrom g a b l' → l.length ≤ l'.length
       | some .notFound => ¬ ∃ l, PathFrom g a b l
       | none => False) := by
  intro fuel
  induction fuel with
  | zero =>
    intro queue visited parent d hInv hb hfuel
    cases queue with
    | nil =>
      simp only [bfsLoop]
      apply bfs_unreachable hInv
      rcases hb with hb | hb
      · exact hb
      · simp at hb
    | cons c r => simp at hfuel
  | succ f ih =>
    intro queue visited parent d hInv hb hfuel
    cases queue with
    | nil =>
      simp only [bfsLoop]
      apply bfs_unreachable hInv
      rcases hb with hb | hb
      · exact hb
      · simp at hb
    | cons curr rest =>
      have hcurrV : curr ∈ visited := hInv.qSub curr (by simp)
      simp only [bfsLoop]
      by_cases hcb : curr = b
      · rw [if_pos hcb]
        subst hcb
        have hbound := dist_bound hInv curr hcurrV
        have hplen : parent.length = visited.length := by
          have := congrArg List.length hInv.keys
          simpa using this
        obtain ⟨l, hr, hp, hlen⟩ :=
          hInv.rebuildOk curr hcurrV [] (parent.length + 1) (by omega)
        refine ⟨l, by simpa using hr, hp, ?_⟩
        intro l' hl'
        have := hInv.minimal curr hcurrV l' hl'
        omega
      · rw [if_neg hcb]
        rw [pushNbrs_eq curr (nbrs g curr) rest visited parent hInv.keys]
        set N := newOf visited (nbrs g curr) with hN
        have hb' : b ∉ visited ++ N ∨ b ∈ rest ++ N := by
          rcases hb with hb | hb
          · by_cases hbN : b ∈ N
            · exact Or.inr (List.mem_append_right _ hbN)
            · refine Or.inl ?_
              intro hm
              rcases List.mem_append.mp hm with hm | hm
              · exact hb hm
              · exact hbN hm
          · rcases List.mem_cons.mp hb with rfl | hb
            · exact absurd rfl hcb
            · exact Or.inr (List.mem_append_left _ hb)
        have hfs := fuel_step g curr visited
        rw [← hN] at hfs
        have hfuel' : (rest ++ N).length + targsLeft g (visited ++ N) ≤ f := by
          rw [List.length_append]
          simp only [List.length_cons] at hfuel
          omega
        exact ih (rest ++ N) (visited ++ N)
          (parent ++ N.map (fun n => (n, some curr)))
          (fun v => if v ∈ N then d curr + 1 else d v)
          (bfs_step hInv) hb' hfuel'

/-- The BFS invariant holds at loop entry. -/
theorem bfsInv_init (g : Graph) (a : String) :
    BfsInv g a [a] [a] [(a, none)] (fun _ => 0) := by
  refine ⟨?_, ?_, ?_, ?_, ?_, ?_, ?_, ?_, ?_, ?_, ?_⟩
  · simp
  · intro v hv; exact hv
  · simp
  · simp
  · rfl
  · intro v hv hva
    simp at hv
    exact absurd hv hva
  · intro v hv acc fuel hfuel
    simp at hv
    subst hv
    obtain ⟨fu, rfl⟩ : ∃ fu, fuel = fu + 1 := by
      cases fuel with
      | zero => omega
      | succ fu => exact ⟨fu, rfl⟩
    refine ⟨[v], ?_, ⟨rfl, rfl, ?_⟩, rfl⟩
    · simp [rebuild, List.lookup]
    · exact List.chain'_singleton v
  · intro v hv l hl
    simp at hv
    subst hv
    have := pathFrom_length_pos hl
    omega
  · intro u hu huQ w hw
    simp at hu
    subst hu
    simp at huQ
  · simp
  · intro u hu v hv
    omega

/-- C1: for every graph `g` and strings `a`, `b`, the `path(g, a, b)` builtin
returns a node sequence that starts at `a`, ends at `b`, follows the edges of
`g`, and is no longer than any other path from `a` to `b`, whenever `b` is
reachable from `a`; it returns `null` exactly when `b` is unreachable from
`a`. -/
theorem C1_path_builtin_shortest (g : Graph) (a b : String) :
    (∀ l, pathBFS g a b = some l →
       PathFrom g a b l ∧ ∀ l', PathFrom g a b l' → l.length ≤ l'.length) ∧
    (pathBFS g a b = none ↔ ¬ ∃ l, PathFrom g a b l) := by
  have hbinv : b ∉ [a] ∨ b ∈ [a] := by
    by_cases hba : b ∈ [a]
    · exact Or.inr hba
    · exact Or.inl hba
  have hfuel : ([a] : List String).length + targsLeft g [a] ≤ bfsFuel g := by
    unfold bfsFuel targsLeft
    have := List.length_filter_le (fun x => decide (x ∉ [a])) (allTargets g).dedup
    simp only [List.length_singleton]
    omega
  have hmain := bfsLoop_spec g a b (bfsFuel g) [a] [a] [(a, none)] (fun _ => 0)
    (bfsInv_init g a) hbinv hfuel
  unfold pathBFS
  cases hres : bfsLoop g b (bfsFuel g) [a] [a] [(a, none)] with
  | none =>
    rw [hres] at hmain
    exact absurd hmain (by simp)
  | some r =>
    cases r with
    | notFound =>
      rw [hres] at hmain
      have hm2 : ¬ ∃ l, PathFrom g a b l := hmain
      refine ⟨?_, ?_⟩
      · intro l hl
        have hl2 : (none : Option (List String)) = some l := hl
        exact Option.noConfusion hl2
      · exact ⟨fun _ => hm2, fun _ => rfl⟩
    | found par =>
      rw [hres] at hmain
      have hm2 : ∃ l, rebuild par (par.length + 1) (some b) [] = some l ∧
          PathFrom g a b l ∧ ∀ l', PathFrom g a b l' → l.length ≤ l'.length := hmain
      obtain ⟨l₀, hreb, hp₀, hmin₀⟩ := hm2
      refine ⟨?_, ?_⟩
      · intro l hl
        have hl2 : rebuild par (par.length + 1) (some b) [] = some l := hl
        rw [hreb] at hl2
        injection hl2 with hl2
        subst hl2
        exact ⟨hp₀, hmin₀⟩
      · constructor
        · intro h
          have h2 : rebuild par (par.length + 1) (some b) [] = none := h
          rw [hreb] at h2
          exact Option.noConfusion h2
        · intro h
          exact absurd ⟨l₀, hp₀⟩ h

theorem C1_path_builtin_shortest_witness :
    pathBFS wGraph "A" "D" = some ["A", "B", "D"] ∧
    (PathFrom wGraph "A" "D" ["A", "B", "D"] ∧
      ∀ l', PathFrom wGraph "A" "D" l' → 3 ≤ l'.length) ∧
    pathBFS wGraph "D" "A" = none := by
  have h := (C1_path_builtin_shortest wGraph "A" "D").1 ["A", "B", "D"] (by decide)
  exact ⟨by decide, ⟨h.1, fun l' hl' => h.2 l' hl'⟩, by decide⟩

theorem evalTreePath_fst_st (argv : List Value) (line : Option ℕ) (st st2 : EvalSt) :
    (evalTreePath argv line st).1 = (evalTreePath argv line st2).1 := by
  rcases argv with _ | ⟨g, _ | ⟨fromV, _ | ⟨toV, _ | rest⟩⟩⟩
  all_goals simp only [evalTreePath]
  cases fromV <;> cases toV <;> try rfl
  cases g <;> rfl

theorem evalTreeRules_fst_st (env : Env) (hs : ValueStable env) (f : String)
    (argv : List Value) (sel : Option String) (tracing : Bool) (line : Option ℕ)
    (st st2 : EvalSt) :
    (evalTreeRules env f argv sel tracing line st).1 =
      (evalTreeRules env f argv sel tracing line st2).1 := by
  rw [evalTreeRules, evalTreeRules]
  split <;> try rfl
  case _ fn hl =>
    have hmem : (f, fn) ∈ env.rules := mem_of_lookup hl
    exact hs (f, fn) hmem argv (getBuf sel st) (getBuf sel st2) tracing

set_option maxHeartbeats 2000000

mutual

theorem evalTree_fst_st (env : Env) (hs : ValueStable env) (fuel : ℕ) (tree : ExprNode)
    (ctx : Ctx) (sel : Option String) (tracing : Bool) (st st' : EvalSt) :
    (evalTree env fuel tree ctx sel tracing st).1 =
      (evalTree env fuel tree ctx sel tracing st').1 := by
  match tree with
  | .lit v line =>
    simp only [evalTree]
  | .opn op left right line =>
    simp only [evalTree]
    rcases hA : evalTreeOpt env fuel left ctx sel tracing
      (if tracing then pushTrace sel ("Evaluating expression at line " ++ lineStr line) st else st)
      with ⟨l, st1⟩
    rcases hA' : evalTreeOpt env fuel left ctx sel tracing
      (if tracing then pushTrace sel ("Evaluating expression at line " ++ lineStr line) st' else st')
      with ⟨l', st1'⟩
    have hl : l = l' := by
      have h := evalTreeOpt_fst_st env hs fuel left ctx sel tracing
        (if tracing then pushTrace sel ("Evaluating expression at line " ++ lineStr line) st else st)
        (if tracing then pushTrace sel ("Evaluating expression at line " ++ lineStr line) st' else st')
      rw [hA, hA'] at h
      exact h
    subst hl
    rcases hB : evalTreeOpt env fuel right ctx sel tracing st1 with ⟨r, stB⟩
    rcases hB' : evalTreeOpt env fuel right ctx sel tracing st1' with ⟨r', stB'⟩
    have hr : r = r' := by
      have h := evalTreeOpt_fst_st env hs fuel right ctx sel tracing st1 st1'
      rw [hB, hB'] at h
      exact h
    subst hr
    rfl
  | .call f args line =>
    simp only [evalTree]
    rcases hA : evalTreeArgs env fuel args ctx sel tracing
      (if tracing then pushTrace sel ("Evaluating expression at line " ++ lineStr line) st else st)
      with ⟨argv, st1⟩
    rcases hA' : evalTreeArgs env fuel args ctx sel tracing
      (if tracing then pushTrace sel ("Evaluating expression at line " ++ lineStr line) st' else st')
      with ⟨argv', st1'⟩
    have ha : argv = argv' := by
      have h := evalTreeArgs_fst_st env hs fuel args ctx sel tracing
        (if tracing then pushTrace sel ("Evaluating expression at line " ++ lineStr line) st else st)
        (if tracing then pushTrace sel ("Evaluating expression at line " ++ lineStr line) st' else st')
      rw [hA, hA'] at h
      exact h
    subst ha
    exact evalTreeCall_fst_st env hs fuel f argv ctx sel tracing line _ _
termination_by (fuel, sizeOf tree, 1)

theorem evalTreeCall_fst_st (env : Env) (hs : ValueStable env) (fuel : ℕ) (f : String)
    (argv : List Value) (ctx : Ctx) (sel : Option String) (tracing : Bool)
    (line : Option ℕ) (st st' : EvalSt) :
    (evalTreeCall env fuel f argv ctx sel tracing line st).1 =
      (evalTreeCall env fuel f argv ctx sel tracing line st').1 := by
  rw [evalTreeCall, evalTreeCall]
  split_ifs <;> try rfl
  · exact evalTreePath_fst_st argv line st st'
  · -- eval with one argument, tracing enabled
    cases hh : argv.headD .vUndef with
    | vStr s =>
      dsimp only
      cases hl : List.lookup s env.exprTrees with
      | some ruleTree =>
        dsimp only
        cases fuel with
        | zero => rfl
        | succ fu =>
          exact evalTree_fst_st env hs fu ruleTree ctx sel tracing _ _
      | none => rfl
    | vNull => rfl
    | vUndef => rfl
    | vBool b => rfl
    | vNum n => rfl
    | vList l => rfl
    | vSet l => rfl
    | vObj o => rfl
    | vGraph gr => rfl
    | vErrTag m => rfl
  · -- eval with one argument, tracing disabled
    cases hh : argv.headD .vUndef with
    | vStr s =>
      dsimp only
      cases hl : List.lookup s env.exprTrees with
      | some ruleTree =>
        dsimp only
        cases fuel with
        | zero => rfl
        | succ fu =>
          exact evalTree_fst_st env hs fu ruleTree ctx sel tracing _ _
      | none => rfl
    | vNull => rfl
    | vUndef => rfl
    | vBool b => rfl
    | vNum n => rfl
    | vList l => rfl
    | vSet l => rfl
    | vObj o => rfl
    | vGraph gr => rfl
    | vErrTag m => rfl
  · exact evalTreeRules_fst_st env hs f argv sel tracing line st st'
termination_by (fuel, 0, 0)

theorem evalTreeOpt_fst_st (env : Env) (hs : ValueStable env) (fuel : ℕ) (t : Option ExprNode)
    (ctx : Ctx) (sel : Option String) (tracing : Bool) (st st' : EvalSt) :
    (evalTreeOpt env fuel t ctx sel tracing st).1 =
      (evalTreeOpt env fuel t ctx sel tracing st').1 := by
  match t with
  | none => simp only [evalTreeOpt]
  | some e =>
    simp only [evalTreeOpt]
    exact congrArg some (evalTree_fst_st env hs fuel e ctx sel tracing st st')
termination_by (fuel, sizeOf t, 0)

theorem evalTreeArgs_fst_st (env : Env) (hs : ValueStable env) (fuel : ℕ) (args : List ExprNode)
    (ctx : Ctx) (sel : Option String) (tracing : Bool) (st st' : EvalSt) :
    (evalTreeArgs env fuel args ctx sel tracing st).1 =
      (evalTreeArgs env fuel args ctx sel tracing st').1 := by
  match args with
  | [] => simp only [evalTreeArgs]
  | a :: rest =>
    simp only [evalTreeArgs]
    rcases h1 : evalTree env fuel a ctx sel tracing st with ⟨v, stA⟩
    rcases h1' : evalTree env fuel a ctx sel tracing st' with ⟨v', stA'⟩
    have hv : v = v' := by
      have h := evalTree_fst_st env hs fuel a ctx sel tracing st st'
      rw [h1, h1'] at h
      exact h
    subst hv
    rcases h2 : evalTreeArgs env fuel rest ctx sel tracing stA with ⟨vs, stB⟩
    rcases h2' : evalTreeArgs env fuel rest ctx sel tracing stA' with ⟨vs', stB'⟩
    have hvs : vs = vs' := by
      have h := evalTreeArgs_fst_st env hs fuel rest ctx sel tracing stA stA'
      rw [h2, h2'] at h
      exact h
    subst hvs
    rfl
termination_by (fuel, sizeOf args, 0)

end

set_option maxHeartbeats 200000

mutual

/-- Structurally, `deepClone` is the identity on values. -/
theorem deepCloneV_eq (v : Value) : deepCloneV v = v := by
  match v with
  | .vNull => rfl
  | .vUndef => rfl
  | .vBool b => rfl
  | .vNum n => rfl
  | .vStr s => rfl
  | .vSet l => rfl
  | .vList l => rw [deepCloneV, deepCloneVList_eq l]
  | .vObj fields => rw [deepCloneV, deepCloneVFields_eq fields]
  | .vGraph g => rfl
  | .vErrTag m => rw [deepCloneV, deepCloneV_eq m]

/-- Elementwise clone of an array is the identity. -/
theorem deepCloneVList_eq (l : List Value) : deepCloneVList l = l := by
  match l with
  | [] => rfl
  | v :: rest => rw [deepCloneVList, deepCloneV_eq v, deepCloneVList_eq rest]

/-- Fieldwise clone of a plain object is the identity. -/
theorem deepCloneVFields_eq (fields : List (String × Value)) :
    deepCloneVFields fields = fields := by
  match fields with
  | [] => rfl
  | (k, v) :: rest => rw [deepCloneVFields, deepCloneV_eq v, deepCloneVFields_eq rest]

end

/-- Cloning a context is the identity. -/
theorem deepCloneCtx_eq (ctx : Ctx) : deepCloneCtx ctx = ctx := by
  unfold deepCloneCtx
  have h : (fun kv : String × Value => (kv.1, deepCloneV kv.2)) = id := by
    funext kv
    cases kv with
    | mk k v => simp [deepCloneV_eq]
  rw [h, List.map_id]

/-- The match counter of `exists`/`forall` counts exactly the elements on
which the condition holds. -/
theorem countMatches_countP (env : Env) (hs : ValueStable env) (fuel : ℕ)
    (tree : ExprNode) (context : Ctx) (sel : Option String) (tracing : Bool)
    (l : List Value) (st : EvalSt) :
    (countMatches env fuel tree context sel tracing l st).1 =
      l.countP (condHolds env fuel tree context sel tracing) := by
  induction l generalizing st with
  | nil => rfl
  | cons item rest ih =>
    simp only [countMatches]
    rcases h1 : evalTree env fuel tree (ctxSet context "item" item) sel tracing st
      with ⟨v, st1⟩
    rcases h2 : countMatches env fuel tree context sel tracing rest st1 with ⟨m, st2⟩
    have hv : truthy v = condHolds env fuel tree context sel tracing item := by
      unfold condHolds
      rw [← evalTree_fst_st env hs fuel tree (ctxSet context "item" item) sel tracing st initSt,
        h1]
    have hm : m = rest.countP (condHolds env fuel tree context sel tracing) := by
      have h := ih st1
      rw [h2] at h
      exact h
    rw [List.countP_cons, ← hv, ← hm]
    cases truthy v <;> simp

/-- C6: for every `exists`/`forall` node over a set- or array-valued
collection with a parsable, non-empty condition, and an environment whose
compiled rules are trace-independent, the section records
`matches > 0` (`exists`) or `matches = total` (`forall`), where `matches`
counts the elements on which the condition evaluates truthy with `item`
bound — as `{result, count}` when the `count="true"` flag is set, as a bare
boolean otherwise; over the empty collection the recorded boolean is
`false` for `exists` and `true` for `forall` (vacuous case). -/
theorem C6_exists_forall_sections (env : Env) (hs : ValueStable env) (fuel : ℕ)
    (ty name : String) (attrs : List (String × String)) (line : ℕ)
    (context : Ctx) (sel : Option String) (tracing : Bool) (st : EvalSt)
    (l : List Value) (tree : ExprNode)
    (hty : ty = "exists" ∨ ty = "forall")
    (hcoll : ctxGet context ((attrs.lookup "in").getD "undefined") = some (.vList l) ∨
             ctxGet context ((attrs.lookup "in").getD "undefined") = some (.vSet l))
    (hcond : ¬ jsOrStr (attrs.lookup "condition") "" = "")
    (hparse : parseExpression (jsOrStr (attrs.lookup "condition") "") (some line) "" [] =
      .ok (some tree)) :
    quantSection env fuel ty name attrs line context sel tracing st =
      .cont none { (countMatches env fuel tree context sel tracing l st).2 with
        results := setKV (countMatches env fuel tree context sel tracing l st).2.results name
          (if attrs.lookup "count" = some "true" then
            .vObj [("result", .vBool (if ty = "exists" then
                decide (l.countP (condHolds env fuel tree context sel tracing) > 0)
              else decide (l.countP (condHolds env fuel tree context sel tracing) = l.length))),
              ("count", .vNum (.rat (l.countP (condHolds env fuel tree context sel tracing))))]
           else
            .vBool (if ty = "exists" then
                decide (l.countP (condHolds env fuel tree context sel tracing) > 0)
              else decide (l.countP (condHolds env fuel tree context sel tracing) = l.length))) } ∧
    (l = [] → (if ty = "exists" then
        decide (l.countP (condHolds env fuel tree context sel tracing) > 0)
      else decide (l.countP (condHolds env fuel tree context sel tracing) = l.length))
        = decide (ty = "forall")) := by
  constructor
  · unfold quantSection
    rw [if_pos hty]
    dsimp only
    rw [if_neg hcond, hparse]
    dsimp only
    rcases hcoll with h | h <;>
      · rw [h]
        dsimp only
        rcases hm : countMatches env fuel tree context sel tracing l st with ⟨m, st2⟩
        have hmv : m = l.countP (condHolds env fuel tree context sel tracing) := by
          have hh := countMatches_countP env hs fuel tree context sel tracing l st
          rw [hm] at hh
          exact hh
        subst hmv
        rfl
  · intro hl
    subst hl
    rcases hty with h | h
    · subst h
      simp
    · subst h
      simp

/-- Witness for C6 at a concrete `exists` node with the `count` flag. -/
theorem C6_exists_forall_sections_witness :
    quantSection wEnvC6 3 "exists" "q" wAttrsC6 1 wCtxC6 none false initSt =
      .cont none { (countMatches wEnvC6 3 wTreeC6 wCtxC6 none false wListC6 initSt).2 with
        results := setKV
          (countMatches wEnvC6 3 wTreeC6 wCtxC6 none false wListC6 initSt).2.results "q"
          (if wAttrsC6.lookup "count" = some "true" then
            .vObj [("result", .vBool (if "exists" = "exists" then
                decide (wListC6.countP (condHolds wEnvC6 3 wTreeC6 wCtxC6 none false) > 0)
              else decide (wListC6.countP (condHolds wEnvC6 3 wTreeC6 wCtxC6 none false) =
                wListC6.length))),
              ("count", .vNum (.rat
                (wListC6.countP (condHolds wEnvC6 3 wTreeC6 wCtxC6 none false))))]
           else
            .vBool (if "exists" = "exists" then
                decide (wListC6.countP (condHolds wEnvC6 3 wTreeC6 wCtxC6 none false) > 0)
              else decide (wListC6.countP (condHolds wEnvC6 3 wTreeC6 wCtxC6 none false) =
                wListC6.length))) } ∧
    (wListC6 = [] → (if "exists" = "exists" then
        decide (wListC6.countP (condHolds wEnvC6 3 wTreeC6 wCtxC6 none false) > 0)
      else decide (wListC6.countP (condHolds wEnvC6 3 wTreeC6 wCtxC6 none false) =
        wListC6.length)) = decide (("exists" : String) = "forall")) :=
  C6_exists_forall_sections wEnvC6 (by intro p hp; cases hp) 3 "exists" "q" wAttrsC6 1
    wCtxC6 none false initSt wListC6 wTreeC6 (Or.inl rfl) (Or.inl rfl) (by decide) rfl

/-- `targetTrace.push` never touches the `results` record. -/
theorem pushTrace_results (sel : Option String) (s : String) (st : EvalSt) :
    (pushTrace sel s st).results = st.results := by
  cases sel <;> rfl

/-- Conditional trace pushes never touch the `results` record. -/
theorem ite_pushTrace_results (c : Prop) [Decidable c] (sel : Option String)
    (s : String) (st : EvalSt) :
    (if c then pushTrace sel s st else st).results = st.results := by
  split
  · exact pushTrace_results sel s st
  · rfl

/-- A plain (no chain, no aggregate/quantifier tag) query node whose text is
a bare identifier bound in the active context records exactly that binding
(set-sorted by `recordedValue`) under the query name, and changes nothing
else in the `results` record. -/
theorem processQuery_identifier_query (env : Env) (symbols : SymbolTable) (fuel : ℕ)
    (attrs : List (String × String)) (t key : String) (line : ℕ) (tline : Option ℕ)
    (context : Ctx) (sel : Option String) (tracing : Bool) (st : EvalSt) (v : Value)
    (hchain : jsOrStr (attrs.lookup "chain") "" = "")
    (ht : ¬ t = "")
    (hparse : parseExpression t (some line) "" [] = .ok (some (.lit (.vStr key) tline)))
    (hbind : ctxGet context key = some v)
    (hv : Value.beq v .vUndef = false) :
    (processQuery env symbols fuel (.mk "query" attrs [] (some t) line)
        context sel tracing st).results =
      setKV st.results (jsOrStr (attrs.lookup "name") "anonymous") (recordedValue v) := by
  rw [processQuery]
  have hq1 : ¬ (("query" : String) = "counterfactual" ∨ ("query" : String) = "branch") := by
    decide
  have hq2 : ("query" : String) ≠ "aggregate" := by decide
  have hq3 : ¬ (("query" : String) = "exists" ∨ ("query" : String) = "forall") := by decide
  rw [if_neg hq1]
  have hpk : jsToString (Value.vStr key) = key := rfl
  simp only [hchain, Option.getD, ne_eq, ht, not_false_eq_true, hparse, evalTree, evalIdent,
    propKey, hpk, hbind, hv, not_true, if_false, if_true, Bool.false_eq_true,
    aggregateSection, quantSection,
    if_neg hq2, if_neg hq3, processQueryList, ite_pushTrace_results]

/-- A branch override step only appends errors: the `results` record of its
state component is preserved. -/
theorem branchStep_results (symbols : SymbolTable) (line : ℕ) (acc : Ctx × EvalSt)
    (ass : String) : (branchStep symbols line acc ass).2.results = acc.2.results := by
  simp only [branchStep]

/-- Folding all overrides of a branch preserves the `results` record. -/
theorem foldBranch_results (symbols : SymbolTable) (line : ℕ) (xs : List String)
    (c : Ctx) (st : EvalSt) :
    ((xs.foldl (branchStep symbols line) (c, st))).2.results = st.results := by
  induction xs generalizing c st with
  | nil => rfl
  | cons x rest ih =>
    rw [List.foldl_cons]
    rcases hb : branchStep symbols line (c, st) x with ⟨c1, st1⟩
    have h1 : st1.results = st.results := by
      have h := branchStep_results symbols line (c, st) x
      rw [hb] at h
      exact h
    rw [← h1]
    exact ih c1 st1

/-- C2: a counterfactual/branch node evaluates its child queries only
against the deep-cloned, override-layered copy of the ambient context and
never mutates the base context or the symbol table: for a branch whose
override rebinds `qkey` to `w` followed by a sibling query reading the same
`qkey`, the inner query records the override `w` while the outer sibling —
evaluated against the untouched base `context` — records the base value
`v`.  (The base context and symbol table are passed on unchanged by
construction: `processBranch` threads `context` itself, never `ctx2`, to
whatever follows.) -/
theorem C2_branch_never_mutates_base (env : Env) (symbols : SymbolTable) (fuel : ℕ)
    (bty : String) (battrs : List (String × String)) (btext : Option String) (bline : ℕ)
    (qattrs1 : List (String × String)) (qt1 : String) (qline1 : ℕ) (tl1 : Option ℕ)
    (qattrs2 : List (String × String)) (qt2 : String) (qline2 : ℕ) (tl2 : Option ℕ)
    (ifStr qkey : String) (ctx2 : Ctx) (st2 : EvalSt) (context : Ctx)
    (sel : Option String) (tracing : Bool) (st : EvalSt) (v w : Value)
    (hbty : bty = "counterfactual" ∨ bty = "branch")
    (hif : jsOrStr (battrs.lookup "if") "" = ifStr)
    (hifne : ifStr ≠ "")
    (hfold : (strSplitOn ifStr ",").foldl (branchStep symbols bline)
      (deepCloneCtx context, st) = (ctx2, st2))
    (hchain1 : jsOrStr (qattrs1.lookup "chain") "" = "")
    (hqt1 : ¬ qt1 = "")
    (hparse1 : parseExpression qt1 (some qline1) "" [] = .ok (some (.lit (.vStr qkey) tl1)))
    (hover : ctxGet ctx2 qkey = some w)
    (hw : Value.beq w .vUndef = false)
    (hchain2 : jsOrStr (qattrs2.lookup "chain") "" = "")
    (hqt2 : ¬ qt2 = "")
    (hparse2 : parseExpression qt2 (some qline2) "" [] = .ok (some (.lit (.vStr qkey) tl2)))
    (hbase : ctxGet context qkey = some v)
    (hv : Value.beq v .vUndef = false) :
    (processQueryList env symbols fuel
        [.mk bty battrs [.mk "query" qattrs1 [] (some qt1) qline1] btext bline,
         .mk "query" qattrs2 [] (some qt2) qline2] context sel tracing st).results
      = setKV (setKV st.results (jsOrStr (qattrs1.lookup "name") "anonymous")
            (recordedValue w))
          (jsOrStr (qattrs2.lookup "name") "anonymous") (recordedValue v) := by
  have hbranch : (processQuery env symbols fuel
      (.mk bty battrs [.mk "query" qattrs1 [] (some qt1) qline1] btext bline)
      context sel tracing st).results =
      setKV st.results (jsOrStr (qattrs1.lookup "name") "anonymous") (recordedValue w) := by
    rw [processQuery, if_pos hbty, processBranch]
    dsimp only
    rw [hif, if_pos hifne, hfold]
    dsimp only
    rw [processQueryList, processQueryList]
    rw [processQuery_identifier_query env symbols fuel qattrs1 qt1 qkey qline1 tl1 ctx2
      none false st2 w hchain1 hqt1 hparse1 hover hw]
    have hres : st2.results = st.results := by
      have h := foldBranch_results symbols bline (strSplitOn ifStr ",")
        (deepCloneCtx context) st
      rw [hfold] at h
      exact h
    rw [hres]
  rw [processQueryList, processQueryList, processQueryList]
  rw [processQuery_identifier_query env symbols fuel qattrs2 qt2 qkey qline2 tl2 context
    sel tracing _ v hchain2 hqt2 hparse2 hbase hv]
  rw [hbranch]

/-- Witness for C2: branch override `x=17`, inner query `q1` and outer
sibling `q2` both reading `x` — `q1` records `17`, `q2` records the base
`42`. -/
theorem C2_branch_never_mutates_base_witness :
    (processQueryList ⟨[], []⟩ wSymsC2 3
        [.mk "branch" [("if", "x=17")] [.mk "query" [("name", "q1")] [] (some "x") 6]
          none 5,
         .mk "query" [("name", "q2")] [] (some "x") 7] wCtxC2 none false initSt).results
      = setKV (setKV initSt.results
            (jsOrStr (List.lookup "name" [("name", "q1")]) "anonymous")
            (recordedValue (.vNum (.rat 17))))
          (jsOrStr (List.lookup "name" [("name", "q2")]) "anonymous")
          (recordedValue (.vNum (.rat 42))) :=
  C2_branch_never_mutates_base ⟨[], []⟩ wSymsC2 3 "branch" [("if", "x=17")] none 5
    [("name", "q1")] "x" 6 (some 6) [("name", "q2")] "x" 7 (some 7) "x=17" "x"
    [("x", .vNum (.rat 17))] initSt wCtxC2 none false initSt
    (.vNum (.rat 42)) (.vNum (.rat 17))
    (Or.inr rfl) rfl (by decide) rfl rfl (by decide) rfl rfl rfl rfl (by decide) rfl rfl rfl

/-- C3 (counterexample): the ad hoc query evaluator `evalTree` does *not*
short-circuit `&&` — with a falsy left operand the right operand is still
evaluated, and its runtime error (`Unknown function`) is emitted. -/
theorem C3_no_short_circuit_in_evalTree_counterexample :
    truthy (.vBool false) = false ∧
    (evalTree ⟨[], []⟩ 0 (.opn .and (some (.lit (.vBool false) none))
        (some (.call "nosuch" [] none)) none) [] none false initSt).2.errors =
      [mkErrFix "runtime" "Unknown function \x27nosuch\x27"
        "Use supported functions like path or error" (some 0)] := by
  constructor
  · rfl
  · simp [evalTree, evalTreeOpt, evalTreeArgs, evalTreeCall, evalTreeRules, evalIdent,
      propKey, ctxGet, pushErr, lineOr0, initSt]

/-- C3 (amended): the compiled-rule evaluator `evalExpr` short-circuits
`&&`/`||`/`=>` — with a falsy (`&&`, `=>`) or truthy (`||`) left operand the
result is exactly the left run (no right-operand effects), and a falsy
antecedent makes `=>` evaluate to `true` — while `evalTree` evaluates both
operands eagerly and only its resulting *value* follows the JS `&&`/`=>`
semantics (`evalTreeBinop` equations). -/
theorem C3_short_circuit_amended (left right : ExprNode) (context : Ctx) (line : ℕ)
    (tracing : Bool) (st : ExprSt) (lf : Option ℕ) :
    (truthy (evalExpr left context line tracing (if tracing then
        st.pushT ("Applying operator " ++ opStr .and ++ " at line " ++ toString line)
        else st)).1 = false →
      evalExpr (.opn .and (some left) (some right) lf) context line tracing st =
        evalExpr left context line tracing (if tracing then
          st.pushT ("Applying operator " ++ opStr .and ++ " at line " ++ toString line)
          else st)) ∧
    (truthy (evalExpr left context line tracing (if tracing then
        st.pushT ("Applying operator " ++ opStr .or ++ " at line " ++ toString line)
        else st)).1 = true →
      evalExpr (.opn .or (some left) (some right) lf) context line tracing st =
        evalExpr left context line tracing (if tracing then
          st.pushT ("Applying operator " ++ opStr .or ++ " at line " ++ toString line)
          else st)) ∧
    (truthy (evalExpr left context line tracing (if tracing then
        st.pushT ("Applying operator " ++ opStr .imp ++ " at line " ++ toString line)
        else st)).1 = false →
      evalExpr (.opn .imp (some left) (some right) lf) context line tracing st =
        (.vBool true, (evalExpr left context line tracing (if tracing then
          st.pushT ("Applying operator " ++ opStr .imp ++ " at line " ++ toString line)
          else st)).2)) ∧
    (∀ l r : Option Value, evalTreeBinop .and l r =
      if truthy (toVal l) then toVal r else toVal l) ∧
    (∀ l r : Option Value, evalTreeBinop .imp l r =
      if truthy (toVal l) then toVal r else .vBool true) := by
  refine ⟨?_, ?_, ?_, fun l r => rfl, fun l r => rfl⟩
  · intro h
    simp only [evalExpr, evalExprOpt]
    rcases he : evalExpr left context line tracing (if tracing then
      st.pushT ("Applying operator " ++ opStr .and ++ " at line " ++ toString line)
      else st) with ⟨lv, st1⟩
    rw [he] at h
    simp only [toVal] at h ⊢
    rw [h]
    rfl
  · intro h
    simp only [evalExpr, evalExprOpt]
    rcases he : evalExpr left context line tracing (if tracing then
      st.pushT ("Applying operator " ++ opStr .or ++ " at line " ++ toString line)
      else st) with ⟨lv, st1⟩
    rw [he] at h
    simp only [toVal] at h ⊢
    rw [h]
    rfl
  · intro h
    simp only [evalExpr, evalExprOpt]
    rcases he : evalExpr left context line tracing (if tracing then
      st.pushT ("Applying operator " ++ opStr .imp ++ " at line " ++ toString line)
      else st) with ⟨lv, st1⟩
    rw [he] at h
    simp only [toVal] at h ⊢
    rw [h]
    rfl

/-- Witness for the amended C3 at a concrete falsy `&&`. -/
theorem C3_short_circuit_amended_witness :
    evalExpr (.opn .and (some (.lit (.vBool false) none))
        (some (.lit (.vStr "y") none)) none) [] 1 false ⟨[], []⟩ =
      evalExpr (.lit (.vBool false) none) [] 1 false ⟨[], []⟩ :=
  (C3_short_circuit_amended (.lit (.vBool false) none) (.lit (.vStr "y") none)
    [] 1 false ⟨[], []⟩ none).1 rfl

/-- C7 (counterexample): the compiled-rule evaluator `evalExpr` falls back
to the identifier name on a *falsy* binding: with `x` bound to `0`, the
identifier `x` evaluates to the string `"x"`, not `0`. -/
theorem C7_falsy_binding_counterexample :
    ctxGet [("x", Value.vNum (.rat 0))] "x" = some (.vNum (.rat 0)) ∧
    (evalExpr (.lit (.vStr "x") (some 1)) [("x", .vNum (.rat 0))] 1 false
      ⟨[], []⟩).1 = .vStr "x" ∧
    Value.vStr "x" ≠ Value.vNum (.rat 0) :=
  ⟨rfl, rfl, fun h => Value.noConfusion h⟩

/-- C7 (amended): `evalTree` resolves an identifier to every *defined*
binding — falsy ones included — and falls back to the name only when the
binding is absent (or `undefined`); `evalExpr`, by contrast, returns a
bound value only when it is *truthy* and falls back to the name on every
falsy binding.  Neither push errors while resolving an identifier. -/
theorem C7_identifier_resolution_amended (env : Env) (fuel : ℕ) (context : Ctx)
    (key : String) (lf : Option ℕ) (line : ℕ) (sel : Option String) (tracing : Bool)
    (st : EvalSt) (stE : ExprSt) :
    (∀ v, ctxGet context key = some v → Value.beq v .vUndef = false →
      (evalTree env fuel (.lit (.vStr key) lf) context sel tracing st).1 = v) ∧
    (ctxGet context key = none →
      (evalTree env fuel (.lit (.vStr key) lf) context sel tracing st).1 = .vStr key) ∧
    (∀ v, ctxGet context key = some v → truthy v = true →
      (evalExpr (.lit (.vStr key) lf) context line tracing stE).1 = v) ∧
    (∀ v, ctxGet context key = some v → truthy v = false →
      (evalExpr (.lit (.vStr key) lf) context line tracing stE).1 = .vStr key) ∧
    (ctxGet context key = none →
      (evalExpr (.lit (.vStr key) lf) context line tracing stE).1 = .vStr key) ∧
    (evalTree env fuel (.lit (.vStr key) lf) context sel tracing st).2.errors = st.errors ∧
    (evalExpr (.lit (.vStr key) lf) context line tracing stE).2.errors = stE.errors := by
  have hpk : propKey (Value.vStr key) = key := rfl
  refine ⟨?_, ?_, ?_, ?_, ?_, ?_, ?_⟩
  · intro v hb hv
    simp only [evalTree, evalIdent, hpk, hb, hv, Bool.false_eq_true, if_false]
  · intro hb
    simp only [evalTree, evalIdent, hpk, hb]
  · intro v hb hv
    simp only [evalExpr, hpk, hb, hv, if_true]
  · intro v hb hv
    simp only [evalExpr, hpk, hb, hv, Bool.false_eq_true, if_false]
  · intro hb
    simp only [evalExpr, hpk, hb]
  · simp only [evalTree]
    split
    · cases sel <;> rfl
    · rfl
  · simp only [evalExpr]
    split <;> rfl

/-- Witness for the amended C7: `x ↦ 0` — `evalTree` returns `0`,
`evalExpr` returns `"x"`. -/
theorem C7_identifier_resolution_amended_witness :
    (evalTree ⟨[], []⟩ 0 (.lit (.vStr "x") none) [("x", .vNum (.rat 0))]
        none false initSt).1 = .vNum (.rat 0) ∧
    (evalExpr (.lit (.vStr "x") none) [("x", .vNum (.rat 0))] 1 false
        ⟨[], []⟩).1 = .vStr "x" :=
  ⟨(C7_identifier_resolution_amended ⟨[], []⟩ 0 [("x", .vNum (.rat 0))] "x" none 1
      none false initSt ⟨[], []⟩).1 (.vNum (.rat 0)) rfl rfl,
   (C7_identifier_resolution_amended ⟨[], []⟩ 0 [("x", .vNum (.rat 0))] "x" none 1
      none false initSt ⟨[], []⟩).2.2.2.1 (.vNum (.rat 0)) rfl rfl⟩

/-- C4 (counterexample): `2 ^ 3 ^ 2` parses to the *left*-associated tree
`(2 ^ 3) ^ 2`, not the right-associated `2 ^ (3 ^ 2)` the spec promises —
`parsePower` is a `while`-loop accumulating `left = {op, left, right}` just
like every other binary level. -/
theorem C4_power_left_assoc_counterexample :
    parseExpression "2 ^ 3 ^ 2" (some 1) "" [] =
      .ok (some (.opn .pow
        (some (.opn .pow (some (.lit (.vNum (.rat 2)) (some 1)))
          (some (.lit (.vNum (.rat 3)) (some 1))) (some 1)))
        (some (.lit (.vNum (.rat 2)) (some 1))) (some 1))) ∧
    (ExprNode.opn .pow
        (some (.opn .pow (some (.lit (.vNum (.rat 2)) (some 1)))
          (some (.lit (.vNum (.rat 3)) (some 1))) (some 1)))
        (some (.lit (.vNum (.rat 2)) (some 1))) (some 1)) ≠
      (ExprNode.opn .pow (some (.lit (.vNum (.rat 2)) (some 1)))
        (some (.opn .pow (some (.lit (.vNum (.rat 3)) (some 1)))
          (some (.lit (.vNum (.rat 2)) (some 1))) (some 1))) (some 1)) := by
  refine ⟨rfl, fun h => ?_⟩
  injection h with h1 h2 h3 h4
  injection h2 with h5
  exact ExprNode.noConfusion h5

/-- C4 (amended): *every* binary operator of the expression parser —
`^` included — is left-associative: parsing the token stream
`[1, op, 2, op, 3]` yields `(1 op 2) op 3`. -/
theorem C4_all_binary_ops_left_assoc (op : String)
    (hop : op ∈ ["^", "*", "/", "%", "+", "-", "union", "intersect", "diff",
      "==", "!=", ">", ">=", "<", "<=", "in", "&&", "||", "=>", "<=>"]) :
    parseExpressionPart (some 1) "" [] 300 ["1", op, "2", op, "3"] =
      (some (.opn (tokenOp op)
        (some (.opn (tokenOp op) (some (.lit (.vNum (.rat 1)) (some 1)))
          (some (.lit (.vNum (.rat 2)) (some 1))) (some 1)))
        (some (.lit (.vNum (.rat 3)) (some 1))) (some 1)), []) := by
  fin_cases hop <;> rfl

/-- Witness for the amended C4 at `op = ^`. -/
theorem C4_all_binary_ops_left_assoc_witness :
    ("^" ∈ ["^", "*", "/", "%", "+", "-", "union", "intersect", "diff",
      "==", "!=", ">", ">=", "<", "<=", "in", "&&", "||", "=>", "<=>"]) ∧
    parseExpressionPart (some 1) "" [] 300 ["1", "^", "2", "^", "3"] =
      (some (.opn (tokenOp "^")
        (some (.opn (tokenOp "^") (some (.lit (.vNum (.rat 1)) (some 1)))
          (some (.lit (.vNum (.rat 2)) (some 1))) (some 1)))
        (some (.lit (.vNum (.rat 3)) (some 1))) (some 1)), []) :=
  ⟨by decide, C4_all_binary_ops_left_assoc "^" (by decide)⟩

/-- Inside the v1 evaluator, a failing query does *not* stop its sibling:
an unparsable first query pushes its runtime error and the identifier
sibling still records its binding. -/
theorem V1_failing_query_keeps_sibling (ET : List (String × ExprNode))
    (R : List (String × RuleFnV1)) (syms : SymbolTable) (fuel : ℕ)
    (attrs1 : List (String × String)) (t1 : String) (line1 : ℕ)
    (attrs2 : List (String × String)) (key t2 : String) (line2 : ℕ)
    (tl2 : Option ℕ) (ctx : Ctx) (st : EvalStV1) (v : Value)
    (hbad : parseExpressionV1 t1 = none) (ht1 : ¬ t1 = "")
    (hgood : parseExpressionV1 t2 = some (.lit (.vStr key) tl2)) (ht2 : ¬ t2 = "")
    (hbind : ctxGet ctx key = some v) (hv : Value.beq v .vUndef = false) :
    processQueryListV1 ET R syms fuel
      [.mk "query" attrs1 [] (some t1) line1, .mk "query" attrs2 [] (some t2) line2]
      ctx st =
    (st.pushErr ⟨"runtime", "Invalid expression in query \x27" ++
        jsOrStr (attrs1.lookup "name") "anonymous" ++ "\x27",
        some "Check syntax of expression", some line1⟩).setRes
      (jsOrStr (attrs2.lookup "name") "anonymous") v := by
  have hq1 : ¬ (("query" : String) = "counterfactual" ∨ ("query" : String) = "branch") := by
    decide
  have hq2 : ("query" : String) ≠ "aggregate" := by decide
  have hq3 : ¬ (("query" : String) = "exists" ∨ ("query" : String) = "forall") := by decide
  have hpk : propKey (Value.vStr key) = key := rfl
  simp only [processQueryListV1, processQueryV1, if_neg hq1, if_neg hq2, if_neg hq3,
    Option.getD, ne_eq, ht1, ht2, not_false_eq_true, if_true, hbad, hgood,
    evalTreeV1St, evalTreeV1]
  cases fuel <;>
    simp only [evalTreeV1, evalTreeV1F, evalIdent, hpk, hbind, hv, Bool.false_eq_true,
      if_false]

/-- C8 (counterexample): `docDup` lexes and parses cleanly to a *non-null*
tree, resolution reports one semantic error (`Duplicate symbol`), and the
pipeline then returns an **empty** result set carrying only that error —
even though running the evaluator on the very same tree and symbol table
computes `q ↦ 1`.  An individual semantic error thus suppresses the results
of an evaluable sibling query, contradicting the claim that only a
null/absent tree is fatal. -/
theorem C8_semantic_error_suppresses_results_counterexample :
    lexV1 docDup = .ok toksDup ∧
    parseV1 toksDup = (some astDup, []) ∧
    resolveV1 (some astDup) = (symsDup, [dupErr]) ∧
    parseNSMLV1 9 docDup = .ok ⟨[], [dupErr], []⟩ ∧
    (evaluateV1 9 (some astDup) symsDup []).results = [("q", .vNum (.rat 1))] := by
  have h1 : lexV1 docDup = .ok toksDup := by
    set_option maxRecDepth 4000 in rfl
  have h2 : parseV1 toksDup = (some astDup, []) := by
    set_option maxRecDepth 4000 in rfl
  have h3 : resolveV1 (some astDup) = (symsDup, [dupErr]) := by
    set_option maxRecDepth 4000 in rfl
  refine ⟨h1, h2, h3, ?_, by set_option maxRecDepth 4000 in rfl⟩
  rw [parseNSMLV1, h1]
  dsimp only
  rw [h2]
  dsimp only
  rw [if_neg (by simp), h3]
  dsimp only
  rw [if_pos (by decide : ([dupErr] : List EvalError).length > 0)]

/-- C8 (amended): the pipeline short-circuits — any parse error (or null
tree), any resolve error, and any compile error each return an *empty*
result set carrying only that stage\x27s errors, and only an error-free
front end reaches `evaluate`; a null tree given to `evaluate` yields the
single `Invalid AST` error; and only *inside* `evaluate` are errors
accumulated best-effort (a failing query does not stop its identifier
sibling). -/
theorem C8_pipeline_short_circuits_amended (fuel : ℕ) (input : String)
    (tokens : List Token) (ast : AstNode) (syms : SymbolTable)
    (rerrs : List EvalError) (rules : List (String × RuleFnV1))
    (ets : List (String × ExprNode)) (cerrs : List EvalError)
    (hlex : lexV1 input = .ok tokens) :
    ((parseV1 tokens).2 ≠ [] ∨ (parseV1 tokens).1 = none →
      parseNSMLV1 fuel input = .ok ⟨[], (parseV1 tokens).2, []⟩) ∧
    (parseV1 tokens = (some ast, []) → resolveV1 (some ast) = (syms, rerrs) →
      rerrs ≠ [] → parseNSMLV1 fuel input = .ok ⟨[], rerrs, []⟩) ∧
    (parseV1 tokens = (some ast, []) → resolveV1 (some ast) = (syms, []) →
      compileRulesV1 (some ast) syms = (rules, ets, cerrs) → cerrs ≠ [] →
      parseNSMLV1 fuel input = .ok ⟨[], cerrs, []⟩) ∧
    (parseV1 tokens = (some ast, []) → resolveV1 (some ast) = (syms, []) →
      compileRulesV1 (some ast) syms = (rules, ets, []) →
      parseNSMLV1 fuel input = .ok (evaluateV1 fuel (some ast) syms rules)) ∧
    (∀ rs, evaluateV1 fuel none syms rs =
      ⟨[], [⟨"runtime", "Invalid AST", some "Verify input and parsing", none⟩], []⟩) ∧
    (∀ (ET : List (String × ExprNode)) (R : List (String × RuleFnV1))
      (attrs1 : List (String × String)) (t1 : String) (line1 : ℕ)
      (attrs2 : List (String × String)) (key t2 : String) (line2 : ℕ)
      (tl2 : Option ℕ) (ctx : Ctx) (st : EvalStV1) (v : Value),
      parseExpressionV1 t1 = none → ¬ t1 = "" →
      parseExpressionV1 t2 = some (.lit (.vStr key) tl2) → ¬ t2 = "" →
      ctxGet ctx key = some v → Value.beq v .vUndef = false →
      processQueryListV1 ET R syms fuel
        [.mk "query" attrs1 [] (some t1) line1, .mk "query" attrs2 [] (some t2) line2]
        ctx st =
      (st.pushErr ⟨"runtime", "Invalid expression in query \x27" ++
          jsOrStr (attrs1.lookup "name") "anonymous" ++ "\x27",
          some "Check syntax of expression", some line1⟩).setRes
        (jsOrStr (attrs2.lookup "name") "anonymous") v) := by
  refine ⟨?_, ?_, ?_, ?_, fun rs => rfl,
    fun ET R attrs1 t1 line1 attrs2 key t2 line2 tl2 ctx st v hbad ht1 hgood ht2
      hbind hv =>
      V1_failing_query_keeps_sibling ET R syms fuel attrs1 t1 line1 attrs2 key t2
        line2 tl2 ctx st v hbad ht1 hgood ht2 hbind hv⟩
  · intro hfail
    rcases hp : parseV1 tokens with ⟨ast?, perrs⟩
    rw [hp] at hfail
    dsimp only at hfail
    have hcond : perrs.length > 0 ∨ ast?.isNone = true := by
      rcases hfail with h | h
      · exact Or.inl (List.length_pos.mpr h)
      · subst h
        exact Or.inr rfl
    rw [parseNSMLV1, hlex]
    dsimp only
    rw [hp]
    dsimp only
    rw [if_pos hcond]
  · intro hparse hres hrne
    rw [parseNSMLV1, hlex]
    dsimp only
    rw [hparse]
    dsimp only
    rw [if_neg (by simp), hres]
    dsimp only
    rw [if_pos (List.length_pos.mpr hrne)]
  · intro hparse hres hcomp hcne
    rw [parseNSMLV1, hlex]
    dsimp only
    rw [hparse]
    dsimp only
    rw [if_neg (by simp), hres]
    dsimp only
    rw [if_neg (by simp), hcomp]
    dsimp only
    rw [if_pos (List.length_pos.mpr hcne)]
  · intro hparse hres hcomp
    rw [parseNSMLV1, hlex]
    dsimp only
    rw [hparse]
    dsimp only
    rw [if_neg (by simp), hres]
    dsimp only
    rw [if_neg (by simp), hcomp]
    dsimp only
    rw [if_neg (by simp)]

/-- Witness for the amended C8 at `docDup` (resolve-error short-circuit). -/
theorem C8_pipeline_short_circuits_amended_witness :
    parseNSMLV1 9 docDup = .ok ⟨[], [dupErr], []⟩ :=
  (C8_pipeline_short_circuits_amended 9 docDup toksDup astDup symsDup [dupErr]
      [] [] [] (by set_option maxRecDepth 4000 in rfl)).2.1
    (by set_option maxRecDepth 4000 in rfl)
    (by set_option maxRecDepth 4000 in rfl)
    (by decide)

/-- C5: a second declaration whose `name` is already present in the table
leaves the table *identical* — the first entry keeps its kind, type, value
and mutable flag — and appends exactly one semantic `Duplicate symbol`
error.  (This resolver revision stores names as given; the attribute name
is the fully-qualified name of the claim.) -/
theorem C5_duplicate_symbol_first_wins (node : AstNode) (symbols : SymbolTable)
    (errors : List EvalError) (name : String) (e : SymbolEntry)
    (hname : jsOrStr ((node.attributes).lookup "name") "" = name)
    (hne : ¬ name = "")
    (hfirst : List.lookup name symbols = some e) :
    resolveSymbolV1 node symbols errors =
      (symbols, errors ++ [⟨"semantic", "Duplicate symbol \x27" ++ name ++ "\x27",
        none, some node.line⟩]) ∧
    List.lookup name (resolveSymbolV1 node symbols errors).1 = some e ∧
    (resolveSymbolV1 node symbols errors).2.length = errors.length + 1 := by
  match node with
  | .mk ty attrs children text line =>
    have hattrs : jsOrStr (attrs.lookup "name") "" = name := hname
    have hmain : resolveSymbolV1 (.mk ty attrs children text line) symbols errors =
        (symbols, errors ++ [⟨"semantic", "Duplicate symbol \x27" ++ name ++ "\x27",
          none, some line⟩]) := by
      simp only [resolveSymbolV1, hattrs, ne_eq, hne, not_false_eq_true, if_false,
        hfirst, Option.isSome_some, if_true]
    refine ⟨hmain, ?_, ?_⟩
    · rw [hmain]
      exact hfirst
    · rw [hmain]
      simp

/-- Witness for C5: re-declaring `x` against the table in which the first
`x ↦ 1` declaration is already resolved. -/
theorem C5_duplicate_symbol_first_wins_witness :
    resolveSymbolV1 (.mk "var" [("name", "x"), ("type", "number"), ("init", "2")]
        [] none 1) symsDup [] =
      (symsDup, [] ++ [⟨"semantic", "Duplicate symbol \x27x\x27", none,
        some (AstNode.mk "var" [("name", "x"), ("type", "number"), ("init", "2")]
          [] none 1).line⟩]) ∧
    List.lookup "x" (resolveSymbolV1 (.mk "var"
        [("name", "x"), ("type", "number"), ("init", "2")] [] none 1) symsDup []).1 =
      some ⟨"var", "number", .vNum (.rat 1), true⟩ ∧
    (resolveSymbolV1 (.mk "var" [("name", "x"), ("type", "number"), ("init", "2")]
        [] none 1) symsDup []).2.length = List.length ([] : List EvalError) + 1 :=
  C5_duplicate_symbol_first_wins
    (.mk "var" [("name", "x"), ("type", "number"), ("init", "2")] [] none 1)
    symsDup [] "x" ⟨"var", "number", .vNum (.rat 1), true⟩ rfl (by decide) rfl

/-- C9: reference resolution of the (spec-modelled) five-argument
`parseValue` used for var/const initialisers — an unquoted
`[a-zA-Z_][\w.]*` identifier resolves against the symbol table:
`Unresolved reference` when absent, `Reference type mismatch` when the
referenced entry\x27s type disagrees with the declared type, silent
substitution otherwise; a quoted string is always the unquoted literal. -/
theorem C9_reference_resolution (val ty : String) (symbols : SymbolTable)
    (line : Option ℕ) (e : SymbolEntry)
    (hq : ((strStartsWith val "\"" && strEndsWith val "\"") ||
      (strStartsWith val "\x27" && strEndsWith val "\x27")) = false)
    (hid : isRefIdent val = true) :
    (List.lookup val symbols = none →
      parseValue val ty symbols line =
        (.vStr val, [mkErr "semantic" ("Unresolved reference \x27" ++ val ++ "\x27")
          line])) ∧
    (List.lookup val symbols = some e → ty ≠ "any" ∧ e.type ≠ ty →
      parseValue val ty symbols line =
        (e.value, [mkErr "semantic"
          ("Reference type mismatch for \x27" ++ val ++ "\x27") line])) ∧
    (List.lookup val symbols = some e → ¬ (ty ≠ "any" ∧ e.type ≠ ty) →
      parseValue val ty symbols line = (e.value, [])) ∧
    (∀ inner : String,
      parseValue ("\"" ++ inner ++ "\"") ty symbols line =
        (.vStr ((("\"" ++ inner ++ "\"").drop 1).dropRight 1), [])) := by
  refine ⟨?_, ?_, ?_, ?_⟩
  · intro hlk
    simp only [parseValue, hq, Bool.false_eq_true, if_false, hid, if_true, hlk]
  · intro hlk hty
    simp only [parseValue, hq, Bool.false_eq_true, if_false, hid, if_true, hlk,
      if_pos hty]
  · intro hlk hty
    simp only [parseValue, hq, Bool.false_eq_true, if_false, hid, if_true, hlk,
      if_neg hty]
  · intro inner
    have hqq : ((strStartsWith ("\"" ++ inner ++ "\"") "\"" &&
        strEndsWith ("\"" ++ inner ++ "\"") "\"") ||
      (strStartsWith ("\"" ++ inner ++ "\"") "\x27" &&
        strEndsWith ("\"" ++ inner ++ "\"") "\x27")) = true := by
      simp [strStartsWith, strEndsWith, leadsWith]
    simp only [parseValue, hqq, if_true]

/-- Witness for C9: the unresolved bare identifier `z`. -/
theorem C9_reference_resolution_witness :
    parseValue "z" "number" wSymsC9 (some 1) =
      (.vStr "z", [mkErr "semantic" ("Unresolved reference \x27z\x27") (some 1)]) :=
  (C9_reference_resolution "z" "number" wSymsC9 (some 1)
    ⟨"var", "number", .vNum (.rat 5), true⟩ (by decide) (by decide)).1 rfl

mutual

/-- The clone never allocates below the incoming counter. -/
theorem deepCloneH_counter (n : ℕ) (v : HValue) : n ≤ (deepCloneH n v).2 := by
  match v with
  | .hNull | .hUndef | .hBool _ | .hNum _ | .hStr _ => simp [deepCloneH]
  | .hSet a elems => simp [deepCloneH]
  | .hMap a pairs => simp [deepCloneH]
  | .hArr a elems =>
      have h := deepCloneHList_counter (n + 1) elems
      simp only [deepCloneH]
      omega
  | .hObj a fields =>
      have h := deepCloneHFields_counter (n + 1) fields
      simp only [deepCloneH]
      omega

/-- List version of `deepCloneH_counter`. -/
theorem deepCloneHList_counter (n : ℕ) (l : List HValue) :
    n ≤ (deepCloneHList n l).2 := by
  match l with
  | [] => simp [deepCloneHList]
  | v :: rest =>
      have h1 := deepCloneH_counter n v
      have h2 := deepCloneHList_counter (deepCloneH n v).2 rest
      simp only [deepCloneHList]
      omega

/-- Fields version of `deepCloneH_counter`. -/
theorem deepCloneHFields_counter (n : ℕ) (l : List (String × HValue)) :
    n ≤ (deepCloneHFields n l).2 := by
  match l with
  | [] => simp [deepCloneHFields]
  | (k, v) :: rest =>
      have h1 := deepCloneH_counter n v
      have h2 := deepCloneHFields_counter (deepCloneH n v).2 rest
      simp only [deepCloneHFields]
      omega

end

mutual

/-- The clone is structurally equal to its argument. -/
theorem deepCloneH_strip (n : ℕ) (v : HValue) :
    stripAddrs (deepCloneH n v).1 = stripAddrs v := by
  match v with
  | .hNull | .hUndef | .hBool _ | .hNum _ | .hStr _ => rfl
  | .hSet a elems => rfl
  | .hMap a pairs => rfl
  | .hArr a elems =>
      have h := deepCloneHList_strip (n + 1) elems
      rcases hc : deepCloneHList (n + 1) elems with ⟨es, n1⟩
      rw [hc] at h
      simp only [deepCloneH, hc, stripAddrs]
      rw [h]
  | .hObj a fields =>
      have h := deepCloneHFields_strip (n + 1) fields
      rcases hc : deepCloneHFields (n + 1) fields with ⟨fs, n1⟩
      rw [hc] at h
      simp only [deepCloneH, hc, stripAddrs]
      rw [h]

/-- List version of `deepCloneH_strip`. -/
theorem deepCloneHList_strip (n : ℕ) (l : List HValue) :
    stripAddrsList (deepCloneHList n l).1 = stripAddrsList l := by
  match l with
  | [] => rfl
  | v :: rest =>
      have h1 := deepCloneH_strip n v
      rcases hc1 : deepCloneH n v with ⟨v1, n1⟩
      rw [hc1] at h1
      have h2 := deepCloneHList_strip n1 rest
      rcases hc2 : deepCloneHList n1 rest with ⟨vs, n2⟩
      rw [hc2] at h2
      simp only [deepCloneHList, hc1, hc2, stripAddrsList]
      rw [h1, h2]

/-- Fields version of `deepCloneH_strip`. -/
theorem deepCloneHFields_strip (n : ℕ) (l : List (String × HValue)) :
    stripAddrsFields (deepCloneHFields n l).1 = stripAddrsFields l := by
  match l with
  | [] => rfl
  | (k, v) :: rest =>
      have h1 := deepCloneH_strip n v
      rcases hc1 : deepCloneH n v with ⟨v1, n1⟩
      rw [hc1] at h1
      have h2 := deepCloneHFields_strip n1 rest
      rcases hc2 : deepCloneHFields n1 rest with ⟨vs, n2⟩
      rw [hc2] at h2
      simp only [deepCloneHFields, hc1, hc2, stripAddrsFields]
      rw [h1, h2]

end

mutual

/-- Every array/object/container address reachable in the clone outside
`Set`/`Map` contents is freshly allocated (at or above the incoming
counter). -/
theorem deepCloneH_fresh (n : ℕ) (v : HValue) :
    ∀ a ∈ addrsOutside (deepCloneH n v).1, n ≤ a := by
  match v with
  | .hNull | .hUndef | .hBool _ | .hNum _ | .hStr _ => intro a ha; cases ha
  | .hSet b elems =>
      intro a ha
      simp only [deepCloneH, addrsOutside, List.mem_singleton] at ha
      omega
  | .hMap b pairs =>
      intro a ha
      simp only [deepCloneH, addrsOutside, List.mem_singleton] at ha
      omega
  | .hArr b elems =>
      intro a ha
      have h := deepCloneHList_fresh (n + 1) elems
      rcases hc : deepCloneHList (n + 1) elems with ⟨es, n1⟩
      rw [hc] at h
      simp only [deepCloneH, hc, addrsOutside, List.mem_cons] at ha
      rcases ha with rfl | ha
      · omega
      · have := h a ha
        omega
  | .hObj b fields =>
      intro a ha
      have h := deepCloneHFields_fresh (n + 1) fields
      rcases hc : deepCloneHFields (n + 1) fields with ⟨fs, n1⟩
      rw [hc] at h
      simp only [deepCloneH, hc, addrsOutside, List.mem_cons] at ha
      rcases ha with rfl | ha
      · omega
      · have := h a ha
        omega

/-- List version of `deepCloneH_fresh`. -/
theorem deepCloneHList_fresh (n : ℕ) (l : List HValue) :
    ∀ a ∈ addrsOutsideList (deepCloneHList n l).1, n ≤ a := by
  match l with
  | [] => intro a ha; cases ha
  | v :: rest =>
      intro a ha
      have h1 := deepCloneH_fresh n v
      have hcnt := deepCloneH_counter n v
      rcases hc1 : deepCloneH n v with ⟨v1, n1⟩
      rw [hc1] at h1 hcnt
      have h2 := deepCloneHList_fresh n1 rest
      rcases hc2 : deepCloneHList n1 rest with ⟨vs, n2⟩
      rw [hc2] at h2
      simp only [deepCloneHList, hc1, hc2, addrsOutsideList, List.mem_append] at ha
      rcases ha with ha | ha
      · exact h1 a ha
      · have := h2 a ha
        omega

/-- Fields version of `deepCloneH_fresh`. -/
theorem deepCloneHFields_fresh (n : ℕ) (l : List (String × HValue)) :
    ∀ a ∈ addrsOutsideFields (deepCloneHFields n l).1, n ≤ a := by
  match l with
  | [] => intro a ha; cases ha
  | (k, v) :: rest =>
      intro a ha
      have h1 := deepCloneH_fresh n v
      have hcnt := deepCloneH_counter n v
      rcases hc1 : deepCloneH n v with ⟨v1, n1⟩
      rw [hc1] at h1 hcnt
      have h2 := deepCloneHFields_fresh n1 rest
      rcases hc2 : deepCloneHFields n1 rest with ⟨vs, n2⟩
      rw [hc2] at h2
      simp only [deepCloneHFields, hc1, hc2, addrsOutsideFields, List.mem_append] at ha
      rcases ha with ha | ha
      · exact h1 a ha
      · have := h2 a ha
        omega

end

/-- C10: with a fresh allocation counter above every address of `v`,
`deepClone` returns a structurally equal value whose arrays and plain
objects (and `Set`/`Map` containers) reachable outside `Set`/`Map`
contents are all fresh allocations — disjoint from the original\x27s, so
mutating them never affects the original — while a cloned `Set` keeps its
element references and a cloned `Map` keeps its key and value references
identical to the original\x27s. -/
theorem C10_deepClone_reference_semantics (n : ℕ) (v : HValue)
    (hbound : ∀ a ∈ addrsAll v, a < n) :
    stripAddrs (deepCloneH n v).1 = stripAddrs v ∧
    (∀ b ∈ addrsOutside (deepCloneH n v).1, b ∉ addrsAll v) ∧
    (∀ (a : ℕ) (elems : List HValue),
      deepCloneH n (.hSet a elems) = (.hSet n elems, n + 1)) ∧
    (∀ (a : ℕ) (pairs : List (HValue × HValue)),
      deepCloneH n (.hMap a pairs) = (.hMap n pairs, n + 1)) := by
  refine ⟨deepCloneH_strip n v, ?_, fun a elems => rfl, fun a pairs => rfl⟩
  intro b hb hmem
  have h1 := deepCloneH_fresh n v b hb
  have h2 := hbound b hmem
  omega

/-- Witness for C10 at `wHeap` with counter `10`. -/
theorem C10_deepClone_reference_semantics_witness :
    (∀ a ∈ addrsAll wHeap, a < 10) ∧
    stripAddrs (deepCloneH 10 wHeap).1 = stripAddrs wHeap ∧
    (∀ b ∈ addrsOutside (deepCloneH 10 wHeap).1, b ∉ addrsAll wHeap) :=
  ⟨by decide, (C10_deepClone_reference_semantics 10 wHeap (by decide)).1,
    (C10_deepClone_reference_semantics 10 wHeap (by decide)).2.1⟩

end NSML
